import Mathlib

/-!
# Currency localisation and cart of the `scents` storefront

A shallow embedding of `src/scentsbykidida-astro/src/utils/currencyUtils.js`,
`src/scentsbykidida-astro/src/utils/locationService.js` and the cart functions of
`src/script.js`, followed by the properties established about them.

Modelling conventions

* The catalog lookup, the conversion, the formatting and the cart are modelled twice.
  The first model takes numbers as exact rationals (`ℚ`) and integers, with
  `Math.round x = ⌊x + 1/2⌋` and `Math.pow 10 d = 10 ^ d`; it finds the own keys of
  the catalog only, renders `toFixed` in its fixed-notation range (magnitude below
  `10 ^ 21`, at most 100 fraction digits), and inserts the thousands separator as
  it is written.  The statements about detection, caching, initialisation, symbol
  placement and exchange rates are about this model.
* The second model (the names under `Js`) adds what JavaScript adds to it: the
  members that the catalog inherits from `Object.prototype`, `NaN`, arithmetic over
  any number type (`Arith`) with the instances `exactArith` and `doubleArith`
  (53 significant bits, round to nearest, ties to even), the `$` patterns of a
  replacement template, the `RangeError` and the exponent notation of `toFixed`,
  and cart counters rounded to doubles.  The statements about `convertPrice`,
  about `formatNumber`, about `setCurrency` with a name that is not a key, and about
  the cart are about this model.  Where the two models agree is stated by
  `Js_convertPrice_exact`, `Js_setCurrency_eq`, `Js_formatNumber_exact` and
  `Js_runCart_eq`.
* A double is the rational it denotes.  The exponent range of doubles (overflow to
  an infinity, subnormal numbers) and the sign of zero are not represented; `NaN`
  is.  The text of `ToString(x)` from `10 ^ 21` on, which `toFixed` returns there,
  is a parameter (`toStr`).
* `currencies.json` is not part of the sources; the catalog is a parameter
  (`CurrencyData`), an association list in the order of `Object.entries`.
* JavaScript truthiness is kept where the code relies on it: `null`, `undefined`
  and the empty string are falsy (`a || b`), and so is the number `0`.
* `Date.now()` is a parameter (milliseconds, an integer); reads and writes of
  `localStorage` succeed, and what is stored is either text that `JSON.parse`
  rejects or an entry with the fields of a resolution.
* A `throw` is the `Except.error` component of a result; the state reached is
  returned next to it, so that what a failing call leaves behind can be stated.
* Asynchronous calls are run to completion in program order.
* A `fetch` is given by how it ends (rejected, or a response with its `ok` flag and
  parsed body); `toUpperCase` acts on ASCII letters.
* The cart functions are taken without the page: the display is written from the
  state and changes none of it; quantities and the argument of `updateQuantity` are
  integers.
-/

set_option autoImplicit false

namespace Scents

/-! ## The catalog (`currencies.json`) -/

/-- One entry of `currencyData.currencies`.  `name` and `countries` may be absent
from the document. -/
structure CurrencyInfo where
  symbol : String
  name : Option String
  rate : ℚ
  countries : Option (List String)
deriving DecidableEq

/-- The document imported as `currencyData`.  `currencies` holds the entries of the
object in the order in which `Object.entries` enumerates them: document order,
after any keys that are canonical array indices. -/
structure CurrencyData where
  baseCurrency : String
  fallbackCurrency : String
  currencies : List (String × CurrencyInfo)

/-- Models `currencyData.currencies[code]` on the own keys of the catalog: the entry,
or `none`.  The members inherited from `Object.prototype` are added by
`CurrencyData.member`. -/
def CurrencyData.get (cat : CurrencyData) (code : String) : Option CurrencyInfo :=
  cat.currencies.lookup code

/-! ## JavaScript helpers -/

/-- Truthiness of a value that is a string, `null` or `undefined`. -/
def truthy : Option String → Bool
  | some s => s != ""
  | none => false

/-- Models `a || b` on such values. -/
def jsOr (a b : Option String) : Option String :=
  if truthy a then a else b

/-- Models `Math.round`: the nearest integer, halves towards `+∞`. -/
def mathRound (x : ℚ) : ℤ :=
  Rat.floor (x + 1 / 2)

/-- Zero-extend a digit string on the left to at least `w` characters. -/
def padZeros (w : ℕ) (s : List Char) : List Char :=
  List.replicate (w - s.length) '0' ++ s

/-- The digits of `toFixed` for the non-negative integer `n` of step 11 of the
ECMAScript algorithm: the decimal numeral of `n` (`"0"` for zero); when `f ≠ 0` it
is zero-extended to `f + 1` characters if it has at most `f`, and the point is
placed before its last `f` characters. -/
def fixedNotation (n f : ℕ) : List Char :=
  let m : List Char := Nat.toDigits 10 n
  if f ≠ 0 then
    let m := if m.length ≤ f then padZeros (f + 1) m else m
    let k := m.length
    m.take (k - f) ++ '.' :: m.drop (k - f)
  else m

/-- Models `x.toFixed(f)` (ECMAScript `Number.prototype.toFixed`) in its fixed-notation
range, that is for a magnitude below `10 ^ 21` and `f ≤ 100`; `Js.toFixed` is the
model on every number.  A negative `x` is rendered from `-x` behind a minus sign; `n` is the integer for
which `n / 10^f - x` is closest to zero, the larger one on a tie. -/
def toFixed (x : ℚ) (f : ℕ) : List Char :=
  let s : List Char := if x < 0 then ['-'] else []
  let a : ℚ := if x < 0 then -x else x
  let n : ℕ := (Rat.floor (a * (10 : ℚ) ^ f + 1 / 2)).toNat
  s ++ fixedNotation n f

/-- Models `s.split(c)` for a one-character separator: the first piece and the later
pieces. -/
def splitChar (c : Char) : List Char → List Char × List (List Char)
  | [] => ([], [])
  | x :: xs =>
    let r := splitChar c xs
    if x = c then ([], r.1 :: r.2) else (x :: r.1, r.2)

/-- Models `parts.join(sep)` applied to the later pieces: each is preceded by `sep`. -/
def joinRest (sep : List Char) : List (List Char) → List Char
  | [] => []
  | p :: ps => sep ++ p ++ joinRest sep ps

/-- The regular-expression class `\d`. -/
def isDigitChar (c : Char) : Bool :=
  decide ('0' ≤ c) && decide (c ≤ '9')

/-- The regular-expression class `\w`. -/
def isWordChar (c : Char) : Bool :=
  isDigitChar c || (decide ('a' ≤ c) && decide (c ≤ 'z')) ||
    (decide ('A' ≤ c) && decide (c ≤ 'Z')) || c == '_'

/-- Is an optional character a word character (no character is not). -/
def isWord : Option Char → Bool
  | some c => isWordChar c
  | none => false

/-- Length of the longest run of `\d` at the front of a string. -/
def digitRun : List Char → ℕ
  | [] => 0
  | c :: cs => if isDigitChar c then digitRun cs + 1 else 0

/-- Does `/\B(?=(\d{3})+(?!\d))/` match (the empty string) at the position between
`prev` and the front of `rest`?  `\B` holds when both neighbours are word
characters or neither is; the lookahead holds when the digits that follow form a
run whose length is a positive multiple of three. -/
def thousandsMatch (prev : Option Char) (rest : List Char) : Bool :=
  (isWord prev == isWord rest.head?) && decide (0 < digitRun rest) &&
    decide (digitRun rest % 3 = 0)

/-- Models `s.replace(/\B(?=(\d{3})+(?!\d))/g, sep)` for a `sep` without `$`,
scanning from the position that follows `prev`; `Js.replaceFrom` is the model for any
replacement template. -/
def replaceFrom (sep : List Char) : Option Char → List Char → List Char
  | prev, [] => if thousandsMatch prev [] then sep else []
  | prev, c :: cs =>
    (if thousandsMatch prev (c :: cs) then sep else []) ++ c :: replaceFrom sep (some c) cs

/-- Models `s.replace(/\B(?=(\d{3})+(?!\d))/g, sep)` for a `sep` without `$`. -/
def replaceThousands (sep : List Char) (s : List Char) : List Char :=
  replaceFrom sep none s

/-! ## `CurrencyUtils`: conversion and formatting -/

/-- The fields of a `CurrencyUtils` instance. -/
structure CurrencyUtils where
  currentCurrency : Option String
  initialized : Bool
deriving DecidableEq

/-- The instance built by `constructor()`. -/
def CurrencyUtils.new : CurrencyUtils :=
  { currentCurrency := none, initialized := false }

/-- Models `targetCurrency || this.currentCurrency || currencyData.fallbackCurrency`. -/
def CurrencyUtils.currencyOf (cat : CurrencyData) (self : CurrencyUtils)
    (targetCurrency : Option String) : String :=
  ((jsOr (jsOr targetCurrency self.currentCurrency) (some cat.fallbackCurrency)).getD
    cat.fallbackCurrency)

/-- Models `convertPrice(basePrice, targetCurrency = null)` over exact numbers and the
own keys of the catalog; `Js.convertPrice` is the model over an arithmetic of numbers
and with the inherited members. -/
def CurrencyUtils.convertPrice (cat : CurrencyData) (self : CurrencyUtils)
    (basePrice : ℚ) (targetCurrency : Option String) : ℚ :=
  let currency := self.currencyOf cat targetCurrency
  match cat.get currency with
  | none => basePrice
  | some currencyInfo => (mathRound ((basePrice * currencyInfo.rate) * 100) : ℚ) / 100

/-- The resolved formatting options of `formatPrice` / the argument of
`formatNumber`. -/
structure FormatOptions where
  showSymbol : Bool
  showCode : Bool
  decimals : ℕ
  thousandsSeparator : String
  decimalSeparator : String
deriving DecidableEq

/-- The `options` argument of `formatPrice`: any subset of the fields. -/
structure FormatOverrides where
  showSymbol : Option Bool
  showCode : Option Bool
  decimals : Option ℕ
  thousandsSeparator : Option String
  decimalSeparator : Option String

/-- The default `options = {}`. -/
def FormatOverrides.empty : FormatOverrides :=
  { showSymbol := none, showCode := none, decimals := none,
    thousandsSeparator := none, decimalSeparator := none }

/-- The literal `defaultOptions` of `formatPrice`. -/
def defaultOptions : FormatOptions :=
  { showSymbol := true, showCode := false, decimals := 2,
    thousandsSeparator := ",", decimalSeparator := "." }

/-- The spread `{ ...defaultOptions, ...options }`. -/
def mergeOptions (d : FormatOptions) (o : FormatOverrides) : FormatOptions :=
  { showSymbol := o.showSymbol.getD d.showSymbol,
    showCode := o.showCode.getD d.showCode,
    decimals := o.decimals.getD d.decimals,
    thousandsSeparator := o.thousandsSeparator.getD d.thousandsSeparator,
    decimalSeparator := o.decimalSeparator.getD d.decimalSeparator }

/-- Models `formatNumber(number, options)` over exact numbers, in the fixed-notation
range of `toFixed` and for a thousands separator without `$`; `Js.formatNumber` is the
model over an arithmetic of numbers. -/
def CurrencyUtils.formatNumber (number : ℚ) (options : FormatOptions) : String :=
  let rounded : ℚ :=
    (mathRound (number * (10 : ℚ) ^ options.decimals) : ℚ) / (10 : ℚ) ^ options.decimals
  let parts := splitChar '.' (toFixed rounded options.decimals)
  let parts0 := replaceThousands options.thousandsSeparator.data parts.1
  String.mk (parts0 ++ joinRest options.decimalSeparator.data parts.2)

/-- Models `formatPrice(price, targetCurrency = null, options = {})`. -/
def CurrencyUtils.formatPrice (cat : CurrencyData) (self : CurrencyUtils)
    (price : ℚ) (targetCurrency : Option String) (options : FormatOverrides) : String :=
  let currency := self.currencyOf cat targetCurrency
  match cat.get currency with
  | none => "$" ++ String.mk (toFixed price 2)
  | some currencyInfo =>
    let convertedPrice := self.convertPrice cat price (some currency)
    let formatOptions := mergeOptions defaultOptions options
    let formattedNumber := CurrencyUtils.formatNumber convertedPrice formatOptions
    if formatOptions.showSymbol then
      if currency = "EUR" then formattedNumber ++ currencyInfo.symbol
      else currencyInfo.symbol ++ formattedNumber
    else if formatOptions.showCode then formattedNumber ++ " " ++ currency
    else formattedNumber

/-- Models `getCurrencyInfo(currencyCode = null)`. -/
def CurrencyUtils.getCurrencyInfo (cat : CurrencyData) (self : CurrencyUtils)
    (currencyCode : Option String) : Option CurrencyInfo :=
  cat.get (self.currencyOf cat currencyCode)

/-- Models `getCurrentCurrency()`. -/
def CurrencyUtils.getCurrentCurrency (cat : CurrencyData) (self : CurrencyUtils) : String :=
  (jsOr self.currentCurrency (some cat.fallbackCurrency)).getD cat.fallbackCurrency

/-- Models `isInitialized()`. -/
def CurrencyUtils.isInitialized (self : CurrencyUtils) : Bool :=
  self.initialized

/-! ## `LocationService` -/

/-- What a detection strategy resolves to: `{ country, method, ... }` (the further
fields, such as `city` or `timezone`, are never read). -/
structure Location where
  country : String
  method : String
deriving DecidableEq

/-- The object returned by `detectLocationAndCurrency`; cached copies carry the
`timestamp` added by `cacheLocation`. -/
structure Resolution where
  country : String
  currency : String
  detected : Bool
  method : String
  timestamp : Option ℤ
deriving DecidableEq

/-- The `localStorage` item `kidida_location_cache` as `JSON.parse` sees it: text
it rejects (or that is not an object), or an entry. -/
inductive Stored where
  | malformed
  | entry (data : Resolution)
deriving DecidableEq

/-- The four detection strategies of `tryMultipleDetectionMethods`. -/
inductive Strategy where
  | ipLookup
  | geolocation
  | timezone
  | language
deriving DecidableEq

/-- How a call of a strategy ends: it throws (or its promise rejects), it resolves
to `undefined` (`.ok none`), or it resolves to a result, whose `country` may be
empty. -/
abbrev Outcome := Except String (Option Location)

/-- The change notification `currencyChanged` (its `detail`). -/
structure CurrencyChanged where
  currency : String
  locationData : Option Resolution
  manual : Option Bool
deriving DecidableEq

/-- Everything the two singletons read and write: their own fields, the
`localStorage` item, the events dispatched on `window` so far, and the detection
strategies invoked so far (in order). -/
structure World where
  currency : CurrencyUtils
  cache : Option Resolution
  storage : Option Stored
  events : List CurrencyChanged
  ran : List Strategy
deriving DecidableEq

/-- What the environment answers during one call of `detectLocationAndCurrency`:
the clock when the cache is read, the outcome each strategy has if it is invoked,
and the clock when a fresh result is cached. -/
structure DetectEnv where
  now : ℤ
  ipLookup : Outcome
  geolocation : Outcome
  timezone : Outcome
  language : Outcome
  cachedAt : ℤ

/-- The outcome of invoking a strategy. -/
def DetectEnv.outcome (env : DetectEnv) : Strategy → Outcome
  | .ipLookup => env.ipLookup
  | .geolocation => env.geolocation
  | .timezone => env.timezone
  | .language => env.language

/-- Models `this.cacheExpiry = 24 * 60 * 60 * 1000`. -/
def cacheExpiry : ℤ := 24 * 60 * 60 * 1000

/-- Models `(Date.now() - x.timestamp) < this.cacheExpiry`; the difference is `NaN` and
the comparison false when there is no timestamp. -/
def withinExpiry (now : ℤ) : Option ℤ → Bool
  | some t => decide (now - t < cacheExpiry)
  | none => false

/-- Truthiness of `data.timestamp`. -/
def truthyNumber : Option ℤ → Bool
  | some t => t != 0
  | none => false

/-- The second half of `getCachedLocation()`: the stored entry if it parses, has a
truthy timestamp and is young enough (it is then copied to memory), else `null`.
An exception of `JSON.parse`, or of reading a field of what it returned, is caught
by the surrounding `try` and answered with `null`. -/
def readStorage (now : ℤ) (w : World) : Option Resolution × World :=
  match w.storage with
  | some (.entry data) =>
    if truthyNumber data.timestamp && withinExpiry now data.timestamp then
      (some data, { w with cache := some data })
    else (none, w)
  | some .malformed => (none, w)
  | none => (none, w)

/-- Models `getCachedLocation()`: the memory entry if it is young enough, else what the
stored entry gives. -/
def getCachedLocation (now : ℤ) (w : World) : Option Resolution × World :=
  match w.cache with
  | some memoryCache =>
    if withinExpiry now memoryCache.timestamp then (some memoryCache, w)
    else readStorage now w
  | none => readStorage now w

/-- Models `cacheLocation(result)` at clock `now`. -/
def cacheLocation (now : ℤ) (result : Resolution) (w : World) : World :=
  let cacheData : Resolution := { result with timestamp := some now }
  { w with storage := some (.entry cacheData), cache := some cacheData }

/-- Models `clearCache()`. -/
def clearCache (w : World) : World :=
  { w with cache := none, storage := none }

/-- Models `getFallbackCurrency()`. -/
def getFallbackCurrency (cat : CurrencyData) : Resolution :=
  { country := "US", currency := cat.fallbackCurrency, detected := false,
    method := "fallback", timestamp := none }

/-- The loop of `getCurrencyForCountry` over `Object.entries(currencyData.currencies)`;
reading `.includes` of an absent `countries` throws a `TypeError`. -/
def currencyForCountryFrom (fallback : String) (countryCode : String) :
    List (String × CurrencyInfo) → Except String String
  | [] => .ok fallback
  | (currencyCode, currencyInfo) :: rest =>
    match currencyInfo.countries with
    | none => .error "TypeError: currencyInfo.countries is undefined"
    | some countries =>
      if countries.contains countryCode then .ok currencyCode
      else currencyForCountryFrom fallback countryCode rest

/-- Models `getCurrencyForCountry(countryCode)`. -/
def getCurrencyForCountry (cat : CurrencyData) (countryCode : String) : Except String String :=
  currencyForCountryFrom cat.fallbackCurrency countryCode cat.currencies

/-- The `for (const method of methods)` loop of `tryMultipleDetectionMethods`:
each method is invoked inside `try`; a result with a truthy `country` is returned,
anything else, a throw included, moves on to the next method. -/
def tryMethods (env : DetectEnv) : List Strategy → World → Except String (Option Location) × World
  | [], w => (.ok none, w)
  | method :: rest, w =>
    let w1 : World := { w with ran := w.ran ++ [method] }
    match env.outcome method with
    | .ok (some result) =>
      if result.country ≠ "" then (.ok (some result), w1) else tryMethods env rest w1
    | .ok none => tryMethods env rest w1
    | .error _ => tryMethods env rest w1

/-- The array `methods` of `tryMultipleDetectionMethods`. -/
def methods : List Strategy :=
  [.ipLookup, .geolocation, .timezone, .language]

/-- Models `tryMultipleDetectionMethods()`. -/
def tryMultipleDetectionMethods (env : DetectEnv) (w : World) :
    Except String (Option Location) × World :=
  tryMethods env methods w

/-- Models `detectLocationAndCurrency()`; whatever is thrown inside the body is caught and
answered with `getFallbackCurrency()`. -/
def detectLocationAndCurrency (cat : CurrencyData) (env : DetectEnv) (w : World) :
    Except String Resolution × World :=
  match getCachedLocation env.now w with
  | (some cached, w1) => (.ok cached, w1)
  | (none, w1) =>
    match tryMultipleDetectionMethods env w1 with
    | (.error _, w2) => (.ok (getFallbackCurrency cat), w2)
    | (.ok none, w2) => (.ok (getFallbackCurrency cat), w2)
    | (.ok (some location), w2) =>
      match getCurrencyForCountry cat location.country with
      | .error _ => (.ok (getFallbackCurrency cat), w2)
      | .ok currency =>
        let result : Resolution :=
          { country := location.country, currency := currency, detected := true,
            method := location.method, timestamp := none }
        (.ok result, cacheLocation env.cachedAt result w2)

/-- Models `setManualCurrency(currencyCode)` at clock `now`. -/
def setManualCurrency (now : ℤ) (currencyCode : String) (w : World) : Resolution × World :=
  let result : Resolution :=
    { country := "MANUAL", currency := currencyCode, detected := false,
      method := "manual", timestamp := none }
  (result, cacheLocation now result w)

/-! ## `CurrencyUtils`: state changes -/

/-- What `initialize()` resolves to: `undefined` (the early `return`), `null`, or
the location data. -/
inductive InitResult where
  | undefined
  | null
  | locationData (r : Resolution)
deriving DecidableEq

/-- Models `initialize()`, with `locationService.detectLocationAndCurrency` as a
parameter so that a throwing resolver can be considered too. -/
def CurrencyUtils.initialize (cat : CurrencyData)
    (resolver : World → Except String Resolution × World) (w : World) :
    Except String InitResult × World :=
  if w.currency.initialized then (.ok .undefined, w)
  else
    match resolver w with
    | (.ok locationData, w1) =>
      let w2 : World :=
        { w1 with currency := { currentCurrency := some locationData.currency, initialized := true } }
      let w3 : World :=
        { w2 with events := w2.events ++
            [{ currency := locationData.currency, locationData := some locationData,
               manual := none }] }
      (.ok (.locationData locationData), w3)
    | (.error _, w1) =>
      (.ok .null,
        { w1 with currency := { currentCurrency := some cat.fallbackCurrency, initialized := true } })

/-- Models `setCurrency(currencyCode)` at clock `now`. -/
def CurrencyUtils.setCurrency (cat : CurrencyData) (now : ℤ) (currencyCode : String)
    (w : World) : Except String String × World :=
  match cat.get currencyCode with
  | none => (.error ("Currency " ++ currencyCode ++ " is not supported"), w)
  | some _ =>
    let w1 : World := { w with currency := { w.currency with currentCurrency := some currencyCode } }
    let w2 : World := (setManualCurrency now currencyCode w1).2
    let w3 : World :=
      { w2 with events := w2.events ++
          [{ currency := currencyCode, locationData := none, manual := some true }] }
    (.ok currencyCode, w3)

/-- The public methods of `CurrencyUtils`, as calls with their arguments. -/
inductive Op where
  | callInitialize (env : DetectEnv)
  | callSetCurrency (currencyCode : String) (now : ℤ)
  | callConvertPrice (basePrice : ℚ) (targetCurrency : Option String)
  | callFormatPrice (price : ℚ) (targetCurrency : Option String) (options : FormatOverrides)
  | callFormatNumber (number : ℚ) (options : FormatOptions)
  | callGetCurrencyInfo (currencyCode : Option String)
  | callGetAvailableCurrencies
  | callGetCurrentCurrency
  | callIsInitialized
  | callGetPriceRange (prices : List ℚ) (targetCurrency : Option String)
  | callCreatePriceComparison (basePrice : ℚ)
  | callGetExchangeRate (fromCurrency toCurrency : String)
  | callFormatProductPrice (price : ℚ) (showOriginal : Bool)
  | callGetLocalizedCurrencyName (currencyCode locale : String)

/-- The state after a call.  Only `initialize` and `setCurrency` assign to a field
or reach the location service; the other methods read. -/
def Op.run (cat : CurrencyData) : Op → World → World
  | .callInitialize env, w =>
    ( CurrencyUtils.initialize cat (detectLocationAndCurrency cat env) w).2
  | .callSetCurrency currencyCode now, w => (CurrencyUtils.setCurrency cat now currencyCode w).2
  | _, w => w

/-! ## Data used in examples -/

/-- The catalog of the end-to-end example:
`USD` with rate 1 and symbol `$`, `EUR` with rate 0.9 and symbol `€`. -/
def endToEndCatalog : CurrencyData :=
  { baseCurrency := "USD", fallbackCurrency := "USD",
    currencies :=
      [("USD", { symbol := "$", name := none, rate := 1, countries := none }),
       ("EUR", { symbol := "€", name := none, rate := 9 / 10, countries := none })] }

/-- A catalog with country lists. -/
def sampleCatalog : CurrencyData :=
  { baseCurrency := "USD", fallbackCurrency := "USD",
    currencies :=
      [("USD", { symbol := "$", name := some "US Dollar", rate := 1, countries := some ["US"] }),
       ("EUR", { symbol := "€", name := some "Euro", rate := 9 / 10,
                 countries := some ["FR", "DE"] }),
       ("KES", { symbol := "KSh", name := some "Kenyan Shilling", rate := 129,
                 countries := some ["KE"] })] }

/-- The state at module load: fresh singletons, nothing stored, nothing dispatched. -/
def World.start : World :=
  { currency := CurrencyUtils.new, cache := none, storage := none, events := [], ran := [] }

/-- An environment in which every strategy throws. -/
def allFail (now : ℤ) : DetectEnv :=
  { now := now, ipLookup := .error "All IP detection services failed",
    geolocation := .error "Geolocation not supported",
    timezone := .error "Timezone detection failed",
    language := .error "Language detection failed", cachedAt := now }

/-- An environment in which the IP lookup fails and the timezone gives Kenya. -/
def kenyaByTimezone (now : ℤ) : DetectEnv :=
  { now := now, ipLookup := .error "All IP detection services failed",
    geolocation := .error "Geolocation timeout",
    timezone := .ok (some { country := "KE", method := "timezone" }),
    language := .ok (some { country := "US", method := "language" }), cachedAt := now + 3 }

/-- A resolution as a first detection by IP lookup produces it. -/
def kenyaResolution : Resolution :=
  { country := "KE", currency := "KES", detected := true, method := "ip-api", timestamp := none }

/-- A resolver that throws, for instance because the configuration is corrupt. -/
def throwingResolver (w : World) : Except String Resolution × World :=
  (.error "TypeError: currencyData is undefined", w)

/-- The resolution built by `setManualCurrency(code)` as it is cached at time `T`. -/
def manualEntry (code : String) (T : ℤ) : Resolution :=
  { country := "MANUAL", currency := code, detected := false, method := "manual",
    timestamp := some T }

/-- The state after a page load that finds a manual override stored at time 1000. -/
def reloadedWorld : World :=
  { World.start with storage := some (.entry (manualEntry "EUR" 1000)) }

/-- A state in which the service is initialized with the Kenyan shilling. -/
def initializedWorld : World :=
  { World.start with currency := { currentCurrency := some "KES", initialized := true } }

/-! ## Notions used to state the properties -/

/-- The `d` digits after the point of the decimal `n / 10 ^ d`, most significant
first: the digit of weight `10 ^ i` of `n` for `i = d - 1, ..., 0`. -/
def fractionDigits (d n : ℕ) : List Char :=
  (List.range d).reverse.map (fun i => Nat.digitChar (n / 10 ^ i % 10))

/-- A separator in front of every character that has a multiple of three characters
from itself to the end. -/
def separateFromRight (sep : List Char) : List Char → List Char
  | [] => []
  | c :: cs =>
    (if (cs.length + 1) % 3 = 0 then sep else []) ++ c :: separateFromRight sep cs

/-- Does an outcome carry a non-empty country (`result && result.country`)? -/
def yieldsCountry : Outcome → Bool
  | .ok (some result) => result.country != ""
  | _ => false

/-! ## `CurrencyUtils`: exchange rates -/

/-- Models `currencyData.currencies[code]?.rate || 1`: the rate of the entry, and 1
when there is no entry or when its rate is the falsy number 0. -/
def rateOrOne (cat : CurrencyData) (code : String) : ℚ :=
  match cat.get code with
  | some currencyInfo => if currencyInfo.rate ≠ 0 then currencyInfo.rate else 1
  | none => 1

/-- Models `getExchangeRate(fromCurrency, toCurrency)`. -/
def CurrencyUtils.getExchangeRate (cat : CurrencyData) (fromCurrency toCurrency : String) : ℚ :=
  let fromRate := rateOrOne cat fromCurrency
  let toRate := rateOrOne cat toCurrency
  toRate / fromRate

/-- The rate of a code as the specification words it: the rate of its catalog
entry, a code absent from the catalog counting as rate 1. -/
def statedRate (cat : CurrencyData) (code : String) : ℚ :=
  match cat.get code with
  | some currencyInfo => currencyInfo.rate
  | none => 1

/-- A catalog in which one currency has the rate 0. -/
def zeroRateCatalog : CurrencyData :=
  { baseCurrency := "USD", fallbackCurrency := "USD",
    currencies :=
      [("USD", { symbol := "$", name := some "US Dollar", rate := 1, countries := some ["US"] }),
       ("XTS", { symbol := "¤", name := some "Test", rate := 0, countries := some [] })] }

/-! ## `LocationService.detectViaIPAPI` -/

/-- The fields read from the body of an IP lookup: `country_code` (primary
endpoint) and `country` (secondary endpoint); each may be absent. -/
structure IpBody where
  country_code : Option String
  country : Option String
deriving DecidableEq

/-- How `fetch(url)` followed by `response.json()` ends: the request is rejected, or
a response arrives with its `ok` flag and a body, `none` when `response.json()`
rejects (or gives a value whose fields cannot be read). -/
inductive FetchResult where
  | rejected
  | response (ok : Bool) (body : Option IpBody)
deriving DecidableEq

/-- The two endpoints of `detectViaIPAPI`: `https://ipapi.co/json/` and
`https://api.country.is/`. -/
inductive Endpoint where
  | ipapi
  | countryIs
deriving DecidableEq

/-- Models `s.toUpperCase()` on ASCII text, which country codes are. -/
def toUpperCase (s : String) : String :=
  String.mk (s.data.map Char.toUpper)

/-- The `catch (error)` block of `detectViaIPAPI`: the secondary endpoint is fetched
and its body parsed without a look at `response.ok`; a truthy `country` is returned
upper-cased with method `country-is`; a rejection of either promise throws
`All IP detection services failed`; a body without `country` leaves the function
without a `return`. -/
def alternativeIPService (secondary : FetchResult) : Outcome :=
  match secondary with
  | .rejected => .error "All IP detection services failed"
  | .response _ none => .error "All IP detection services failed"
  | .response _ (some data) =>
    if truthy data.country then
      .ok (some { country := toUpperCase (data.country.getD ""), method := "country-is" })
    else .ok none

/-- Models `detectViaIPAPI()`, given how the two requests end: the outcome, and the
endpoints fetched, in order.  Inside `try`, a rejected request, a response that is
not `ok` and a body that does not parse all throw and lead to the `catch` block; a
truthy `country_code` is returned upper-cased with method `ip-api`; a body without
`country_code` ends the `try` block normally, so the function returns `undefined`. -/
def detectViaIPAPI (primary secondary : FetchResult) : Outcome × List Endpoint :=
  match primary with
  | .rejected => (alternativeIPService secondary, [.ipapi, .countryIs])
  | .response false _ => (alternativeIPService secondary, [.ipapi, .countryIs])
  | .response true none => (alternativeIPService secondary, [.ipapi, .countryIs])
  | .response true (some data) =>
    if truthy data.country_code then
      (.ok (some { country := toUpperCase (data.country_code.getD ""), method := "ip-api" }),
        [.ipapi])
    else (.ok none, [.ipapi])

/-- Does the primary lookup fail with an error: a rejected request, a response
that is not `ok`, or a body that does not parse? -/
def failsWithError : FetchResult → Bool
  | .rejected => true
  | .response false _ => true
  | .response true none => true
  | .response true (some _) => false

/-- Does a lookup answer with the given non-empty country in its `country` field? -/
def answersCountry (r : FetchResult) (c : String) : Prop :=
  c ≠ "" ∧ ∃ ok data, r = .response ok (some data) ∧ data.country = some c

/-- An environment for `detectLocationAndCurrency` whose IP strategy is
`detectViaIPAPI` on the given requests. -/
def DetectEnv.withIP (env : DetectEnv) (primary secondary : FetchResult) : DetectEnv :=
  { env with ipLookup := (detectViaIPAPI primary secondary).1 }

/-- A body of the primary endpoint without `country_code`, as it answers for a
reserved address. -/
def noCountryBody : IpBody :=
  { country_code := none, country := none }

/-- A body of the secondary endpoint that names Kenya in lower case. -/
def kenyaBody : IpBody :=
  { country_code := none, country := some "ke" }

/-- An environment in which only the browser geolocation yields a country. -/
def kenyaByGeolocation (now : ℤ) : DetectEnv :=
  { now := now, ipLookup := .error "All IP detection services failed",
    geolocation := .ok (some { country := "KE", method := "geolocation" }),
    timezone := .ok (some { country := "US", method := "timezone" }),
    language := .ok (some { country := "US", method := "language" }), cachedAt := now + 3 }

/-- The state after a sequence of calls, made one after the other. -/
def runAll (cat : CurrencyData) (ops : List Op) (w : World) : World :=
  ops.foldl (fun v op => op.run cat v) w

/-- What a call of `setCurrency` in a sequence leaves as the code set last: its
argument when that is a key of the catalog, and the earlier value when the call
throws; other calls leave the value. -/
def noteSetCurrency (cat : CurrencyData) (acc : Option String) : Op → Option String
  | .callSetCurrency currencyCode _ => if (cat.get currencyCode).isSome then some currencyCode else acc
  | _ => acc

/-- The argument of the most recent call of `setCurrency` in a sequence that did
not throw, if there is one. -/
def lastSetCurrency (cat : CurrencyData) (ops : List Op) : Option String :=
  ops.foldl (noteSetCurrency cat) none

/-! ## The shopping cart (`script.js`) -/

/-- An element of the array `cart`. -/
structure CartItem where
  id : String
  name : String
  price : ℚ
  quantity : ℤ
deriving DecidableEq

/-- What `addToCart(event)` reads from the clicked button and its product card:
`dataset.product`, the text of the heading, and `parseFloat(dataset.price)`. -/
structure Product where
  id : String
  name : String
  price : ℚ
deriving DecidableEq

/-- The two module variables `cart` and `cartCount`. -/
structure CartState where
  cart : List CartItem
  cartCount : ℤ
deriving DecidableEq

/-- The state at load: `let cart = []; let cartCount = 0;`. -/
def CartState.start : CartState :=
  { cart := [], cartCount := 0 }

/-- Models `cart.find(item => item.id === productId)`. -/
def findItem (productId : String) (cart : List CartItem) : Option CartItem :=
  cart.find? (fun item => item.id == productId)

/-- The array after an assignment to `quantity` of the item that `cart.find`
returned: the first item with that id is changed in place. -/
def setQuantity (productId : String) (q : ℤ) : List CartItem → List CartItem
  | [] => []
  | item :: rest =>
    if item.id == productId then { item with quantity := q } :: rest
    else item :: setQuantity productId q rest

/-- Models `cart.splice(cart.findIndex(item => item.id === productId), 1)` when the
index is found: the first item with that id is taken out. -/
def spliceItem (productId : String) : List CartItem → List CartItem
  | [] => []
  | item :: rest =>
    if item.id == productId then rest else item :: spliceItem productId rest

/-- Models `addToCart(event)` over the integers; the display is refreshed from the
state and changes none of it.  `Js.addToCart` is the model in double arithmetic. -/
def addToCart (product : Product) (s : CartState) : CartState :=
  let cart :=
    match findItem product.id s.cart with
    | some existingItem => setQuantity product.id (existingItem.quantity + 1) s.cart
    | none =>
      s.cart ++ [{ id := product.id, name := product.name, price := product.price,
                   quantity := 1 }]
  { cart := cart, cartCount := s.cartCount + 1 }

/-- Models `removeFromCart(productId)` over the integers. -/
def removeFromCart (productId : String) (s : CartState) : CartState :=
  match findItem productId s.cart with
  | some item =>
    { cart := spliceItem productId s.cart, cartCount := s.cartCount - item.quantity }
  | none => s

/-- Models `updateQuantity(productId, newQuantity)` for an integer `newQuantity`, over
the integers. -/
def updateQuantity (productId : String) (newQuantity : ℤ) (s : CartState) : CartState :=
  match findItem productId s.cart with
  | some item =>
    let oldQuantity := item.quantity
    let quantity := max 0 newQuantity
    let s1 : CartState :=
      { cart := setQuantity productId quantity s.cart,
        cartCount := s.cartCount + (quantity - oldQuantity) }
    if quantity = 0 then removeFromCart productId s1 else s1
  | none => s

/-- A call of one of the three cart functions. -/
inductive CartOp where
  | add (product : Product)
  | remove (productId : String)
  | update (productId : String) (newQuantity : ℤ)

/-- The state after a call. -/
def CartOp.run : CartOp → CartState → CartState
  | .add product, s => addToCart product s
  | .remove productId, s => removeFromCart productId s
  | .update productId newQuantity, s => updateQuantity productId newQuantity s

/-- The state after a sequence of calls from the state at load. -/
def runCart (ops : List CartOp) : CartState :=
  ops.foldl (fun s op => op.run s) CartState.start

/-- The sum of the quantities of the items of a cart. -/
def totalQuantity (cart : List CartItem) : ℤ :=
  (cart.map (fun item => item.quantity)).sum

/-- The three properties of the cart: the counter is the sum of the quantities,
every quantity is at least 1, and no id occurs twice. -/
def CartInvariant (s : CartState) : Prop :=
  s.cartCount = totalQuantity s.cart ∧
  (∀ item ∈ s.cart, 1 ≤ item.quantity) ∧
  (s.cart.map (fun item => item.id)).Nodup

/-- A product of the storefront. -/
def roseProduct : Product :=
  { id := "rose-oud", name := "Rose Oud", price := 120 }

/-- Another product of the storefront. -/
def amberProduct : Product :=
  { id := "amber-night", name := "Amber Night", price := 95 }

/-! ## Members inherited from `Object.prototype`, and number arithmetic -/

/-- The names of the members that every plain object, the catalog included,
inherits from `Object.prototype`. -/
def objectPrototypeNames : List String :=
  ["constructor", "__proto__", "hasOwnProperty", "isPrototypeOf", "propertyIsEnumerable",
   "toLocaleString", "toString", "valueOf", "__defineGetter__", "__defineSetter__",
   "__lookupGetter__", "__lookupSetter__"]

/-- What `currencyData.currencies[code]` evaluates to: the entry of an own key, a
member inherited from `Object.prototype` (a function or an object, truthy, without a
`rate`), or `undefined`. -/
inductive Member where
  | entry (info : CurrencyInfo)
  | inherited
  | undefined
deriving DecidableEq

/-- Models `currencyData.currencies[code]` with the inherited members: an own key
is found first, then a name of `Object.prototype`. -/
def CurrencyData.member (cat : CurrencyData) (code : String) : Member :=
  match cat.get code with
  | some info => .entry info
  | none => if objectPrototypeNames.contains code then .inherited else .undefined

/-- The arithmetic of JavaScript numbers as far as `convertPrice` and `formatNumber`
use it, over a type `N` of numbers: the number a decimal numeral denotes, `NaN`, the
product, the quotient, `Math.round`, `Math.pow(10, d)`, and the propagation of
`NaN`. -/
structure Arith (N : Type) where
  ofRat : ℚ → N
  nan : N
  mul : N → N → N
  div : N → N → N
  round : N → N
  pow10 : ℕ → N
  mul_nan : ∀ x, mul x nan = nan
  nan_mul : ∀ x, mul nan x = nan
  nan_div : ∀ x, div nan x = nan
  round_nan : round nan = nan

/-- Exact arithmetic with `NaN` (`none`): no operation rounds.  Infinities are not
represented; a quotient by 0 is given as `NaN`. -/
def exactArith : Arith (Option ℚ) where
  ofRat := some
  nan := none
  mul a b := match a, b with
    | some x, some y => some (x * y)
    | _, _ => none
  div a b := match a, b with
    | some x, some y => if y = 0 then none else some (x / y)
    | _, _ => none
  round a := match a with
    | some x => some ((mathRound x : ℤ) : ℚ)
    | none => none
  pow10 d := some ((10 : ℚ) ^ d)
  mul_nan := by intro x; cases x <;> rfl
  nan_mul := by intro x; rfl
  nan_div := by intro x; rfl
  round_nan := rfl

/-- The integer nearest to `x`, the even one of the two when `x` lies halfway. -/
def roundHalfEven (x : ℚ) : ℤ :=
  if x - (Rat.floor x : ℚ) < 1 / 2 then Rat.floor x
  else if 1 / 2 < x - (Rat.floor x : ℚ) then Rat.floor x + 1
  else if Rat.floor x % 2 = 0 then Rat.floor x
  else Rat.floor x + 1

/-- The double nearest to `x`: 53 significant bits, round to nearest, ties to even.
The exponent range of doubles (overflow, subnormal numbers) is not represented. -/
def toDouble (x : ℚ) : ℚ :=
  if x = 0 then 0
  else
    (if x < 0 then -1 else 1) *
      (roundHalfEven (|x| * (2 : ℚ) ^ (52 - Int.log 2 |x|)) : ℚ) *
      (2 : ℚ) ^ (Int.log 2 |x| - 52)

/-- Double arithmetic with `NaN` (`none`): a numeral denotes the nearest double, a
product and a quotient are rounded to the nearest double, `Math.round` is exact, and
`Math.pow(10, d)` is the double nearest to `10 ^ d` (which is `10 ^ d` itself up to
`d = 22`).  Infinities and the sign of zero are not represented; a quotient by 0 is
given as `NaN`. -/
def doubleArith : Arith (Option ℚ) where
  ofRat q := some (toDouble q)
  nan := none
  mul a b := match a, b with
    | some x, some y => some (toDouble (x * y))
    | _, _ => none
  div a b := match a, b with
    | some x, some y => if y = 0 then none else some (toDouble (x / y))
    | _, _ => none
  round a := match a with
    | some x => some ((mathRound x : ℤ) : ℚ)
    | none => none
  pow10 d := some (toDouble ((10 : ℚ) ^ d))
  mul_nan := by intro x; cases x <;> rfl
  nan_mul := by intro x; rfl
  nan_div := by intro x; rfl
  round_nan := rfl

/-- Models `convertPrice(basePrice, targetCurrency = null)` over an arithmetic, with
the inherited members: for such a member `currencyInfo` is truthy and
`currencyInfo.rate` is `undefined`, which the product turns into `NaN`. -/
def Js.convertPrice {N : Type} (A : Arith N) (cat : CurrencyData) (self : CurrencyUtils)
    (basePrice : N) (targetCurrency : Option String) : N :=
  let currency := self.currencyOf cat targetCurrency
  match cat.member currency with
  | .undefined => basePrice
  | .entry currencyInfo =>
    A.div (A.round (A.mul (A.mul basePrice (A.ofRat currencyInfo.rate)) (A.ofRat 100)))
      (A.ofRat 100)
  | .inherited =>
    A.div (A.round (A.mul (A.mul basePrice A.nan) (A.ofRat 100))) (A.ofRat 100)

/-- Models `setCurrency(currencyCode)` at clock `now`, with the inherited members:
the guard `!currencyData.currencies[currencyCode]` lets every truthy member pass. -/
def Js.setCurrency (cat : CurrencyData) (now : ℤ) (currencyCode : String)
    (w : World) : Except String String × World :=
  match cat.member currencyCode with
  | .undefined => (.error ("Currency " ++ currencyCode ++ " is not supported"), w)
  | _ =>
    let w1 : World := { w with currency := { w.currency with currentCurrency := some currencyCode } }
    let w2 : World := (setManualCurrency now currencyCode w1).2
    let w3 : World :=
      { w2 with events := w2.events ++
          [{ currency := currencyCode, locationData := none, manual := some true }] }
    (.ok currencyCode, w3)

/-- A catalog with a rate of 1.25. -/
def quarterCatalog : CurrencyData :=
  { baseCurrency := "USD", fallbackCurrency := "USD",
    currencies :=
      [("USD", { symbol := "$", name := some "US Dollar", rate := 1, countries := some ["US"] }),
       ("CAD", { symbol := "C$", name := some "Canadian Dollar", rate := 5 / 4,
                 countries := some ["CA"] })] }

/-- The result of `convertPrice(p, C)` as the specification words it, over exact
numbers: `p * rate(C)` rounded to 2 decimal places with halves rounded up when `C` is
a key of the catalog, and `p` unchanged when it is not. -/
def statedConvertPrice (cat : CurrencyData) (C : String) (p : ℚ) : ℚ :=
  match cat.get C with
  | some info => (⌊p * info.rate * 100 + 1 / 2⌋ : ℚ) / 100
  | none => p

/-! ## The shopping cart in double arithmetic -/

/-- The double nearest to the integer `n`: an integer below 2^53 in absolute value is
a double; a larger one is rounded to 53 significant bits, to the nearest, the even one
of the two when `n` lies halfway.  The exponent range of doubles (overflow) is not
represented. -/
def toDoubleInt (n : ℤ) : ℤ :=
  let a := n.natAbs
  let k := Nat.log 2 a - 52
  let q := a / 2 ^ k
  let r := a % 2 ^ k
  let m :=
    if 2 * r < 2 ^ k then q
    else if 2 ^ k < 2 * r then q + 1
    else if q % 2 = 0 then q
    else q + 1
  if n < 0 then -((m * 2 ^ k : ℕ) : ℤ) else ((m * 2 ^ k : ℕ) : ℤ)

/-- Models `addToCart(event)` in double arithmetic: `existingItem.quantity += 1` and
`cartCount++` each give the double nearest to the sum. -/
def Js.addToCart (product : Product) (s : CartState) : CartState :=
  let cart :=
    match findItem product.id s.cart with
    | some existingItem =>
      setQuantity product.id (toDoubleInt (existingItem.quantity + 1)) s.cart
    | none =>
      s.cart ++ [{ id := product.id, name := product.name, price := product.price,
                   quantity := 1 }]
  { cart := cart, cartCount := toDoubleInt (s.cartCount + 1) }

/-- Models `removeFromCart(productId)` in double arithmetic: `cartCount -= item.quantity`
gives the double nearest to the difference. -/
def Js.removeFromCart (productId : String) (s : CartState) : CartState :=
  match findItem productId s.cart with
  | some item =>
    { cart := spliceItem productId s.cart,
      cartCount := toDoubleInt (s.cartCount - item.quantity) }
  | none => s

/-- Models `updateQuantity(productId, newQuantity)` in double arithmetic, for a
`newQuantity` that is an integer and a double: `Math.max` is exact, and in
`cartCount += (item.quantity - oldQuantity)` the difference and then the sum are each
rounded to the nearest double. -/
def Js.updateQuantity (productId : String) (newQuantity : ℤ) (s : CartState) : CartState :=
  match findItem productId s.cart with
  | some item =>
    let oldQuantity := item.quantity
    let quantity := max 0 newQuantity
    let s1 : CartState :=
      { cart := setQuantity productId quantity s.cart,
        cartCount := toDoubleInt (s.cartCount + toDoubleInt (quantity - oldQuantity)) }
    if quantity = 0 then Js.removeFromCart productId s1 else s1
  | none => s

/-- The state after a call, in double arithmetic. -/
def Js.runOp : CartOp → CartState → CartState
  | .add product, s => Js.addToCart product s
  | .remove productId, s => Js.removeFromCart productId s
  | .update productId newQuantity, s => Js.updateQuantity productId newQuantity s

/-- The state after a sequence of calls from the state at load, in double
arithmetic. -/
def Js.runCart (ops : List CartOp) : CartState :=
  ops.foldl (fun s op => Js.runOp op s) CartState.start

/-- The number of units a call can add to the cart: 1 for `addToCart`, `max(0, n)`
for `updateQuantity(id, n)`, none for `removeFromCart`. -/
def CartOp.weight : CartOp → ℤ
  | .add _ => 1
  | .remove _ => 0
  | .update _ newQuantity => max 0 newQuantity

/-- The number of units a sequence of calls can add to the cart. -/
def cartWeight (ops : List CartOp) : ℤ :=
  (ops.map CartOp.weight).sum

/-! ## `formatNumber` in the arithmetic of numbers -/

/-- The text that `replace` substitutes for one match of `/\B(?=(\d{3})+(?!\d))/`,
from the replacement template (ECMAScript `GetSubstitution` with one capture group and
an empty match): `$$` stands for `$`, `$&` for the matched text, which is empty, `$`
followed by a backtick for the text before the match, `$` followed by an apostrophe
for the text after it, `$1` and `$01` for the capture group, and every other character,
a `$` in any other position included, stands for itself. -/
def expandTemplate (before after group1 : List Char) : List Char → List Char
  | [] => []
  | c :: rest =>
    if c = '$' then
      match rest with
      | [] => ['$']
      | d :: rest1 =>
        if d = '$' then '$' :: expandTemplate before after group1 rest1
        else if d = '&' then expandTemplate before after group1 rest1
        else if d = Char.ofNat 96 then before ++ expandTemplate before after group1 rest1
        else if d = Char.ofNat 39 then after ++ expandTemplate before after group1 rest1
        else if d = '1' then group1 ++ expandTemplate before after group1 rest1
        else if d = '0' then
          match rest1 with
          | [] => ['$', '0']
          | e :: rest2 =>
            if e = '1' then group1 ++ expandTemplate before after group1 rest2
            else '$' :: '0' :: expandTemplate before after group1 (e :: rest2)
        else '$' :: d :: expandTemplate before after group1 rest1
    else c :: expandTemplate before after group1 rest

/-- The capture group of a match of `/\B(?=(\d{3})+(?!\d))/` in front of `rest`: the
last three digits of the run of digits that follows. -/
def lastGroup (rest : List Char) : List Char :=
  ((rest.take (digitRun rest)).drop (digitRun rest - 3))

/-- Models `s.replace(/\B(?=(\d{3})+(?!\d))/g, template)` scanning from the position
that follows the text `before`. -/
def Js.replaceFrom (template : List Char) : List Char → List Char → List Char
  | before, [] =>
    if thousandsMatch before.getLast? [] then expandTemplate before [] (lastGroup []) template
    else []
  | before, c :: cs =>
    (if thousandsMatch before.getLast? (c :: cs) then
        expandTemplate before (c :: cs) (lastGroup (c :: cs)) template
      else []) ++ c :: Js.replaceFrom template (before ++ [c]) cs

/-- Models `s.replace(/\B(?=(\d{3})+(?!\d))/g, template)`. -/
def Js.replaceThousands (template : List Char) (s : List Char) : List Char :=
  Js.replaceFrom template [] s

/-- Models `x.toFixed(f)` (ECMAScript `Number.prototype.toFixed`) on a number that is
finite (`some`) or `NaN` (`none`): a `RangeError` is thrown when `f` exceeds 100; `NaN`
is rendered as `"NaN"`; a negative `x` is rendered from `-x` behind a minus sign; from
`10 ^ 21` on the text is `ToString(x)`, which is in exponent notation and is given by
`toStr`; below, `n` is the integer for which `n / 10^f - x` is closest to zero, the
larger one on a tie, and the text is its fixed notation. -/
def Js.toFixed (toStr : ℚ → List Char) (x : Option ℚ) (f : ℕ) :
    Except String (List Char) :=
  if 100 < f then .error "RangeError: toFixed() digits argument must be between 0 and 100"
  else
    match x with
    | none => .ok ['N', 'a', 'N']
    | some x =>
      let s : List Char := if x < 0 then ['-'] else []
      let a : ℚ := if x < 0 then -x else x
      if (10 : ℚ) ^ 21 ≤ a then .ok (s ++ toStr a)
      else .ok (s ++ fixedNotation (Rat.floor (a * (10 : ℚ) ^ f + 1 / 2)).toNat f)

/-- Models `formatNumber(number, options)` over an arithmetic of numbers; the result
is the error that `toFixed` throws, or the formatted text. -/
def Js.formatNumber (A : Arith (Option ℚ)) (toStr : ℚ → List Char) (number : Option ℚ)
    (options : FormatOptions) : Except String String :=
  let rounded : Option ℚ :=
    A.div (A.round (A.mul number (A.pow10 options.decimals))) (A.pow10 options.decimals)
  match Js.toFixed toStr rounded options.decimals with
  | .error e => .error e
  | .ok text =>
    let parts := splitChar '.' text
    let parts0 := Js.replaceThousands options.thousandsSeparator.data parts.1
    .ok (String.mk (parts0 ++ joinRest options.decimalSeparator.data parts.2))

/-- The result of `formatNumber(x, {d, ts, ds})` as the specification words it: the
numeral of the integer part of `x` rounded to `d` places, with `ts` at every position
that has a positive multiple of 3 digits to its right, then `ds`, then the `d`
fraction digits. -/
def statedFormatNumber (x : ℚ) (d : ℕ) (ts ds : String) : String :=
  let n : ℕ := ⌊x * (10 : ℚ) ^ d + 1 / 2⌋.toNat
  String.mk (separateFromRight ts.data (Nat.toDigits 10 (n / 10 ^ d)) ++ ds.data ++
    fractionDigits d n)

/-! # Properties -/

/-! ## Defaulting and lookups -/

theorem currencyOf_explicit (cat : CurrencyData) (self : CurrencyUtils) (C : String)
    (hC : C ≠ "") : self.currencyOf cat (some C) = C := by
  simp [CurrencyUtils.currencyOf, jsOr, truthy, hC]

theorem mathRound_eq (x : ℚ) : mathRound x = ⌊x + 1 / 2⌋ := rfl

theorem currencyOf_eq (cat : CurrencyData) (self : CurrencyUtils) (target : Option String) :
    self.currencyOf cat target =
      (if truthy target then target.getD ""
       else if truthy self.currentCurrency then self.currentCurrency.getD ""
       else cat.fallbackCurrency) := by
  unfold CurrencyUtils.currencyOf jsOr
  cases target with
  | none =>
    cases hc : self.currentCurrency with
    | none => simp [truthy]
    | some c => by_cases h : c = "" <;> simp [truthy, h]
  | some t =>
    by_cases h : t = ""
    · cases hc : self.currentCurrency with
      | none => simp [truthy, h]
      | some c => by_cases h2 : c = "" <;> simp [truthy, h, h2]
    · simp [truthy, h]

theorem endToEnd_get_EUR :
    endToEndCatalog.get "EUR" =
      some { symbol := "€", name := none, rate := 9 / 10, countries := none } := by
  rfl

/-! ## The detection chain -/

theorem tryMethods_skip (env : DetectEnv) (pre rest : List Strategy) (w : World)
    (h : ∀ s ∈ pre, yieldsCountry (env.outcome s) = false) :
    tryMethods env (pre ++ rest) w = tryMethods env rest { w with ran := w.ran ++ pre } := by
  induction pre generalizing w with
  | nil => simp
  | cons m pre ih =>
    have hm : yieldsCountry (env.outcome m) = false := h m (by simp)
    have hpre : ∀ s ∈ pre, yieldsCountry (env.outcome s) = false :=
      fun s hs => h s (by simp [hs])
    have step : tryMethods env (m :: (pre ++ rest)) w =
        tryMethods env (pre ++ rest) { w with ran := w.ran ++ [m] } := by
      rw [tryMethods]
      cases ho : env.outcome m with
      | error e => rfl
      | ok r =>
        cases r with
        | none => rfl
        | some result =>
          have : result.country = "" := by simpa [yieldsCountry, ho] using hm
          simp [this]
    rw [List.cons_append, step, ih _ hpre]
    simp [List.append_assoc]

theorem tryMethods_hit (env : DetectEnv) (m : Strategy) (rest : List Strategy) (w : World)
    (r : Location) (h : env.outcome m = .ok (some r)) (hc : r.country ≠ "") :
    tryMethods env (m :: rest) w = (.ok (some r), { w with ran := w.ran ++ [m] }) := by
  rw [tryMethods, h]
  simp [hc]

theorem yieldsCountry_false_of_forall (env : DetectEnv)
    (h : ∀ s, yieldsCountry (env.outcome s) = false) (l : List Strategy) :
    ∀ s ∈ l, yieldsCountry (env.outcome s) = false :=
  fun s _ => h s

/-- The result of the loop and the strategies it invokes depend on the
environment only. -/
theorem tryMethods_shape (env : DetectEnv) (ms : List Strategy) :
    ∃ (res : Option Location) (more : List Strategy), more.length ≤ ms.length ∧
      (ms ≠ [] → more.head? = ms.head?) ∧
      ∀ w : World, tryMethods env ms w = (.ok res, { w with ran := w.ran ++ more }) := by
  induction ms with
  | nil => exact ⟨none, [], by simp, by simp, fun w => by simp [tryMethods]⟩
  | cons m ms ih =>
    obtain ⟨res, more, hlen, -, hw⟩ := ih
    have next : ∀ w : World, tryMethods env ms { w with ran := w.ran ++ [m] } =
        (.ok res, { w with ran := w.ran ++ m :: more }) := by
      intro w
      rw [hw]
      simp
    cases ho : env.outcome m with
    | error e =>
      refine ⟨res, m :: more, by simpa using hlen, by simp, fun w => ?_⟩
      rw [tryMethods, ho]
      exact next w
    | ok r =>
      cases r with
      | none =>
        refine ⟨res, m :: more, by simpa using hlen, by simp, fun w => ?_⟩
        rw [tryMethods, ho]
        exact next w
      | some result =>
        by_cases hc : result.country = ""
        · refine ⟨res, m :: more, by simpa using hlen, by simp, fun w => ?_⟩
          rw [tryMethods, ho]
          simp only [hc, ne_eq, not_true_eq_false, if_false]
          exact next w
        · exact ⟨some result, [m], by simp, by simp, fun w => tryMethods_hit env m ms w result ho hc⟩

theorem tryMultiple_all_fail (env : DetectEnv) (w : World)
    (h : ∀ s, yieldsCountry (env.outcome s) = false) :
    tryMultipleDetectionMethods env w = (.ok none, { w with ran := w.ran ++ methods }) := by
  unfold tryMultipleDetectionMethods
  have := tryMethods_skip env methods [] w (yieldsCountry_false_of_forall env h methods)
  rw [List.append_nil] at this
  rw [this, tryMethods]

/-- C2.  `tryMultipleDetectionMethods` runs the strategies in the order IP lookup,
browser geolocation, timezone, language.  If the strategy `m` is the first in that
order whose outcome has a non-empty country, the call returns exactly that outcome's
result and the strategies invoked are those before `m` and `m` itself, nothing after
it; outcomes without a country, thrown errors included, are passed over.  If no
strategy has a country the result is `null` after all four were invoked.  The call
never throws. -/
theorem tryMultipleDetectionMethods_first_country (env : DetectEnv) (w : World) :
    methods = [Strategy.ipLookup, Strategy.geolocation, Strategy.timezone, Strategy.language] ∧
    (∀ (pre : List Strategy) (m : Strategy) (post : List Strategy) (r : Location),
        methods = pre ++ m :: post →
        (∀ s ∈ pre, yieldsCountry (env.outcome s) = false) →
        env.outcome m = .ok (some r) → r.country ≠ "" →
        tryMultipleDetectionMethods env w =
          (.ok (some r), { w with ran := w.ran ++ pre ++ [m] })) ∧
    ((∀ s, yieldsCountry (env.outcome s) = false) →
        tryMultipleDetectionMethods env w = (.ok none, { w with ran := w.ran ++ methods })) ∧
    (∃ r, (tryMultipleDetectionMethods env w).1 = .ok r) := by
  refine ⟨rfl, ?_, ?_, ?_⟩
  · intro pre m post r hsplit hpre ho hc
    unfold tryMultipleDetectionMethods
    rw [hsplit, tryMethods_skip env pre (m :: post) w hpre, tryMethods_hit env m post _ r ho hc]
  · exact tryMultiple_all_fail env w
  · obtain ⟨res, more, -, -, hw⟩ := tryMethods_shape env methods
    exact ⟨res, by unfold tryMultipleDetectionMethods; rw [hw]⟩

/-- Witness of C2: the IP lookup and the geolocation throw, the timezone gives Kenya;
the result is the timezone result and the language strategy is not invoked. -/
theorem tryMultipleDetectionMethods_first_country_witness :
    tryMultipleDetectionMethods (kenyaByTimezone 0) World.start =
        (.ok (some { country := "KE", method := "timezone" }),
          { World.start with
            ran := World.start.ran ++ [Strategy.ipLookup, Strategy.geolocation] ++
              [Strategy.timezone] }) ∧
    tryMultipleDetectionMethods (allFail 0) World.start =
        (.ok none, { World.start with ran := World.start.ran ++ methods }) :=
  ⟨(tryMultipleDetectionMethods_first_country (kenyaByTimezone 0) World.start).2.1
      [Strategy.ipLookup, Strategy.geolocation] Strategy.timezone [Strategy.language]
      { country := "KE", method := "timezone" } rfl (by decide) rfl (by decide),
    (tryMultipleDetectionMethods_first_country (allFail 0) World.start).2.2.1
      (fun s => by cases s <;> rfl)⟩

/-! ## `detectLocationAndCurrency` -/

theorem detect_ok (cat : CurrencyData) (env : DetectEnv) (w : World) :
    ∃ r, (detectLocationAndCurrency cat env w).1 = .ok r := by
  unfold detectLocationAndCurrency
  split
  · exact ⟨_, rfl⟩
  · split
    · exact ⟨_, rfl⟩
    · exact ⟨_, rfl⟩
    · split <;> exact ⟨_, rfl⟩

/-- With nothing valid in the cache, detection is the chain followed by the
currency lookup. -/
theorem detect_of_no_cache (cat : CurrencyData) (env : DetectEnv) (w w1 : World)
    (hc : getCachedLocation env.now w = (none, w1)) :
    detectLocationAndCurrency cat env w =
      (match tryMultipleDetectionMethods env w1 with
       | (.error _, w2) => (.ok (getFallbackCurrency cat), w2)
       | (.ok none, w2) => (.ok (getFallbackCurrency cat), w2)
       | (.ok (some location), w2) =>
         match getCurrencyForCountry cat location.country with
         | .error _ => (.ok (getFallbackCurrency cat), w2)
         | .ok currency =>
           (.ok { country := location.country, currency := currency, detected := true,
                  method := location.method, timestamp := none },
            cacheLocation env.cachedAt
              { country := location.country, currency := currency, detected := true,
                method := location.method, timestamp := none } w2)) := by
  unfold detectLocationAndCurrency
  rw [hc]

theorem getCachedLocation_none_world (now : ℤ) (w : World)
    (h : (getCachedLocation now w).1 = none) : getCachedLocation now w = (none, w) := by
  unfold getCachedLocation readStorage at *
  repeat' split at h
  all_goals first
    | (simp at h; done)
    | simp_all

/-- C3.  `detectLocationAndCurrency` always returns a resolution, whatever the cache
holds and whatever the strategies do; a stored entry that does not parse counts as
no entry; and when the cache has nothing valid and no strategy yields a country the
resolution is exactly country `"US"`, the fallback currency of the catalog,
`detected = false`, `method = "fallback"`. -/
theorem detectLocationAndCurrency_never_fails (cat : CurrencyData) (env : DetectEnv)
    (w : World) :
    (∃ r, (detectLocationAndCurrency cat env w).1 = .ok r) ∧
    (w.cache = none → w.storage = some Stored.malformed →
        (getCachedLocation env.now w).1 = none) ∧
    ((getCachedLocation env.now w).1 = none →
      (∀ s, yieldsCountry (env.outcome s) = false) →
        (detectLocationAndCurrency cat env w).1 =
          .ok { country := "US", currency := cat.fallbackCurrency, detected := false,
                method := "fallback", timestamp := none }) := by
  refine ⟨detect_ok cat env w, ?_, ?_⟩
  · intro h1 h2
    simp [getCachedLocation, readStorage, h1, h2]
  · intro hc hall
    rw [detect_of_no_cache cat env w w (getCachedLocation_none_world _ _ hc),
      tryMultiple_all_fail env w hall]
    rfl

/-- Witness of C3: a stored entry that does not parse and four failing strategies
give the fallback resolution. -/
theorem detectLocationAndCurrency_never_fails_witness :
    (detectLocationAndCurrency sampleCatalog (allFail 5)
        { World.start with storage := some Stored.malformed }).1 =
      .ok { country := "US", currency := sampleCatalog.fallbackCurrency, detected := false,
            method := "fallback", timestamp := none } :=
  (detectLocationAndCurrency_never_fails sampleCatalog (allFail 5)
      { World.start with storage := some Stored.malformed }).2.2
    ((detectLocationAndCurrency_never_fails sampleCatalog (allFail 5)
      { World.start with storage := some Stored.malformed }).2.1 rfl rfl)
    (fun s => by cases s <;> rfl)

/-! ## The cache and its expiry -/

theorem getCachedLocation_fresh (now T : ℤ) (r : Resolution) (w : World)
    (h : now - T < 86400000) :
    getCachedLocation now (cacheLocation T r w) =
      (some { r with timestamp := some T }, cacheLocation T r w) := by
  simp [getCachedLocation, cacheLocation, withinExpiry, cacheExpiry, h]

theorem getCachedLocation_stale (now T : ℤ) (r : Resolution) (w : World)
    (h : 86400000 ≤ now - T) :
    getCachedLocation now (cacheLocation T r w) = (none, cacheLocation T r w) := by
  have h2 : ¬ (now - T < 86400000) := not_lt.mpr h
  simp [getCachedLocation, readStorage, cacheLocation, withinExpiry, cacheExpiry, h2]

theorem detect_cached_fresh (cat : CurrencyData) (env : DetectEnv) (T : ℤ) (r : Resolution)
    (w : World) (h : env.now - T < 86400000) :
    detectLocationAndCurrency cat env (cacheLocation T r w) =
      (.ok { r with timestamp := some T }, cacheLocation T r w) := by
  unfold detectLocationAndCurrency
  rw [getCachedLocation_fresh env.now T r w h]

/-- What `detectLocationAndCurrency` does once the cache gave nothing, as a
function of the catalog and the environment: the resolution, whether it is cached,
and the strategies invoked. -/
theorem detect_fresh_shape (cat : CurrencyData) (env : DetectEnv) :
    ∃ (res : Resolution) (more : List Strategy),
      res.timestamp = none ∧
      ∀ w : World, getCachedLocation env.now w = (none, w) →
        (detectLocationAndCurrency cat env w).1 = .ok res ∧
        (detectLocationAndCurrency cat env w).2.ran = w.ran ++ Strategy.ipLookup :: more := by
  obtain ⟨loc, more, -, hhead, hw⟩ := tryMethods_shape env methods
  have hmore : ∃ tl, more = Strategy.ipLookup :: tl := by
    have := hhead (by simp [methods])
    cases more with
    | nil => simp [methods] at this
    | cons a tl => exact ⟨tl, by simpa [methods] using this⟩
  obtain ⟨tl, rfl⟩ := hmore
  cases loc with
  | none =>
    refine ⟨getFallbackCurrency cat, tl, rfl, fun w hc => ?_⟩
    rw [detect_of_no_cache cat env w w hc]
    unfold tryMultipleDetectionMethods
    rw [hw]
    exact ⟨rfl, rfl⟩
  | some location =>
    cases hcur : getCurrencyForCountry cat location.country with
    | error e =>
      refine ⟨getFallbackCurrency cat, tl, rfl, fun w hc => ?_⟩
      rw [detect_of_no_cache cat env w w hc]
      unfold tryMultipleDetectionMethods
      rw [hw]
      simp [hcur, cacheLocation]
    | ok currency =>
      refine ⟨{ country := location.country, currency := currency, detected := true,
                method := location.method, timestamp := none }, tl, rfl, fun w hc => ?_⟩
      rw [detect_of_no_cache cat env w w hc]
      unfold tryMultipleDetectionMethods
      rw [hw]
      simp [hcur, cacheLocation]

theorem readStorage_fresh (now T : ℤ) (e : Resolution) (v : World)
    (hs : v.storage = some (.entry e)) (ht : e.timestamp = some T) (h0 : T ≠ 0)
    (h : now - T < 86400000) :
    readStorage now v = (some e, { v with cache := some e }) := by
  simp [readStorage, hs, ht, truthyNumber, withinExpiry, cacheExpiry, h0, h]

theorem readStorage_stale (now T : ℤ) (e : Resolution) (v : World)
    (hs : v.storage = some (.entry e)) (ht : e.timestamp = some T)
    (h : 86400000 ≤ now - T) : readStorage now v = (none, v) := by
  have h2 : ¬ (now - T < 86400000) := not_lt.mpr h
  simp [readStorage, hs, ht, withinExpiry, cacheExpiry, h2]

/-- C4.  The expiry is 86,400,000 ms.  After `cacheLocation(r)` at time `T`,
`detectLocationAndCurrency` at a time `t` with `t - T < 24h` returns the cached
resolution (same country, currency, detected flag and method, with the timestamp
`T`) and changes nothing, so no strategy is invoked; at a time `t` with
`t - T ≥ 24h` the cache gives nothing, the chain runs starting with the IP lookup,
and the resolution returned is the one a detection with an empty cache returns (it
carries no timestamp).  The same holds after a page load, when only the stored copy
is left (its timestamp `T` being a non-zero clock reading): before `T + 24h` it is
returned, and copied to memory, without any strategy being invoked; from `T + 24h`
on the cache gives nothing. -/
theorem cache_expires_after_24h (cat : CurrencyData) (env : DetectEnv) (T : ℤ)
    (r : Resolution) (w : World) :
    cacheExpiry = 86400000 ∧
    (env.now - T < 86400000 →
      detectLocationAndCurrency cat env (cacheLocation T r w) =
        (.ok { country := r.country, currency := r.currency, detected := r.detected,
               method := r.method, timestamp := some T }, cacheLocation T r w)) ∧
    (86400000 ≤ env.now - T →
      (getCachedLocation env.now (cacheLocation T r w)).1 = none ∧
      (detectLocationAndCurrency cat env (cacheLocation T r w)).1 =
        (detectLocationAndCurrency cat env (clearCache (cacheLocation T r w))).1 ∧
      (∀ res, (detectLocationAndCurrency cat env (cacheLocation T r w)).1 = .ok res →
        res.timestamp = none) ∧
      (∃ more, (detectLocationAndCurrency cat env (cacheLocation T r w)).2.ran =
        w.ran ++ Strategy.ipLookup :: more)) ∧
    (∀ (e : Resolution) (v : World), v.cache = none → v.storage = some (.entry e) →
      e.timestamp = some T → T ≠ 0 →
      (env.now - T < 86400000 →
        detectLocationAndCurrency cat env v = (.ok e, { v with cache := some e })) ∧
      (86400000 ≤ env.now - T →
        (getCachedLocation env.now v).1 = none ∧
        ∃ more, (detectLocationAndCurrency cat env v).2.ran =
          v.ran ++ Strategy.ipLookup :: more)) := by
  refine ⟨by decide, fun h => detect_cached_fresh cat env T r w h, fun h => ?_, ?_⟩
  · obtain ⟨res, more, hts, hres⟩ := detect_fresh_shape cat env
    have h1 := hres _ (getCachedLocation_stale env.now T r w h)
    have h2 := hres (clearCache (cacheLocation T r w))
      (by simp [getCachedLocation, readStorage, clearCache])
    refine ⟨by rw [getCachedLocation_stale env.now T r w h], by rw [h1.1, h2.1], ?_, more, ?_⟩
    · intro res2 hr
      rw [h1.1] at hr
      cases hr
      exact hts
    · rw [h1.2]
      rfl
  · intro e v hc hs ht h0
    constructor
    · intro h
      have hg : getCachedLocation env.now v = (some e, { v with cache := some e }) := by
        simp only [getCachedLocation, hc]
        exact readStorage_fresh env.now T e v hs ht h0 h
      unfold detectLocationAndCurrency
      rw [hg]
    · intro h
      have hg : getCachedLocation env.now v = (none, v) := by
        simp only [getCachedLocation, hc]
        exact readStorage_stale env.now T e v hs ht h
      obtain ⟨res, more, -, hres⟩ := detect_fresh_shape cat env
      exact ⟨by rw [hg], more, (hres v hg).2⟩

/-- Witness of C4: cached at `T = 1000`; at `T + 23h59m` the cached resolution is
returned, at `T + 24h01m` the chain runs; the same from the stored copy alone. -/
theorem cache_expires_after_24h_witness :
    detectLocationAndCurrency sampleCatalog (allFail (1000 + 86340000))
        (cacheLocation 1000 kenyaResolution World.start) =
      (.ok { country := "KE", currency := "KES", detected := true, method := "ip-api",
             timestamp := some 1000 }, cacheLocation 1000 kenyaResolution World.start) ∧
    (∃ more, (detectLocationAndCurrency sampleCatalog (allFail (1000 + 86460000))
        (cacheLocation 1000 kenyaResolution World.start)).2.ran =
      World.start.ran ++ Strategy.ipLookup :: more) ∧
    detectLocationAndCurrency sampleCatalog (allFail (1000 + 86340000)) reloadedWorld =
      (.ok (manualEntry "EUR" 1000),
        { reloadedWorld with cache := some (manualEntry "EUR" 1000) }) ∧
    (getCachedLocation (allFail (1000 + 86460000)).now reloadedWorld).1 = none :=
  ⟨(cache_expires_after_24h sampleCatalog (allFail (1000 + 86340000)) 1000 kenyaResolution
      World.start).2.1 (by decide),
   ((cache_expires_after_24h sampleCatalog (allFail (1000 + 86460000)) 1000 kenyaResolution
      World.start).2.2.1 (by decide)).2.2.2,
   ((cache_expires_after_24h sampleCatalog (allFail (1000 + 86340000)) 1000 kenyaResolution
      World.start).2.2.2 (manualEntry "EUR" 1000) reloadedWorld rfl rfl rfl (by decide)).1
      (by decide),
   (((cache_expires_after_24h sampleCatalog (allFail (1000 + 86460000)) 1000 kenyaResolution
      World.start).2.2.2 (manualEntry "EUR" 1000) reloadedWorld rfl rfl rfl (by decide)).2
      (by decide)).1⟩

/-! ## `initialize` and `setCurrency` -/

theorem initialize_of_initialized (cat : CurrencyData)
    (resolver : World → Except String Resolution × World) (w : World)
    (h : w.currency.initialized = true) :
    CurrencyUtils.initialize cat resolver w = (.ok .undefined, w) := by
  simp [ CurrencyUtils.initialize, h]

theorem initialize_of_ok (cat : CurrencyData)
    (resolver : World → Except String Resolution × World) (w w1 : World) (R : Resolution)
    (h : w.currency.initialized = false) (hr : resolver w = (.ok R, w1)) :
    CurrencyUtils.initialize cat resolver w =
      (.ok (.locationData R),
        { w1 with
          currency := { currentCurrency := some R.currency, initialized := true },
          events := w1.events ++
            [{ currency := R.currency, locationData := some R, manual := none }] }) := by
  simp [ CurrencyUtils.initialize, h, hr]

theorem initialize_of_error (cat : CurrencyData)
    (resolver : World → Except String Resolution × World) (w w1 : World) (e : String)
    (h : w.currency.initialized = false) (hr : resolver w = (.error e, w1)) :
    CurrencyUtils.initialize cat resolver w =
      (.ok .null,
        { w1 with
          currency := { currentCurrency := some cat.fallbackCurrency, initialized := true } }) := by
  simp [ CurrencyUtils.initialize, h, hr]

theorem initialize_lands_initialized (cat : CurrencyData)
    (resolver : World → Except String Resolution × World) (w : World) :
    ∃ r w1, CurrencyUtils.initialize cat resolver w = (.ok r, w1) ∧
      w1.currency.initialized = true := by
  by_cases h : w.currency.initialized = true
  · exact ⟨_, _, initialize_of_initialized cat resolver w h, h⟩
  · have h0 : w.currency.initialized = false := by simpa using h
    rcases hr : resolver w with ⟨_ | R, w1⟩
    · exact ⟨_, _, initialize_of_error cat resolver w w1 _ h0 hr, rfl⟩
    · exact ⟨_, _, initialize_of_ok cat resolver w w1 R h0 hr, rfl⟩

theorem setCurrency_keeps_initialized (cat : CurrencyData) (now : ℤ) (code : String)
    (w : World) :
    (CurrencyUtils.setCurrency cat now code w).2.currency.initialized =
      w.currency.initialized := by
  unfold CurrencyUtils.setCurrency
  cases cat.get code <;> rfl

theorem run_keeps_initialized (cat : CurrencyData) (op : Op) (w : World)
    (h : w.currency.initialized = true) : (op.run cat w).currency.initialized = true := by
  cases op with
  | callInitialize env =>
    show ( CurrencyUtils.initialize cat (detectLocationAndCurrency cat env) w).2.currency.initialized
      = true
    rw [initialize_of_initialized cat _ w h]
    exact h
  | callSetCurrency code now =>
    show (CurrencyUtils.setCurrency cat now code w).2.currency.initialized = true
    rw [setCurrency_keeps_initialized, h]
  | _ => exact h

theorem runAll_keeps_initialized (cat : CurrencyData) (ops : List Op) (w : World)
    (h : w.currency.initialized = true) :
    (ops.foldl (fun v op => op.run cat v) w).currency.initialized = true := by
  induction ops generalizing w with
  | nil => exact h
  | cons op ops ih => exact ih _ (run_keeps_initialized cat op w h)

/-- C5.  `initialize()` never throws and leaves the service initialized.  If the
service was initialized, the call changes nothing and returns `undefined`, whatever
the resolver would do.  If it was not and the resolver returns `R`, the active
currency becomes `R.currency`, one notification `{currency: R.currency,
locationData: R}` is appended and `R` is returned; if the resolver throws, the
active currency becomes the catalog fallback, nothing is dispatched and `null` is
returned.  No call, and no sequence of calls, of a method of the service turns
`initialized` from true to false. -/
theorem initialize_idempotent_one_way (cat : CurrencyData)
    (resolver : World → Except String Resolution × World) (w : World) :
    (∃ r w1, CurrencyUtils.initialize cat resolver w = (.ok r, w1) ∧
      w1.currency.initialized = true) ∧
    (w.currency.initialized = true →
      CurrencyUtils.initialize cat resolver w = (.ok .undefined, w)) ∧
    (∀ (R : Resolution) (w1 : World), w.currency.initialized = false →
      resolver w = (.ok R, w1) →
      CurrencyUtils.initialize cat resolver w =
        (.ok (.locationData R),
          { w1 with
            currency := { currentCurrency := some R.currency, initialized := true },
            events := w1.events ++
              [{ currency := R.currency, locationData := some R, manual := none }] })) ∧
    (∀ (e : String) (w1 : World), w.currency.initialized = false →
      resolver w = (.error e, w1) →
      CurrencyUtils.initialize cat resolver w =
        (.ok .null,
          { w1 with
            currency :=
              { currentCurrency := some cat.fallbackCurrency, initialized := true } })) ∧
    (∀ ops : List Op, w.currency.initialized = true →
      (ops.foldl (fun v op => op.run cat v) w).currency.initialized = true) :=
  ⟨initialize_lands_initialized cat resolver w,
   initialize_of_initialized cat resolver w,
   fun R w1 h hr => initialize_of_ok cat resolver w w1 R h hr,
   fun e w1 h hr => initialize_of_error cat resolver w w1 e h hr,
   fun ops h => runAll_keeps_initialized cat ops w h⟩

theorem detect_kenyaByTimezone :
    detectLocationAndCurrency sampleCatalog (kenyaByTimezone 0) World.start =
      (.ok { country := "KE", currency := "KES", detected := true, method := "timezone",
             timestamp := none },
       { World.start with
         cache := some { country := "KE", currency := "KES", detected := true,
                         method := "timezone", timestamp := some (0 + 3) },
         storage := some (.entry { country := "KE", currency := "KES", detected := true,
                                   method := "timezone", timestamp := some (0 + 3) }),
         ran := [Strategy.ipLookup, Strategy.geolocation, Strategy.timezone] }) := by
  rfl

/-- Witness of C5: an initialized service is left alone; a first call adopts the
detected currency and dispatches one notification; a throwing resolver leads to the
fallback; later calls keep `initialized`. -/
theorem initialize_idempotent_one_way_witness :
    CurrencyUtils.initialize sampleCatalog (detectLocationAndCurrency sampleCatalog (allFail 0))
        initializedWorld = (.ok .undefined, initializedWorld) ∧
    CurrencyUtils.initialize sampleCatalog
        (detectLocationAndCurrency sampleCatalog (kenyaByTimezone 0)) World.start =
      (.ok (.locationData { country := "KE", currency := "KES", detected := true,
                            method := "timezone", timestamp := none }),
       { World.start with
         cache := some { country := "KE", currency := "KES", detected := true,
                         method := "timezone", timestamp := some (0 + 3) },
         storage := some (.entry { country := "KE", currency := "KES", detected := true,
                                   method := "timezone", timestamp := some (0 + 3) }),
         ran := [Strategy.ipLookup, Strategy.geolocation, Strategy.timezone],
         currency := { currentCurrency := some "KES", initialized := true },
         events := [{ currency := "KES",
                      locationData := some { country := "KE", currency := "KES",
                                             detected := true, method := "timezone",
                                             timestamp := none },
                      manual := none }] }) ∧
    CurrencyUtils.initialize sampleCatalog throwingResolver World.start =
      (.ok .null,
        { World.start with
          currency := { currentCurrency := some "USD", initialized := true } }) ∧
    ([Op.callSetCurrency "EUR" 7, Op.callInitialize (allFail 9), Op.callIsInitialized].foldl
        (fun v op => op.run sampleCatalog v) initializedWorld).currency.initialized = true :=
  ⟨(initialize_idempotent_one_way sampleCatalog _ initializedWorld).2.1 rfl,
   (initialize_idempotent_one_way sampleCatalog _ World.start).2.2.1 _ _ rfl
      detect_kenyaByTimezone,
   (initialize_idempotent_one_way sampleCatalog throwingResolver World.start).2.2.2.1 _ _ rfl rfl,
   (initialize_idempotent_one_way sampleCatalog throwingResolver initializedWorld).2.2.2.2 _ rfl⟩

theorem getCurrentCurrency_of_nonempty (cat : CurrencyData) (self : CurrencyUtils) (C : String)
    (h : self.currentCurrency = some C) (hC : C ≠ "") : self.getCurrentCurrency cat = C := by
  simp [CurrencyUtils.getCurrentCurrency, jsOr, truthy, h, hC]

theorem setCurrency_supported (cat : CurrencyData) (T : ℤ) (C : String) (info : CurrencyInfo)
    (w : World) (h : cat.get C = some info) :
    CurrencyUtils.setCurrency cat T C w =
      (.ok C,
        { w with
          currency := { w.currency with currentCurrency := some C },
          cache := some (manualEntry C T),
          storage := some (.entry (manualEntry C T)),
          events := w.events ++ [{ currency := C, locationData := none, manual := some true }] }) := by
  simp [CurrencyUtils.setCurrency, h, setManualCurrency, cacheLocation, manualEntry]

theorem getCachedLocation_manual (now T : ℤ) (e : Resolution) (w : World)
    (hc : w.cache = some e) (ht : e.timestamp = some T) (h : now < T + 86400000) :
    getCachedLocation now w = (some e, w) := by
  have h2 : now - T < 86400000 := by omega
  simp [getCachedLocation, hc, ht, withinExpiry, cacheExpiry, h2]

/-- C7.  For a key `C` of the catalog, `setCurrency(C)` at time `T` returns `C`, sets
the active currency to `C` (and `getCurrentCurrency()` is `C`, a code being a
non-empty string), appends one notification `{currency: C, manual: true}`, and
overwrites the memory and the stored cache entry with the manual resolution.  At
every time `t` with `T ≤ t < T + 24h`, `detectLocationAndCurrency` then returns
country `"MANUAL"`, currency `C`, `detected = false`, `method = "manual"` and changes
nothing, so no strategy is invoked; and a first `initialize()` in that window makes
`C` the active currency and returns that resolution. -/
theorem setCurrency_caches_manual_override (cat : CurrencyData) (T : ℤ) (C : String)
    (info : CurrencyInfo) (w : World) (h : cat.get C = some info) :
    (CurrencyUtils.setCurrency cat T C w).1 = .ok C ∧
    (CurrencyUtils.setCurrency cat T C w).2.currency.currentCurrency = some C ∧
    (C ≠ "" → (CurrencyUtils.setCurrency cat T C w).2.currency.getCurrentCurrency cat = C) ∧
    (CurrencyUtils.setCurrency cat T C w).2.events =
      w.events ++ [{ currency := C, locationData := none, manual := some true }] ∧
    (CurrencyUtils.setCurrency cat T C w).2.cache = some (manualEntry C T) ∧
    (CurrencyUtils.setCurrency cat T C w).2.storage = some (.entry (manualEntry C T)) ∧
    (∀ env : DetectEnv, T ≤ env.now → env.now < T + 86400000 →
      detectLocationAndCurrency cat env (CurrencyUtils.setCurrency cat T C w).2 =
        (.ok { country := "MANUAL", currency := C, detected := false, method := "manual",
               timestamp := some T },
         (CurrencyUtils.setCurrency cat T C w).2)) ∧
    (∀ env : DetectEnv, T ≤ env.now → env.now < T + 86400000 →
      w.currency.initialized = false →
      ( CurrencyUtils.initialize cat (detectLocationAndCurrency cat env)
          (CurrencyUtils.setCurrency cat T C w).2).1 = .ok (.locationData (manualEntry C T)) ∧
      ( CurrencyUtils.initialize cat (detectLocationAndCurrency cat env)
          (CurrencyUtils.setCurrency cat T C w).2).2.currency =
        { currentCurrency := some C, initialized := true } ∧
      ( CurrencyUtils.initialize cat (detectLocationAndCurrency cat env)
          (CurrencyUtils.setCurrency cat T C w).2).2.ran = w.ran) := by
  have key := setCurrency_supported cat T C info w h
  have hdet : ∀ env : DetectEnv, env.now < T + 86400000 →
      detectLocationAndCurrency cat env (CurrencyUtils.setCurrency cat T C w).2 =
        (.ok (manualEntry C T), (CurrencyUtils.setCurrency cat T C w).2) := by
    intro env h2
    unfold detectLocationAndCurrency
    rw [getCachedLocation_manual env.now T (manualEntry C T) _ (by rw [key]) rfl h2]
  refine ⟨by rw [key], by rw [key], fun hC => ?_, by rw [key], by rw [key], by rw [key],
    fun env _ h2 => hdet env h2, fun env _ h2 hinit => ?_⟩
  · exact getCurrentCurrency_of_nonempty cat _ C (by rw [key]) hC
  · have hi : (CurrencyUtils.setCurrency cat T C w).2.currency.initialized = false := by
      rw [setCurrency_keeps_initialized, hinit]
    rw [initialize_of_ok cat _ _ _ _ hi (hdet env h2)]
    refine ⟨rfl, rfl, ?_⟩
    rw [key]

/-- Witness of C7: `setCurrency("EUR")` at time 1000 on a fresh page, then a
detection and a first `initialize()` ten minutes later. -/
theorem setCurrency_caches_manual_override_witness :
    (sampleCatalog.get "EUR" =
        some { symbol := "€", name := some "Euro", rate := 9 / 10,
               countries := some ["FR", "DE"] } ∧
      (1000 : ℤ) ≤ (kenyaByTimezone 601000).now ∧
      (kenyaByTimezone 601000).now < 1000 + 86400000 ∧
      World.start.currency.initialized = false ∧ "EUR" ≠ "") ∧
    (CurrencyUtils.setCurrency sampleCatalog 1000 "EUR" World.start).2.currency.getCurrentCurrency
        sampleCatalog = "EUR" ∧
    detectLocationAndCurrency sampleCatalog (kenyaByTimezone 601000)
        (CurrencyUtils.setCurrency sampleCatalog 1000 "EUR" World.start).2 =
      (.ok { country := "MANUAL", currency := "EUR", detected := false, method := "manual",
             timestamp := some 1000 },
       (CurrencyUtils.setCurrency sampleCatalog 1000 "EUR" World.start).2) ∧
    ( CurrencyUtils.initialize sampleCatalog
        (detectLocationAndCurrency sampleCatalog (kenyaByTimezone 601000))
        (CurrencyUtils.setCurrency sampleCatalog 1000 "EUR" World.start).2).2.currency =
      { currentCurrency := some "EUR", initialized := true } :=
  ⟨⟨rfl, by decide, by decide, rfl, by decide⟩,
   (setCurrency_caches_manual_override sampleCatalog 1000 "EUR" _ World.start rfl).2.2.1
      (by decide),
   (setCurrency_caches_manual_override sampleCatalog 1000 "EUR" _ World.start rfl).2.2.2.2.2.2.1
      (kenyaByTimezone 601000) (by decide) (by decide),
   ((setCurrency_caches_manual_override sampleCatalog 1000 "EUR" _ World.start
      rfl).2.2.2.2.2.2.2 (kenyaByTimezone 601000) (by decide) (by decide) rfl).2.1⟩

/-! ## Decimal numerals -/

theorem toDigitsCore_append (fuel n : ℕ) (ds : List Char) :
    Nat.toDigitsCore 10 fuel n ds = Nat.toDigitsCore 10 fuel n [] ++ ds := by
  induction fuel generalizing n ds with
  | zero => simp [Nat.toDigitsCore]
  | succ fuel ih =>
    simp only [Nat.toDigitsCore]
    split
    · simp
    · rw [ih (n / 10) (_ :: ds), ih (n / 10) [_]]
      simp

theorem toDigitsCore_fuel (fuel fuel2 n : ℕ) (h1 : n < fuel) (h2 : n < fuel2) :
    Nat.toDigitsCore 10 fuel n [] = Nat.toDigitsCore 10 fuel2 n [] := by
  induction fuel generalizing n fuel2 with
  | zero => omega
  | succ fuel ih =>
    cases fuel2 with
    | zero => omega
    | succ fuel2 =>
      simp only [Nat.toDigitsCore]
      split
      · rfl
      · rename_i hne
        rw [toDigitsCore_append fuel, toDigitsCore_append fuel2,
          ih fuel2 (n / 10) (by omega) (by omega)]

theorem toDigits_small (n : ℕ) (h : n < 10) : Nat.toDigits 10 n = [Nat.digitChar n] := by
  have h0 : n / 10 = 0 := by omega
  have h1 : n % 10 = n := by omega
  simp [Nat.toDigits, Nat.toDigitsCore, h0, h1]

theorem toDigits_step (n : ℕ) (h : 10 ≤ n) :
    Nat.toDigits 10 n = Nat.toDigits 10 (n / 10) ++ [Nat.digitChar (n % 10)] := by
  have h0 : n / 10 ≠ 0 := by omega
  have lhs : Nat.toDigits 10 n = Nat.toDigitsCore 10 n (n / 10) [Nat.digitChar (n % 10)] := by
    simp only [Nat.toDigits, Nat.toDigitsCore, h0, if_false]
  rw [lhs, toDigitsCore_append, toDigitsCore_fuel n (n / 10 + 1) (n / 10) (by omega) (by omega)]
  rfl

theorem digitChar_isDigit (k : ℕ) (h : k < 10) : isDigitChar (Nat.digitChar k) = true := by
  interval_cases k <;> decide

theorem toDigits_ne_nil (n : ℕ) : Nat.toDigits 10 n ≠ [] := by
  by_cases h : n < 10
  · simp [toDigits_small n h]
  · simp [toDigits_step n (by omega)]

theorem toDigits_allDigits (n : ℕ) : ∀ c ∈ Nat.toDigits 10 n, isDigitChar c = true := by
  induction n using Nat.strong_induction_on with
  | _ n ih =>
    by_cases h : n < 10
    · rw [toDigits_small n h]
      intro c hc
      simp only [List.mem_singleton] at hc
      rw [hc]
      exact digitChar_isDigit n h
    · rw [toDigits_step n (by omega)]
      intro c hc
      rcases List.mem_append.mp hc with hc | hc
      · exact ih (n / 10) (by omega) c hc
      · simp only [List.mem_singleton] at hc
        rw [hc]
        exact digitChar_isDigit _ (by omega)

theorem fractionDigits_succ (d n : ℕ) :
    fractionDigits (d + 1) n = Nat.digitChar (n / 10 ^ d % 10) :: fractionDigits d n := by
  simp [fractionDigits, List.range_succ]

theorem fractionDigits_length (d n : ℕ) : (fractionDigits d n).length = d := by
  simp [fractionDigits]

theorem fractionDigits_allDigits (d n : ℕ) :
    ∀ c ∈ fractionDigits d n, isDigitChar c = true := by
  intro c hc
  simp only [fractionDigits, List.mem_map] at hc
  obtain ⟨i, -, rfl⟩ := hc
  exact digitChar_isDigit _ (Nat.mod_lt _ (by decide))

theorem padded_digits (d n : ℕ) :
    padZeros (d + 1) (Nat.toDigits 10 n) = Nat.toDigits 10 (n / 10 ^ d) ++ fractionDigits d n := by
  induction d with
  | zero =>
    have : 1 ≤ (Nat.toDigits 10 n).length := List.length_pos.mpr (toDigits_ne_nil n)
    simp [padZeros, fractionDigits, Nat.sub_eq_zero_of_le this]
  | succ d ih =>
    have hlen : (padZeros (d + 1) (Nat.toDigits 10 n)).length =
        (Nat.toDigits 10 (n / 10 ^ d)).length + d := by
      rw [ih, List.length_append, fractionDigits_length]
    have hpl : (padZeros (d + 1) (Nat.toDigits 10 n)).length =
        (d + 1 - (Nat.toDigits 10 n).length) + (Nat.toDigits 10 n).length := by
      simp [padZeros]
    have hdiv : n / 10 ^ (d + 1) = n / 10 ^ d / 10 := by
      rw [pow_succ, Nat.div_div_eq_div_mul]
    rw [fractionDigits_succ, hdiv]
    generalize n / 10 ^ d = M at ih hlen ⊢
    by_cases hM : M < 10
    · have h0 : M / 10 = 0 := by omega
      have hm : M % 10 = M := by omega
      rw [toDigits_small _ hM] at ih hlen
      rw [h0, hm]
      have hl : (Nat.toDigits 10 n).length ≤ d + 1 := by
        simp at hlen; omega
      have : padZeros (d + 1 + 1) (Nat.toDigits 10 n) =
          '0' :: padZeros (d + 1) (Nat.toDigits 10 n) := by
        unfold padZeros
        have : d + 1 + 1 - (Nat.toDigits 10 n).length =
            (d + 1 - (Nat.toDigits 10 n).length) + 1 := by omega
        rw [this, List.replicate_succ]
        rfl
      rw [this, ih]
      rfl
    · have hs := toDigits_step M (by omega)
      have h2 : 2 ≤ (Nat.toDigits 10 M).length := by
        rw [hs]
        have := List.length_pos.mpr (toDigits_ne_nil (M / 10))
        simp
        omega
      have hl : d + 2 ≤ (Nat.toDigits 10 n).length := by omega
      have : padZeros (d + 1 + 1) (Nat.toDigits 10 n) =
          padZeros (d + 1) (Nat.toDigits 10 n) := by
        unfold padZeros
        rw [Nat.sub_eq_zero_of_le (by omega), Nat.sub_eq_zero_of_le (by omega)]
      rw [this, ih, hs]
      simp

/-- For `f ≥ 1` the digits of `toFixed` are the numeral of the integer part, the
point, and the `f` fraction digits. -/
theorem fixedNotation_eq (n f : ℕ) (hf : f ≠ 0) :
    fixedNotation n f = Nat.toDigits 10 (n / 10 ^ f) ++ '.' :: fractionDigits f n := by
  have hpad : (if (Nat.toDigits 10 n).length ≤ f then padZeros (f + 1) (Nat.toDigits 10 n)
      else Nat.toDigits 10 n) = padZeros (f + 1) (Nat.toDigits 10 n) := by
    split
    · rfl
    · rename_i h
      unfold padZeros
      rw [Nat.sub_eq_zero_of_le (by omega)]
      rfl
  simp only [fixedNotation, hf, ne_eq, not_false_eq_true, if_true, hpad]
  rw [padded_digits f n]
  have hlen : (Nat.toDigits 10 (n / 10 ^ f) ++ fractionDigits f n).length - f =
      (Nat.toDigits 10 (n / 10 ^ f)).length := by
    rw [List.length_append, fractionDigits_length]
    omega
  rw [hlen, List.take_left', List.drop_left']
  · rfl
  · rfl

/-! ## `toFixed` on a value already rounded -/

theorem floor_units (N : ℕ) (d : ℕ) :
    (Rat.floor ((N : ℚ) / (10 : ℚ) ^ d * (10 : ℚ) ^ d + 1 / 2)).toNat = N := by
  have h10 : ((10 : ℚ) ^ d) ≠ 0 := pow_ne_zero _ (by norm_num)
  rw [div_mul_cancel₀ _ h10]
  have : Rat.floor ((N : ℚ) + 1 / 2) = (N : ℤ) := by
    show ⌊(N : ℚ) + 1 / 2⌋ = (N : ℤ)
    rw [Int.floor_eq_iff]
    constructor
    · push_cast; linarith
    · push_cast; linarith
  rw [this]
  simp

theorem toFixed_units (N d : ℕ) : toFixed ((N : ℚ) / (10 : ℚ) ^ d) d = fixedNotation N d := by
  have hnn : ¬ ((N : ℚ) / (10 : ℚ) ^ d < 0) := by
    have : (0 : ℚ) ≤ (N : ℚ) / (10 : ℚ) ^ d := by positivity
    exact not_lt.mpr this
  simp only [toFixed, hnn, if_false, List.nil_append]
  rw [floor_units]

theorem mathRound_nonneg (x : ℚ) (hx : 0 ≤ x) : 0 ≤ mathRound x := by
  show 0 ≤ ⌊x + 1 / 2⌋
  exact Int.floor_nonneg.mpr (by linarith)

/-! ## Splitting at the point and grouping -/

theorem isDigitChar_ne_point (c : Char) (h : isDigitChar c = true) : c ≠ '.' := by
  intro hc
  rw [hc] at h
  exact absurd h (by decide)

theorem splitChar_no_sep (c : Char) (b : List Char) (h : ∀ x ∈ b, x ≠ c) :
    splitChar c b = (b, []) := by
  induction b with
  | nil => rfl
  | cons x xs ih =>
    have hx : x ≠ c := h x (by simp)
    have hxs : ∀ y ∈ xs, y ≠ c := fun y hy => h y (by simp [hy])
    simp [splitChar, hx, ih hxs]

theorem splitChar_at_sep (c : Char) (a b : List Char) (h : ∀ x ∈ a, x ≠ c) :
    splitChar c (a ++ c :: b) = (a, (splitChar c b).1 :: (splitChar c b).2) := by
  induction a with
  | nil => simp [splitChar]
  | cons x xs ih =>
    have hx : x ≠ c := h x (by simp)
    have hxs : ∀ y ∈ xs, y ≠ c := fun y hy => h y (by simp [hy])
    simp [splitChar, hx, ih hxs]

theorem digitRun_allDigits (s : List Char) (h : ∀ c ∈ s, isDigitChar c = true) :
    digitRun s = s.length := by
  induction s with
  | nil => rfl
  | cons x xs ih =>
    have hx : isDigitChar x = true := h x (by simp)
    have hxs : ∀ y ∈ xs, isDigitChar y = true := fun y hy => h y (by simp [hy])
    simp [digitRun, hx, ih hxs]

theorem isWordChar_of_digit (c : Char) (h : isDigitChar c = true) : isWordChar c = true := by
  simp [isWordChar, h]

theorem replaceFrom_digits (sep : List Char) (p : Char) (s : List Char)
    (hp : isDigitChar p = true) (h : ∀ c ∈ s, isDigitChar c = true) :
    replaceFrom sep (some p) s = separateFromRight sep s := by
  induction s generalizing p with
  | nil => simp [replaceFrom, thousandsMatch, digitRun, separateFromRight]
  | cons x xs ih =>
    have hx : isDigitChar x = true := h x (by simp)
    have hxs : ∀ y ∈ xs, isDigitChar y = true := fun y hy => h y (by simp [hy])
    have hrun : digitRun (x :: xs) = xs.length + 1 := by
      rw [digitRun_allDigits (x :: xs) h]
      rfl
    simp only [replaceFrom, separateFromRight, thousandsMatch, hrun, ih x hx hxs, isWord,
      isWordChar_of_digit p hp, isWordChar_of_digit x hx, List.head?_cons]
    simp

theorem replaceThousands_digits (sep : List Char) (x : Char) (xs : List Char)
    (h : ∀ c ∈ x :: xs, isDigitChar c = true) :
    replaceThousands sep (x :: xs) = x :: separateFromRight sep xs := by
  have hx : isDigitChar x = true := h x (by simp)
  have hxs : ∀ y ∈ xs, isDigitChar y = true := fun y hy => h y (by simp [hy])
  simp [replaceThousands, replaceFrom, thousandsMatch, isWord, isWordChar_of_digit x hx,
    replaceFrom_digits sep x xs hx hxs]

/-- The separated string consists of the first `length % 3` characters followed by
groups of exactly three characters, each behind a separator. -/
theorem separateFromRight_groups (sep : List Char) (s : List Char) :
    ∃ groups : List (List Char),
      (∀ g ∈ groups, g.length = 3) ∧
      s.take (s.length % 3) ++ groups.flatten = s ∧
      separateFromRight sep s =
        s.take (s.length % 3) ++ (groups.map (fun g => sep ++ g)).flatten := by
  induction s with
  | nil => exact ⟨[], by simp, by simp, by simp [separateFromRight]⟩
  | cons c cs ih =>
    obtain ⟨gs, h3, hjoin, hsep⟩ := ih
    by_cases hm : (cs.length + 1) % 3 = 0
    · have h2 : cs.length % 3 = 2 := by omega
      have hlen : 2 ≤ cs.length := by omega
      rw [h2] at hjoin hsep
      refine ⟨(c :: cs.take 2) :: gs, ?_, ?_, ?_⟩
      · intro g hg
        rcases List.mem_cons.mp hg with rfl | hg
        · simp [List.length_take, hlen]
        · exact h3 g hg
      · simp only [List.length_cons, hm, List.take_zero, List.nil_append, List.flatten_cons,
          List.cons_append]
        rw [hjoin]
      · simp only [separateFromRight, hm, if_true, List.length_cons, List.take_zero,
          List.nil_append, List.map_cons, List.flatten_cons, hsep]
        simp
    · have h2 : (cs.length + 1) % 3 = cs.length % 3 + 1 := by omega
      refine ⟨gs, h3, ?_, ?_⟩
      · simp only [List.length_cons, h2, List.take_succ_cons, List.cons_append]
        rw [hjoin]
      · rw [separateFromRight, if_neg hm, hsep]
        simp only [List.nil_append, List.length_cons, h2, List.take_succ_cons,
          List.cons_append]

/-! ## `formatNumber` and `formatPrice` -/

/-- The value of `formatNumber` on a non-negative number with at least one decimal, in terms of
the rounded value counted in units of `10 ^ -decimals`. -/
theorem formatNumber_of_nonneg (x : ℚ) (o : FormatOptions) (hx : 0 ≤ x)
    (hd : o.decimals ≠ 0) :
    CurrencyUtils.formatNumber x o =
      String.mk
        (replaceThousands o.thousandsSeparator.data
            (Nat.toDigits 10 ((mathRound (x * (10 : ℚ) ^ o.decimals)).toNat / 10 ^ o.decimals)) ++
          (o.decimalSeparator.data ++
            fractionDigits o.decimals (mathRound (x * (10 : ℚ) ^ o.decimals)).toNat)) := by
  have hnn : 0 ≤ mathRound (x * (10 : ℚ) ^ o.decimals) :=
    mathRound_nonneg _ (mul_nonneg hx (by positivity))
  have hcast : ((mathRound (x * (10 : ℚ) ^ o.decimals) : ℤ) : ℚ) =
      (((mathRound (x * (10 : ℚ) ^ o.decimals)).toNat : ℕ) : ℚ) := by
    have := Int.toNat_of_nonneg hnn
    exact_mod_cast this.symm
  simp only [CurrencyUtils.formatNumber]
  rw [hcast, toFixed_units, fixedNotation_eq _ _ hd,
    splitChar_at_sep '.' _ _ (fun c hc => isDigitChar_ne_point c (toDigits_allDigits _ c hc)),
    splitChar_no_sep '.' _ (fun c hc => isDigitChar_ne_point c (fractionDigits_allDigits _ _ c hc))]
  simp [joinRest]

/-- The effective currency is a fixed point of the defaulting. -/
theorem currencyOf_idem (cat : CurrencyData) (self : CurrencyUtils) (target : Option String) :
    self.currencyOf cat (some (self.currencyOf cat target)) = self.currencyOf cat target := by
  by_cases h : self.currencyOf cat target = ""
  · have h1 := currencyOf_eq cat self target
    have h2 := currencyOf_eq cat self (some (self.currencyOf cat target))
    rw [h2, h]
    rw [h] at h1
    have ht : truthy (some "") = false := by decide
    rw [ht]
    by_cases hc : truthy self.currentCurrency = true
    · by_cases hT : truthy target = true
      · simp only [hT, if_true] at h1
        cases target with
        | none => simp [truthy] at hT
        | some t =>
          simp only [Option.getD_some] at h1
          simp [truthy, ← h1] at hT
      · simp only [hT, hc, if_true, Bool.false_eq_true, if_false] at h1
        simp only [hc, if_true, Bool.false_eq_true, if_false]
        exact h1.symm
    · by_cases hT : truthy target = true
      · simp only [hT, if_true] at h1
        cases target with
        | none => simp [truthy] at hT
        | some t =>
          simp only [Option.getD_some] at h1
          simp [truthy, ← h1] at hT
      · simp only [hT, hc, Bool.false_eq_true, if_false] at h1
        simp only [hc, Bool.false_eq_true, if_false]
        exact h1.symm
  · exact currencyOf_explicit cat self _ h

theorem formatPrice_default (cat : CurrencyData) (self : CurrencyUtils) (p : ℚ)
    (target : Option String) (info : CurrencyInfo)
    (h : cat.get (self.currencyOf cat target) = some info) :
    self.formatPrice cat p target FormatOverrides.empty =
      (if self.currencyOf cat target = "EUR" then
        CurrencyUtils.formatNumber (self.convertPrice cat p target)
          { showSymbol := true, showCode := false, decimals := 2,
            thousandsSeparator := ",", decimalSeparator := "." } ++ info.symbol
      else
        info.symbol ++ CurrencyUtils.formatNumber (self.convertPrice cat p target)
          { showSymbol := true, showCode := false, decimals := 2,
            thousandsSeparator := ",", decimalSeparator := "." }) := by
  have hconv : self.convertPrice cat p (some (self.currencyOf cat target)) =
      self.convertPrice cat p target := by
    simp only [CurrencyUtils.convertPrice, currencyOf_idem]
  simp only [CurrencyUtils.formatPrice, h, hconv]
  rfl

/-- C8.  Let `C` be the code `formatPrice(p, target)` resolves (the target itself
when it is a non-empty string) and let it be a key of the catalog.  With the default
options the result is `N` followed by the symbol of `C` when `C` is `"EUR"`, and the
symbol followed by `N` otherwise, where `N` is `formatNumber` of
`convertPrice(p, target)` with 2 decimals, `","` between thousands and `"."` before
the decimals; nothing else is added. -/
theorem formatPrice_symbol_placement (cat : CurrencyData) (self : CurrencyUtils) (p : ℚ)
    (target : Option String) (info : CurrencyInfo)
    (h : cat.get (self.currencyOf cat target) = some info) :
    (∀ C : String, C ≠ "" → target = some C → self.currencyOf cat target = C) ∧
    self.formatPrice cat p target FormatOverrides.empty =
      (if self.currencyOf cat target = "EUR" then
        CurrencyUtils.formatNumber (self.convertPrice cat p target)
          { showSymbol := true, showCode := false, decimals := 2,
            thousandsSeparator := ",", decimalSeparator := "." } ++ info.symbol
      else
        info.symbol ++ CurrencyUtils.formatNumber (self.convertPrice cat p target)
          { showSymbol := true, showCode := false, decimals := 2,
            thousandsSeparator := ",", decimalSeparator := "." }) :=
  ⟨fun C hC ht => by rw [ht]; exact currencyOf_explicit cat self C hC,
    formatPrice_default cat self p target info h⟩

theorem endToEnd_convert (self : CurrencyUtils) :
    self.convertPrice endToEndCatalog 10 (some "EUR") = 9 := by
  have hc : self.currencyOf endToEndCatalog (some "EUR") = "EUR" :=
    currencyOf_explicit _ _ _ (by decide)
  have hr : mathRound ((10 : ℚ) * (9 / 10) * 100) = 900 := by
    rw [mathRound_eq, Int.floor_eq_iff]
    norm_num
  simp only [CurrencyUtils.convertPrice, hc, endToEnd_get_EUR, hr]
  norm_num

theorem formatNumber_nine :
    CurrencyUtils.formatNumber 9
      { showSymbol := true, showCode := false, decimals := 2,
        thousandsSeparator := ",", decimalSeparator := "." } = "9.00" := by
  have hr : (mathRound ((9 : ℚ) * (10 : ℚ) ^ 2)).toNat = 900 := by
    have : mathRound ((9 : ℚ) * (10 : ℚ) ^ 2) = 900 := by
      rw [mathRound_eq, Int.floor_eq_iff]
      norm_num
    rw [this]
    rfl
  rw [formatNumber_of_nonneg 9 _ (by norm_num) (by decide)]
  simp only [hr]
  decide

/-- Witness of C8: the end-to-end catalog, 10 in euros and in dollars. -/
theorem formatPrice_symbol_placement_witness :
    endToEndCatalog.get (CurrencyUtils.new.currencyOf endToEndCatalog (some "EUR")) =
      some { symbol := "€", name := none, rate := 9 / 10, countries := none } ∧
    CurrencyUtils.new.formatPrice endToEndCatalog 10 (some "EUR") FormatOverrides.empty =
      (if CurrencyUtils.new.currencyOf endToEndCatalog (some "EUR") = "EUR" then
        CurrencyUtils.formatNumber (CurrencyUtils.new.convertPrice endToEndCatalog 10 (some "EUR"))
          { showSymbol := true, showCode := false, decimals := 2,
            thousandsSeparator := ",", decimalSeparator := "." } ++ "€"
      else
        "€" ++ CurrencyUtils.formatNumber
          (CurrencyUtils.new.convertPrice endToEndCatalog 10 (some "EUR"))
          { showSymbol := true, showCode := false, decimals := 2,
            thousandsSeparator := ",", decimalSeparator := "." }) :=
  ⟨rfl, (formatPrice_symbol_placement endToEndCatalog CurrencyUtils.new 10 (some "EUR")
    { symbol := "€", name := none, rate := 9 / 10, countries := none } rfl).2⟩

theorem formatPrice_endToEnd_value (self : CurrencyUtils) :
    self.formatPrice endToEndCatalog 10 (some "EUR") FormatOverrides.empty = "9.00€" := by
  have hc : self.currencyOf endToEndCatalog (some "EUR") = "EUR" :=
    currencyOf_explicit _ _ _ (by decide)
  have h := formatPrice_default endToEndCatalog self 10 (some "EUR")
    { symbol := "€", name := none, rate := 9 / 10, countries := none }
    (by rw [hc]; exact endToEnd_get_EUR)
  rw [h, hc, endToEnd_convert, formatNumber_nine]
  decide

/-- C9, as the code behaves.  With the end-to-end catalog and the default options,
`formatPrice(10, "EUR")` is `"9.00€"`, whatever the state of the service: the two
decimals of the default options are always rendered. -/
theorem formatPrice_endToEnd_EUR (self : CurrencyUtils) :
    self.formatPrice endToEndCatalog 10 (some "EUR") FormatOverrides.empty = "9.00€" :=
  formatPrice_endToEnd_value self

/-- C9 as stated fails: `formatPrice(10, "EUR")` is not `"9€"`. -/
theorem formatPrice_endToEnd_EUR_not_bare :
    CurrencyUtils.new.formatPrice endToEndCatalog 10 (some "EUR") FormatOverrides.empty ≠ "9€" := by
  rw [formatPrice_endToEnd_value]
  decide

/-- The sample price 1,234,567.891. -/
theorem mathRound_sample :
    (mathRound ((1234567891 / 1000 : ℚ) * (10 : ℚ) ^ 2)).toNat = 123456789 := by
  have : mathRound ((1234567891 / 1000 : ℚ) * (10 : ℚ) ^ 2) = 123456789 := by
    rw [mathRound_eq, Int.floor_eq_iff]
    norm_num
  rw [this]
  rfl

/-- A run of `formatNumber`: 1234567.891 with the default options. -/
theorem formatNumber_sample :
    CurrencyUtils.formatNumber (1234567891 / 1000) defaultOptions = "1,234,567.89" := by
  rw [formatNumber_of_nonneg _ _ (by norm_num) (by decide)]
  simp only [defaultOptions, mathRound_sample]
  decide

/-! ## Exchange rates -/

theorem rateOrOne_ne_zero (cat : CurrencyData) (code : String) : rateOrOne cat code ≠ 0 := by
  unfold rateOrOne
  cases cat.get code with
  | none => simp
  | some info =>
    by_cases h : info.rate = 0
    · simp [h]
    · simp [h]

theorem rateOrOne_eq_stated (cat : CurrencyData) (code : String)
    (h : statedRate cat code ≠ 0) : rateOrOne cat code = statedRate cat code := by
  unfold rateOrOne statedRate at *
  cases hg : cat.get code with
  | none => rfl
  | some info =>
    rw [hg] at h
    simp only at h
    simp [h]

theorem zeroRate_values :
    CurrencyUtils.getExchangeRate zeroRateCatalog "USD" "XTS" = 1 ∧
    statedRate zeroRateCatalog "XTS" / statedRate zeroRateCatalog "USD" = 0 := by
  have h1 : zeroRateCatalog.get "USD" =
      some { symbol := "$", name := some "US Dollar", rate := 1, countries := some ["US"] } := rfl
  have h2 : zeroRateCatalog.get "XTS" =
      some { symbol := "¤", name := some "Test", rate := 0, countries := some [] } := rfl
  simp [CurrencyUtils.getExchangeRate, rateOrOne, statedRate, h1, h2]

/-- C11, as the code behaves.  `getExchangeRate(A, B)` is `r(B) / r(A)`, where `r` of a
code is the rate of its catalog entry when there is one and that rate is not 0, and
1 otherwise (`rate || 1`); it is `rate(B) / rate(A)`, an absent code counting as 1,
whenever both of these are not 0.  For every pair of codes
`getExchangeRate(A, B) * getExchangeRate(B, A) = 1` and `getExchangeRate(A, A) = 1`,
over exact arithmetic. -/
theorem getExchangeRate_ratio (cat : CurrencyData) (A B : String) :
    CurrencyUtils.getExchangeRate cat A B = rateOrOne cat B / rateOrOne cat A ∧
    rateOrOne cat A =
      (match cat.get A with
       | some info => if info.rate ≠ 0 then info.rate else 1
       | none => 1) ∧
    (statedRate cat A ≠ 0 → statedRate cat B ≠ 0 →
      CurrencyUtils.getExchangeRate cat A B = statedRate cat B / statedRate cat A ∧
      CurrencyUtils.getExchangeRate cat A B * CurrencyUtils.getExchangeRate cat B A = 1) ∧
    CurrencyUtils.getExchangeRate cat A B * CurrencyUtils.getExchangeRate cat B A = 1 ∧
    CurrencyUtils.getExchangeRate cat A A = 1 := by
  have hA := rateOrOne_ne_zero cat A
  have hB := rateOrOne_ne_zero cat B
  have hprod : CurrencyUtils.getExchangeRate cat A B * CurrencyUtils.getExchangeRate cat B A = 1 := by
    simp only [CurrencyUtils.getExchangeRate]
    field_simp
  refine ⟨rfl, rfl, fun h1 h2 => ⟨?_, hprod⟩, hprod, ?_⟩
  · simp only [CurrencyUtils.getExchangeRate, rateOrOne_eq_stated cat A h1,
      rateOrOne_eq_stated cat B h2]
  · simp only [CurrencyUtils.getExchangeRate]
    exact div_self hA

/-- Witness of C11: dollars and euros in the end-to-end catalog. -/
theorem getExchangeRate_ratio_witness :
    (statedRate endToEndCatalog "USD" ≠ 0 ∧ statedRate endToEndCatalog "EUR" ≠ 0) ∧
    CurrencyUtils.getExchangeRate endToEndCatalog "USD" "EUR" =
      statedRate endToEndCatalog "EUR" / statedRate endToEndCatalog "USD" ∧
    CurrencyUtils.getExchangeRate endToEndCatalog "USD" "EUR" *
      CurrencyUtils.getExchangeRate endToEndCatalog "EUR" "USD" = 1 :=
  have h1 : statedRate endToEndCatalog "USD" ≠ 0 := by
    have : statedRate endToEndCatalog "USD" = 1 := rfl
    rw [this]; norm_num
  have h2 : statedRate endToEndCatalog "EUR" ≠ 0 := by
    have : statedRate endToEndCatalog "EUR" = 9 / 10 := rfl
    rw [this]; norm_num
  ⟨⟨h1, h2⟩, (getExchangeRate_ratio endToEndCatalog "USD" "EUR").2.2.1 h1 h2⟩

/-- C11 as stated fails: with a currency of rate 0 in the catalog,
`getExchangeRate("USD", "XTS")` is 1, not `rate(XTS) / rate(USD) = 0`. -/
theorem getExchangeRate_zero_rate_counts_as_one :
    CurrencyUtils.getExchangeRate zeroRateCatalog "USD" "XTS" ≠
      statedRate zeroRateCatalog "XTS" / statedRate zeroRateCatalog "USD" := by
  rw [zeroRate_values.1, zeroRate_values.2]
  norm_num

/-! ## `getCurrencyForCountry` -/

theorem currencyForCountryFrom_skip (fallback k : String)
    (pre rest : List (String × CurrencyInfo))
    (hpre : ∀ e ∈ pre, ∃ l, e.2.countries = some l ∧ k ∉ l) :
    currencyForCountryFrom fallback k (pre ++ rest) = currencyForCountryFrom fallback k rest := by
  induction pre with
  | nil => rfl
  | cons e pre ih =>
    obtain ⟨l, hl, hk⟩ := hpre e (by simp)
    have hrest : ∀ e ∈ pre, ∃ l, e.2.countries = some l ∧ k ∉ l :=
      fun x hx => hpre x (by simp [hx])
    obtain ⟨code, info⟩ := e
    simp only [List.cons_append, currencyForCountryFrom]
    simp only at hl
    rw [hl]
    simp [hk, ih hrest]

theorem currencyForCountryFrom_hit (fallback k code : String) (info : CurrencyInfo)
    (l : List String) (rest : List (String × CurrencyInfo))
    (hl : info.countries = some l) (hk : k ∈ l) :
    currencyForCountryFrom fallback k ((code, info) :: rest) = .ok code := by
  simp [currencyForCountryFrom, hl, hk]

theorem lookup_isSome_of_mem (code : String) (info : CurrencyInfo)
    (l : List (String × CurrencyInfo)) (h : (code, info) ∈ l) : List.lookup code l ≠ none := by
  induction l with
  | nil => simp at h
  | cons e l ih =>
    obtain ⟨c, i⟩ := e
    by_cases hc : code = c
    · subst hc
      simp [List.lookup]
    · have hne : (code == c) = false := by simpa using hc
      rcases List.mem_cons.mp h with h | h
      · exact absurd (congrArg Prod.fst h) hc
      · simp only [List.lookup, hne]
        exact ih h

theorem currencyForCountryFrom_key (fallback k : String) (l : List (String × CurrencyInfo))
    (c : String) (h : currencyForCountryFrom fallback k l = .ok c) :
    c = fallback ∨ ∃ info, (c, info) ∈ l := by
  induction l with
  | nil =>
    simp only [currencyForCountryFrom, Except.ok.injEq] at h
    exact Or.inl h.symm
  | cons e l ih =>
    obtain ⟨code, info⟩ := e
    simp only [currencyForCountryFrom] at h
    cases hcs : info.countries with
    | none => rw [hcs] at h; cases h
    | some cs =>
      rw [hcs] at h
      simp only at h
      by_cases hk : cs.contains k = true
      · rw [if_pos hk] at h
        cases h
        exact Or.inr ⟨info, by simp⟩
      · rw [if_neg hk] at h
        rcases ih h with h1 | ⟨i, hi⟩
        · exact Or.inl h1
        · exact Or.inr ⟨i, by simp [hi]⟩

theorem getCurrencyForCountry_is_key (cat : CurrencyData) (k c : String)
    (hfb : cat.get cat.fallbackCurrency ≠ none)
    (h : getCurrencyForCountry cat k = .ok c) : cat.get c ≠ none := by
  rcases currencyForCountryFrom_key _ _ _ _ h with h1 | ⟨info, hi⟩
  · rw [h1]; exact hfb
  · exact lookup_isSome_of_mem c info _ hi

theorem fresh_currency_is_key (cat : CurrencyData) (env : DetectEnv) (w : World)
    (r : Resolution) (hfb : cat.get cat.fallbackCurrency ≠ none)
    (hc : (getCachedLocation env.now w).1 = none)
    (hr : (detectLocationAndCurrency cat env w).1 = .ok r) : cat.get r.currency ≠ none := by
  rw [detect_of_no_cache cat env w w (getCachedLocation_none_world _ _ hc)] at hr
  rcases ht : tryMultipleDetectionMethods env w with ⟨_ | _ | location, w2⟩
  · rw [ht] at hr
    cases hr
    exact hfb
  · rw [ht] at hr
    cases hr
    exact hfb
  · rw [ht] at hr
    simp only at hr
    cases hcur : getCurrencyForCountry cat location.country with
    | error e =>
      rw [hcur] at hr
      cases hr
      exact hfb
    | ok currency =>
      rw [hcur] at hr
      cases hr
      exact getCurrencyForCountry_is_key cat _ _ hfb hcur

/-- C12, as the code behaves.  For a catalog whose entries all carry a `countries`
list, `getCurrencyForCountry(k)` returns the code of the first entry, in the order of
`Object.entries`, whose list contains `k`, and the fallback currency when no list
contains `k`.  Consequently, for every catalog, when the fallback currency is a key
of the catalog, the currency of every resolution that `detectLocationAndCurrency`
returns without taking it from the cache is a key of the catalog. -/
theorem getCurrencyForCountry_first_listing (cat : CurrencyData) (k : String)
    (hwf : ∀ e ∈ cat.currencies, e.2.countries ≠ none) :
    (∀ (pre : List (String × CurrencyInfo)) (code : String) (info : CurrencyInfo)
        (post : List (String × CurrencyInfo)) (l : List String),
        cat.currencies = pre ++ (code, info) :: post →
        info.countries = some l → k ∈ l →
        (∀ e ∈ pre, ∀ m, e.2.countries = some m → k ∉ m) →
        getCurrencyForCountry cat k = .ok code) ∧
    ((∀ e ∈ cat.currencies, ∀ m, e.2.countries = some m → k ∉ m) →
        getCurrencyForCountry cat k = .ok cat.fallbackCurrency) ∧
    (cat.get cat.fallbackCurrency ≠ none →
      ∀ (env : DetectEnv) (w : World) (r : Resolution),
        (getCachedLocation env.now w).1 = none →
        (detectLocationAndCurrency cat env w).1 = .ok r → cat.get r.currency ≠ none) := by
  have lists : ∀ l : List (String × CurrencyInfo), (∀ e ∈ l, e ∈ cat.currencies) →
      (∀ e ∈ l, ∀ m, e.2.countries = some m → k ∉ m) →
      ∀ e ∈ l, ∃ m, e.2.countries = some m ∧ k ∉ m := by
    intro l hsub hno e he
    cases hcs : e.2.countries with
    | none => exact absurd hcs (hwf e (hsub e he))
    | some m => exact ⟨m, rfl, hno e he m hcs⟩
  refine ⟨?_, ?_, fun hfb env w r hc hr => fresh_currency_is_key cat env w r hfb hc hr⟩
  · intro pre code info post l hsplit hl hk hpre
    unfold getCurrencyForCountry
    rw [hsplit, currencyForCountryFrom_skip _ _ pre _
      (lists pre (fun e he => by rw [hsplit]; simp [he]) hpre)]
    exact currencyForCountryFrom_hit _ _ code info l post hl hk
  · intro hno
    unfold getCurrencyForCountry
    have := currencyForCountryFrom_skip cat.fallbackCurrency k cat.currencies []
      (lists cat.currencies (fun e he => he) hno)
    rw [List.append_nil] at this
    rw [this]
    rfl

/-- Witness of C12: Kenya is listed by the third entry of the sample catalog, and
the detection by timezone ends in a key of that catalog. -/
theorem getCurrencyForCountry_first_listing_witness :
    getCurrencyForCountry sampleCatalog "KE" = .ok "KES" ∧
    getCurrencyForCountry sampleCatalog "BR" = .ok sampleCatalog.fallbackCurrency ∧
    sampleCatalog.get "KES" ≠ none :=
  have hwf : ∀ e ∈ sampleCatalog.currencies, e.2.countries ≠ none := by
    simp [sampleCatalog]
  ⟨(getCurrencyForCountry_first_listing sampleCatalog "KE" hwf).1
      [("USD", { symbol := "$", name := some "US Dollar", rate := 1, countries := some ["US"] }),
       ("EUR", { symbol := "€", name := some "Euro", rate := 9 / 10,
                 countries := some ["FR", "DE"] })]
      "KES" { symbol := "KSh", name := some "Kenyan Shilling", rate := 129,
              countries := some ["KE"] } [] ["KE"] rfl rfl (by simp) (by simp),
   (getCurrencyForCountry_first_listing sampleCatalog "BR" hwf).2.1 (by simp [sampleCatalog]),
   (getCurrencyForCountry_first_listing sampleCatalog "KE" hwf).2.2 (by
      show List.lookup "USD" sampleCatalog.currencies ≠ none
      simp [sampleCatalog, List.lookup]) (kenyaByTimezone 0) World.start _ rfl
      (congrArg Prod.fst detect_kenyaByTimezone)⟩

theorem endToEnd_lists_no_country :
    ∀ e ∈ endToEndCatalog.currencies, ∀ m, e.2.countries = some m → "US" ∉ m := by
  intro e he m hm
  simp only [endToEndCatalog, List.mem_cons, List.mem_singleton, List.not_mem_nil,
    or_false] at he
  rcases he with rfl | rfl <;> cases hm

/-- C12 as stated fails: in the end-to-end catalog of the specification no entry has a
`countries` list, so no currency lists `"US"`; `getCurrencyForCountry("US")` does not
return the fallback currency but throws a `TypeError` when it reads `.includes` of
the first entry. -/
theorem getCurrencyForCountry_throws_without_countries :
    (∀ e ∈ endToEndCatalog.currencies, ∀ m, e.2.countries = some m → "US" ∉ m) ∧
    getCurrencyForCountry endToEndCatalog "US" =
      .error "TypeError: currencyInfo.countries is undefined" ∧
    getCurrencyForCountry endToEndCatalog "US" ≠ .ok endToEndCatalog.fallbackCurrency := by
  have h : getCurrencyForCountry endToEndCatalog "US" =
      .error "TypeError: currencyInfo.countries is undefined" := rfl
  refine ⟨endToEnd_lists_no_country, h, ?_⟩
  rw [h]
  intro hne
  cases hne

/-! ## The IP strategy -/

theorem toUpperCase_ne_empty (s : String) (h : s ≠ "") : toUpperCase s ≠ "" := by
  intro hu
  apply h
  have hd : (toUpperCase s).data = [] := by rw [hu]
  simp only [toUpperCase, List.map_eq_nil_iff] at hd
  cases s with
  | mk data =>
    simp only at hd
    rw [hd]

theorem detectViaIPAPI_of_error (primary secondary : FetchResult)
    (h : failsWithError primary = true) :
    detectViaIPAPI primary secondary = (alternativeIPService secondary, [.ipapi, .countryIs]) := by
  cases primary with
  | rejected => rfl
  | response ok body =>
    cases ok with
    | false => rfl
    | true =>
      cases body with
      | none => rfl
      | some data => simp [failsWithError] at h

theorem alternativeIPService_of_country (secondary : FetchResult) (c : String)
    (h : answersCountry secondary c) :
    alternativeIPService secondary =
      .ok (some { country := toUpperCase c, method := "country-is" }) := by
  obtain ⟨hc, ok, data, rfl, hd⟩ := h
  simp [alternativeIPService, hd, truthy, hc]

/-- The chain when the IP strategy has no country: the browser geolocation is
invoked next, and the timezone only if the geolocation has no country either. -/
theorem tryMultiple_after_ip (env : DetectEnv) (w : World)
    (hip : yieldsCountry env.ipLookup = false) :
    (∀ r, env.geolocation = .ok (some r) → r.country ≠ "" →
      tryMultipleDetectionMethods env w =
        (.ok (some r), { w with ran := w.ran ++ [Strategy.ipLookup, Strategy.geolocation] })) ∧
    (yieldsCountry env.geolocation = false →
      ∃ res more, tryMultipleDetectionMethods env w =
        (.ok res, { w with ran := w.ran ++
          Strategy.ipLookup :: Strategy.geolocation :: Strategy.timezone :: more })) := by
  constructor
  · intro r hr hc
    unfold tryMultipleDetectionMethods
    have := tryMethods_skip env [Strategy.ipLookup] [.geolocation, .timezone, .language] w
      (by intro s hs; simp only [List.mem_singleton] at hs; rw [hs]; exact hip)
    rw [show methods = [Strategy.ipLookup] ++ [.geolocation, .timezone, .language] from rfl,
      this, tryMethods_hit env .geolocation _ _ r hr hc]
    simp
  · intro hgeo
    unfold tryMultipleDetectionMethods
    have := tryMethods_skip env [Strategy.ipLookup, Strategy.geolocation]
      [.timezone, .language] w
      (by
        intro s hs
        simp only [List.mem_cons, List.mem_singleton, List.not_mem_nil, or_false] at hs
        rcases hs with rfl | rfl
        · exact hip
        · exact hgeo)
    rw [show methods = [Strategy.ipLookup, Strategy.geolocation] ++ [.timezone, .language]
      from rfl, this]
    obtain ⟨res, more, -, hhead, hw⟩ := tryMethods_shape env [.timezone, .language]
    have hmore : ∃ tl, more = Strategy.timezone :: tl := by
      have := hhead (by simp)
      cases more with
      | nil => simp at this
      | cons a tl => exact ⟨tl, by simpa using this⟩
    obtain ⟨tl, rfl⟩ := hmore
    exact ⟨res, tl, by rw [hw]; simp⟩

theorem alternativeIPService_no_country (secondary : FetchResult)
    (h : ∀ c, ¬ answersCountry secondary c) :
    yieldsCountry (alternativeIPService secondary) = false := by
  cases secondary with
  | rejected => rfl
  | response ok body =>
    cases body with
    | none => rfl
    | some data =>
      cases hc : data.country with
      | none => simp [alternativeIPService, hc, truthy, yieldsCountry]
      | some c =>
        by_cases hne : c = ""
        · simp [alternativeIPService, hc, truthy, hne, yieldsCountry]
        · exact absurd ⟨hne, ok, data, rfl, hc⟩ (h c)

theorem currencyForCountryFrom_ok (fb k : String) (l : List (String × CurrencyInfo))
    (hwf : ∀ e ∈ l, e.2.countries ≠ none) :
    ∃ c, currencyForCountryFrom fb k l = .ok c := by
  induction l with
  | nil => exact ⟨fb, rfl⟩
  | cons e l ih =>
    obtain ⟨code, info⟩ := e
    cases hcs : info.countries with
    | none => exact absurd hcs (hwf (code, info) (by simp))
    | some cs =>
      by_cases hk : cs.contains k = true
      · exact ⟨code, by simp only [currencyForCountryFrom, hcs, if_pos hk]⟩
      · obtain ⟨c, hc⟩ := ih (fun e he => hwf e (by simp [he]))
        exact ⟨c, by simp only [currencyForCountryFrom, hcs, if_neg hk, hc]⟩

theorem getCurrencyForCountry_ok (cat : CurrencyData) (k : String)
    (hwf : ∀ e ∈ cat.currencies, e.2.countries ≠ none) :
    ∃ c, getCurrencyForCountry cat k = .ok c :=
  currencyForCountryFrom_ok cat.fallbackCurrency k cat.currencies hwf

theorem detect_ran_of_no_cache (cat : CurrencyData) (env : DetectEnv) (w : World)
    (hc : (getCachedLocation env.now w).1 = none) :
    (detectLocationAndCurrency cat env w).2.ran = (tryMultipleDetectionMethods env w).2.ran := by
  rw [detect_of_no_cache cat env w w (getCachedLocation_none_world _ _ hc)]
  rcases ht : tryMultipleDetectionMethods env w with ⟨_ | _ | location, w2⟩
  · rfl
  · rfl
  · simp only
    cases getCurrencyForCountry cat location.country <;> rfl

theorem detect_of_location (cat : CurrencyData) (env : DetectEnv) (w w2 : World)
    (location : Location) (hwf : ∀ e ∈ cat.currencies, e.2.countries ≠ none)
    (hc : (getCachedLocation env.now w).1 = none)
    (ht : tryMultipleDetectionMethods env w = (.ok (some location), w2)) :
    ∃ currency, (detectLocationAndCurrency cat env w).1 =
      .ok { country := location.country, currency := currency, detected := true,
            method := location.method, timestamp := none } := by
  obtain ⟨c, hcur⟩ := getCurrencyForCountry_ok cat location.country hwf
  refine ⟨c, ?_⟩
  rw [detect_of_no_cache cat env w w (getCachedLocation_none_world _ _ hc), ht]
  simp only [hcur]

/-- C13, as the code behaves.  With no valid cached resolution: if the primary IP
request fails with an error (it is rejected, the response is not `ok`, or the body
does not parse) and the secondary response carries a country, the resolution
returned has method `"country-is"` and that country upper-cased (for a catalog whose
entries carry `countries`); and if both IP requests fail, the strategy invoked next
is the browser geolocation, the timezone being invoked only when the geolocation
yields no country either. -/
theorem ip_failure_is_followed_by_geolocation (cat : CurrencyData) (env : DetectEnv)
    (w : World) (primary secondary : FetchResult)
    (hcache : (getCachedLocation env.now w).1 = none)
    (hfail : failsWithError primary = true) :
    (∀ c, answersCountry secondary c → (∀ e ∈ cat.currencies, e.2.countries ≠ none) →
      ∃ r, (detectLocationAndCurrency cat (env.withIP primary secondary) w).1 = .ok r ∧
        r.method = "country-is" ∧ r.country = toUpperCase c ∧ r.detected = true) ∧
    ((∀ c, ¬ answersCountry secondary c) →
      (∃ more, (detectLocationAndCurrency cat (env.withIP primary secondary) w).2.ran =
        w.ran ++ Strategy.ipLookup :: Strategy.geolocation :: more) ∧
      (yieldsCountry env.geolocation = true →
        (detectLocationAndCurrency cat (env.withIP primary secondary) w).2.ran =
          w.ran ++ [Strategy.ipLookup, Strategy.geolocation]) ∧
      (yieldsCountry env.geolocation = false →
        ∃ more, (detectLocationAndCurrency cat (env.withIP primary secondary) w).2.ran =
          w.ran ++ Strategy.ipLookup :: Strategy.geolocation :: Strategy.timezone :: more)) := by
  have hcache2 : (getCachedLocation (env.withIP primary secondary).now w).1 = none := hcache
  have hip : (env.withIP primary secondary).ipLookup = alternativeIPService secondary := by
    show (detectViaIPAPI primary secondary).1 = _
    rw [detectViaIPAPI_of_error primary secondary hfail]
  constructor
  · intro c hc hwf
    have hout : (env.withIP primary secondary).outcome Strategy.ipLookup =
        .ok (some { country := toUpperCase c, method := "country-is" }) := by
      show (env.withIP primary secondary).ipLookup = _
      rw [hip, alternativeIPService_of_country secondary c hc]
    have ht : tryMultipleDetectionMethods (env.withIP primary secondary) w =
        (.ok (some { country := toUpperCase c, method := "country-is" }),
          { w with ran := w.ran ++ [Strategy.ipLookup] }) :=
      tryMethods_hit _ Strategy.ipLookup _ w _ hout (toUpperCase_ne_empty c hc.1)
    obtain ⟨cur, hr⟩ := detect_of_location cat _ w _ _ hwf hcache2 ht
    exact ⟨_, hr, rfl, rfl, rfl⟩
  · intro hno
    have hy : yieldsCountry (env.withIP primary secondary).ipLookup = false := by
      rw [hip]
      exact alternativeIPService_no_country secondary hno
    have hran := detect_ran_of_no_cache cat (env.withIP primary secondary) w hcache2
    have hafter := tryMultiple_after_ip (env.withIP primary secondary) w hy
    have hgeoT : yieldsCountry env.geolocation = true →
        (detectLocationAndCurrency cat (env.withIP primary secondary) w).2.ran =
          w.ran ++ [Strategy.ipLookup, Strategy.geolocation] := by
      intro hg
      cases hgo : env.geolocation with
      | error e => rw [hgo] at hg; simp [yieldsCountry] at hg
      | ok o =>
        cases o with
        | none => rw [hgo] at hg; simp [yieldsCountry] at hg
        | some r =>
          have hne : r.country ≠ "" := by
            rw [hgo] at hg
            simpa [yieldsCountry] using hg
          rw [hran, hafter.1 r hgo hne]
    have hgeoF : yieldsCountry env.geolocation = false →
        ∃ more, (detectLocationAndCurrency cat (env.withIP primary secondary) w).2.ran =
          w.ran ++ Strategy.ipLookup :: Strategy.geolocation :: Strategy.timezone :: more := by
      intro hg
      obtain ⟨res, more, hm⟩ := hafter.2 hg
      exact ⟨more, by rw [hran, hm]⟩
    refine ⟨?_, hgeoT, hgeoF⟩
    by_cases hg : yieldsCountry env.geolocation = true
    · exact ⟨[], hgeoT hg⟩
    · obtain ⟨more, hm⟩ := hgeoF (by simpa using hg)
      exact ⟨Strategy.timezone :: more, hm⟩

theorem answersCountry_kenya : answersCountry (.response true (some kenyaBody)) "ke" :=
  ⟨by decide, true, kenyaBody, rfl, rfl⟩

theorem rejected_answers_nothing : ∀ c, ¬ answersCountry FetchResult.rejected c := by
  intro c h
  obtain ⟨-, ok, data, h, -⟩ := h
  cases h

/-- Witness of C13: the primary request is rejected and the secondary names Kenya;
and both requests are rejected while the geolocation yields a country. -/
theorem ip_failure_is_followed_by_geolocation_witness :
    (∃ r, (detectLocationAndCurrency sampleCatalog
          ((allFail 0).withIP .rejected (.response true (some kenyaBody))) World.start).1 = .ok r ∧
        r.method = "country-is" ∧ r.country = toUpperCase "ke" ∧ r.detected = true) ∧
    (detectLocationAndCurrency sampleCatalog
        ((kenyaByGeolocation 0).withIP .rejected .rejected) World.start).2.ran =
      World.start.ran ++ [Strategy.ipLookup, Strategy.geolocation] :=
  ⟨(ip_failure_is_followed_by_geolocation sampleCatalog (allFail 0) World.start .rejected
      (.response true (some kenyaBody)) rfl rfl).1 "ke" answersCountry_kenya
      (by simp [sampleCatalog]),
   ((ip_failure_is_followed_by_geolocation sampleCatalog (kenyaByGeolocation 0) World.start
      .rejected .rejected rfl rfl).2 rejected_answers_nothing).2.1 rfl⟩

/-- C13 as stated fails: when both IP requests are rejected and the geolocation
yields a country, the strategies invoked are the IP lookup and the geolocation; the
one invoked after the IP lookup is not the timezone, which is not invoked at all. -/
theorem timezone_is_not_next_after_ip :
    (detectLocationAndCurrency sampleCatalog
        ((kenyaByGeolocation 0).withIP .rejected .rejected) World.start).2.ran =
      [Strategy.ipLookup, Strategy.geolocation] ∧
    (detectLocationAndCurrency sampleCatalog
        ((kenyaByGeolocation 0).withIP .rejected .rejected) World.start).2.ran[1]? ≠
      some Strategy.timezone ∧
    Strategy.timezone ∉ (detectLocationAndCurrency sampleCatalog
        ((kenyaByGeolocation 0).withIP .rejected .rejected) World.start).2.ran := by
  have h : (detectLocationAndCurrency sampleCatalog
      ((kenyaByGeolocation 0).withIP .rejected .rejected) World.start).2.ran =
      [Strategy.ipLookup, Strategy.geolocation] := rfl
  rw [h]
  exact ⟨rfl, by decide, by decide⟩

/-- C14 at the failing input.  The primary endpoint answers `ok` with a body that
has no `country_code`, and the secondary would name Kenya: `detectViaIPAPI` returns
`undefined` and fetches the primary endpoint only.  When the primary request is
rejected, or answers with a status that is not `ok`, the same secondary response is
fetched and gives `KE` with method `country-is`. -/
theorem detectViaIPAPI_skips_secondary_on_empty_body :
    detectViaIPAPI (.response true (some noCountryBody)) (.response true (some kenyaBody)) =
      (.ok none, [Endpoint.ipapi]) ∧
    detectViaIPAPI .rejected (.response true (some kenyaBody)) =
      (.ok (some { country := "KE", method := "country-is" }),
        [Endpoint.ipapi, Endpoint.countryIs]) ∧
    detectViaIPAPI (.response false (some noCountryBody)) (.response true (some kenyaBody)) =
      (.ok (some { country := "KE", method := "country-is" }),
        [Endpoint.ipapi, Endpoint.countryIs]) := by
  exact ⟨rfl, rfl, rfl⟩

/-! ## Defaulting before `initialize` -/

theorem run_initialize_initialized (cat : CurrencyData) (env : DetectEnv) (w : World) :
    ((Op.callInitialize env).run cat w).currency.initialized = true := by
  obtain ⟨r, w1, h, hi⟩ := initialize_lands_initialized cat (detectLocationAndCurrency cat env) w
  show ( CurrencyUtils.initialize cat (detectLocationAndCurrency cat env) w).2.currency.initialized
    = true
  rw [h]
  exact hi

theorem setCurrency_currentCurrency (cat : CurrencyData) (now : ℤ) (code : String) (w : World) :
    (CurrencyUtils.setCurrency cat now code w).2.currency.currentCurrency =
      (if (cat.get code).isSome then some code else w.currency.currentCurrency) := by
  unfold CurrencyUtils.setCurrency
  cases cat.get code <;> rfl

/-- While `initialized` is false at the end of a sequence of calls, `currentCurrency`
is the code set by the last `setCurrency` that did not throw. -/
theorem runAll_currentCurrency (cat : CurrencyData) (ops : List Op) (w : World)
    (h : (runAll cat ops w).currency.initialized = false) :
    (runAll cat ops w).currency.currentCurrency =
      ops.foldl (noteSetCurrency cat) w.currency.currentCurrency := by
  induction ops generalizing w with
  | nil => rfl
  | cons op ops ih =>
    simp only [runAll, List.foldl_cons] at h ⊢
    have hstep := ih (op.run cat w) h
    simp only [runAll] at hstep
    rw [hstep]
    cases op with
    | callInitialize env =>
      have hi := run_initialize_initialized cat env w
      have := runAll_keeps_initialized cat ops _ hi
      rw [this] at h
      cases h
    | callSetCurrency code now =>
      show List.foldl (noteSetCurrency cat)
        (CurrencyUtils.setCurrency cat now code w).2.currency.currentCurrency ops = _
      rw [setCurrency_currentCurrency]
      rfl
    | _ => rfl

theorem currencyOf_none_eq (cat : CurrencyData) (self : CurrencyUtils) :
    self.currencyOf cat none = self.getCurrentCurrency cat := rfl

theorem currencyOf_of_unset (cat : CurrencyData) (self : CurrencyUtils)
    (h : self.currentCurrency = none) (target : Option String)
    (ht : target = none ∨ target = some cat.fallbackCurrency) :
    self.currencyOf cat target = cat.fallbackCurrency := by
  rw [currencyOf_eq, h]
  rcases ht with rfl | rfl
  · simp [truthy]
  · by_cases hf : cat.fallbackCurrency = ""
    · simp [truthy, hf]
    · simp [truthy, hf]

theorem currencyOf_of_set (cat : CurrencyData) (self : CurrencyUtils) (C : String)
    (h : self.currentCurrency = some C) :
    self.currencyOf cat none = self.currencyOf cat (some C) := by
  rw [currencyOf_eq, currencyOf_eq, h]
  by_cases hC : C = ""
  · simp [truthy, hC]
  · simp [truthy, hC]

theorem defaults_follow_currencyOf (cat : CurrencyData) (self : CurrencyUtils)
    (a b : Option String) (h : self.currencyOf cat a = self.currencyOf cat b) :
    (∀ p, self.convertPrice cat p a = self.convertPrice cat p b) ∧
    (∀ p o, self.formatPrice cat p a o = self.formatPrice cat p b o) ∧
    self.getCurrencyInfo cat a = self.getCurrencyInfo cat b := by
  refine ⟨fun p => ?_, fun p o => ?_, ?_⟩
  · simp only [CurrencyUtils.convertPrice, h]
  · simp only [CurrencyUtils.formatPrice, h]
  · simp only [CurrencyUtils.getCurrencyInfo, h]

theorem lastSetCurrency_is_key (cat : CurrencyData) (ops : List Op) (acc : Option String)
    (hacc : ∀ C, acc = some C → cat.get C ≠ none) (C : String)
    (h : ops.foldl (noteSetCurrency cat) acc = some C) : cat.get C ≠ none := by
  induction ops generalizing acc with
  | nil => exact hacc C h
  | cons op ops ih =>
    simp only [List.foldl_cons] at h
    refine ih _ ?_ h
    intro D hD
    cases op with
    | callSetCurrency code now =>
      simp only [noteSetCurrency] at hD
      by_cases hk : (cat.get code).isSome = true
      · rw [if_pos hk] at hD
        cases hD
        intro hn
        rw [hn] at hk
        cases hk
      · rw [if_neg hk] at hD
        exact hacc D hD
    | _ => exact hacc D hD

/-- C15, as the code behaves.  In every state reached from the state at module load
by calls of the methods of the service in which `initialized` is false,
`currentCurrency` is the code of the most recent `setCurrency` that did not throw,
and is unset when there was none.  When there was none, `getCurrentCurrency()` is
the fallback code and `convertPrice(p)`, `formatPrice(p)` and `getCurrencyInfo()`
without a code give what they give for the fallback code.  When the most recent one
set `C`, a key of the catalog, they give what they give for `C`, and
`getCurrentCurrency()` is `C` (a code being a non-empty string). -/
theorem uninitialized_defaults_to_last_set (cat : CurrencyData) (ops : List Op)
    (h : (runAll cat ops World.start).currency.initialized = false) :
    (runAll cat ops World.start).currency.currentCurrency = lastSetCurrency cat ops ∧
    (lastSetCurrency cat ops = none →
      (runAll cat ops World.start).currency.getCurrentCurrency cat = cat.fallbackCurrency ∧
      (∀ p, (runAll cat ops World.start).currency.convertPrice cat p none =
        (runAll cat ops World.start).currency.convertPrice cat p (some cat.fallbackCurrency)) ∧
      (∀ p o, (runAll cat ops World.start).currency.formatPrice cat p none o =
        (runAll cat ops World.start).currency.formatPrice cat p (some cat.fallbackCurrency) o) ∧
      (runAll cat ops World.start).currency.getCurrencyInfo cat none =
        (runAll cat ops World.start).currency.getCurrencyInfo cat (some cat.fallbackCurrency)) ∧
    (∀ C, lastSetCurrency cat ops = some C →
      cat.get C ≠ none ∧
      (C ≠ "" → (runAll cat ops World.start).currency.getCurrentCurrency cat = C) ∧
      (∀ p, (runAll cat ops World.start).currency.convertPrice cat p none =
        (runAll cat ops World.start).currency.convertPrice cat p (some C)) ∧
      (∀ p o, (runAll cat ops World.start).currency.formatPrice cat p none o =
        (runAll cat ops World.start).currency.formatPrice cat p (some C) o) ∧
      (runAll cat ops World.start).currency.getCurrencyInfo cat none =
        (runAll cat ops World.start).currency.getCurrencyInfo cat (some C)) := by
  have hcur : (runAll cat ops World.start).currency.currentCurrency = lastSetCurrency cat ops :=
    runAll_currentCurrency cat ops World.start h
  refine ⟨hcur, fun hnone => ?_, fun C hC => ?_⟩
  · have hu : (runAll cat ops World.start).currency.currentCurrency = none := by
      rw [hcur, hnone]
    have h1 := currencyOf_of_unset cat _ hu none (Or.inl rfl)
    have h2 := currencyOf_of_unset cat _ hu (some cat.fallbackCurrency) (Or.inr rfl)
    have hd := defaults_follow_currencyOf cat (runAll cat ops World.start).currency none
      (some cat.fallbackCurrency) (by rw [h1, h2])
    exact ⟨by rw [← currencyOf_none_eq, h1], hd.1, hd.2.1, hd.2.2⟩
  · have hs : (runAll cat ops World.start).currency.currentCurrency = some C := by
      rw [hcur, hC]
    have hd := defaults_follow_currencyOf cat (runAll cat ops World.start).currency none
      (some C) (currencyOf_of_set cat _ C hs)
    exact ⟨lastSetCurrency_is_key cat ops none (fun _ hn => by cases hn) C hC,
      fun hne => getCurrentCurrency_of_nonempty cat _ C hs hne, hd.1, hd.2.1, hd.2.2⟩

theorem runAll_setCurrency_EUR :
    runAll sampleCatalog [Op.callGetCurrentCurrency, Op.callSetCurrency "EUR" 7] World.start =
      { World.start with
        currency := { currentCurrency := some "EUR", initialized := false },
        cache := some (manualEntry "EUR" 7),
        storage := some (.entry (manualEntry "EUR" 7)),
        events := [{ currency := "EUR", locationData := none, manual := some true }] } := by
  rfl

/-- Witness of C15: on a fresh page a price is converted with the fallback; after
`setCurrency("EUR")`, still without `initialize`, the active currency is the euro. -/
theorem uninitialized_defaults_to_last_set_witness :
    ((runAll sampleCatalog [Op.callConvertPrice 10 none] World.start).currency.initialized = false ∧
      lastSetCurrency sampleCatalog [Op.callConvertPrice 10 none] = none) ∧
    (runAll sampleCatalog [Op.callConvertPrice 10 none] World.start).currency.getCurrentCurrency
        sampleCatalog = sampleCatalog.fallbackCurrency ∧
    ((runAll sampleCatalog [Op.callGetCurrentCurrency, Op.callSetCurrency "EUR" 7]
        World.start).currency.initialized = false ∧
      lastSetCurrency sampleCatalog [Op.callGetCurrentCurrency, Op.callSetCurrency "EUR" 7] =
        some "EUR" ∧ "EUR" ≠ "") ∧
    (runAll sampleCatalog [Op.callGetCurrentCurrency, Op.callSetCurrency "EUR" 7]
        World.start).currency.getCurrentCurrency sampleCatalog = "EUR" :=
  ⟨⟨rfl, rfl⟩,
   ((uninitialized_defaults_to_last_set sampleCatalog [Op.callConvertPrice 10 none] rfl).2.1
      rfl).1,
   ⟨congrArg (fun w => w.currency.initialized) runAll_setCurrency_EUR, rfl, by decide⟩,
   ((uninitialized_defaults_to_last_set sampleCatalog
      [Op.callGetCurrentCurrency, Op.callSetCurrency "EUR" 7]
      (congrArg (fun w => w.currency.initialized) runAll_setCurrency_EUR)).2.2 "EUR" rfl).2.1
      (by decide)⟩

/-- C15 as stated fails: after `setCurrency("EUR")` on a fresh page the service is
still uninitialized, and `getCurrentCurrency()` is `"EUR"`, not the fallback `"USD"`. -/
theorem uninitialized_setCurrency_overrides_fallback :
    (runAll sampleCatalog [Op.callSetCurrency "EUR" 7] World.start).currency.initialized = false ∧
    (runAll sampleCatalog [Op.callSetCurrency "EUR" 7] World.start).currency.getCurrentCurrency
        sampleCatalog = "EUR" ∧
    (runAll sampleCatalog [Op.callSetCurrency "EUR" 7] World.start).currency.getCurrentCurrency
        sampleCatalog ≠ sampleCatalog.fallbackCurrency := by
  have hw : (runAll sampleCatalog [Op.callSetCurrency "EUR" 7] World.start).currency =
      { currentCurrency := some "EUR", initialized := false } := rfl
  rw [hw]
  exact ⟨rfl, by decide, by decide⟩

/-! ## The shopping cart -/

theorem findItem_none_not_mem (productId : String) (cart : List CartItem)
    (h : findItem productId cart = none) : productId ∉ cart.map (fun item => item.id) := by
  induction cart with
  | nil => simp
  | cons item rest ih =>
    simp only [findItem, List.find?_cons] at h
    by_cases hid : (item.id == productId) = true
    · rw [hid] at h
      cases h
    · have hf : (item.id == productId) = false := by simpa using hid
      rw [hf] at h
      have hne : item.id ≠ productId := by simpa using hf
      simp only [List.map_cons, List.mem_cons, not_or]
      exact ⟨fun e => hne e.symm, ih h⟩

theorem total_setQuantity (productId : String) (q : ℤ) (cart : List CartItem)
    (found : CartItem) (h : findItem productId cart = some found) :
    totalQuantity (setQuantity productId q cart) = totalQuantity cart - found.quantity + q := by
  induction cart with
  | nil => simp [findItem] at h
  | cons item rest ih =>
    simp only [findItem, List.find?_cons] at h
    by_cases hid : (item.id == productId) = true
    · rw [hid] at h
      cases h
      simp only [setQuantity, hid, if_true, totalQuantity, List.map_cons, List.sum_cons]
      ring
    · have hf : (item.id == productId) = false := by simpa using hid
      rw [hf] at h
      have := ih h
      simp only [totalQuantity] at this
      simp only [setQuantity, hf, totalQuantity, List.map_cons, List.sum_cons, this]
      simp only [Bool.false_eq_true, if_false, List.map_cons, List.sum_cons, this]
      ring

theorem total_spliceItem (productId : String) (cart : List CartItem)
    (found : CartItem) (h : findItem productId cart = some found) :
    totalQuantity (spliceItem productId cart) = totalQuantity cart - found.quantity := by
  induction cart with
  | nil => simp [findItem] at h
  | cons item rest ih =>
    simp only [findItem, List.find?_cons] at h
    by_cases hid : (item.id == productId) = true
    · rw [hid] at h
      cases h
      simp only [spliceItem, hid, if_true, totalQuantity, List.map_cons, List.sum_cons]
      ring
    · have hf : (item.id == productId) = false := by simpa using hid
      rw [hf] at h
      have := ih h
      simp only [totalQuantity] at this
      simp only [spliceItem, hf, Bool.false_eq_true, if_false, totalQuantity, List.map_cons,
        List.sum_cons, this]
      ring

theorem findItem_setQuantity (productId : String) (q : ℤ) (cart : List CartItem)
    (found : CartItem) (h : findItem productId cart = some found) :
    findItem productId (setQuantity productId q cart) = some { found with quantity := q } := by
  induction cart with
  | nil => simp [findItem] at h
  | cons item rest ih =>
    simp only [findItem, List.find?_cons] at h
    by_cases hid : (item.id == productId) = true
    · rw [hid] at h
      cases h
      simp [setQuantity, hid, findItem]
    · have hf : (item.id == productId) = false := by simpa using hid
      rw [hf] at h
      have := ih h
      simp only [findItem] at this
      simp [setQuantity, hf, findItem, this]

theorem spliceItem_setQuantity (productId : String) (q : ℤ) (cart : List CartItem) :
    spliceItem productId (setQuantity productId q cart) = spliceItem productId cart := by
  induction cart with
  | nil => rfl
  | cons item rest ih =>
    by_cases hid : (item.id == productId) = true
    · simp [setQuantity, spliceItem, hid]
    · have hf : (item.id == productId) = false := by simpa using hid
      simp [setQuantity, spliceItem, hf, ih]

theorem ids_setQuantity (productId : String) (q : ℤ) (cart : List CartItem) :
    (setQuantity productId q cart).map (fun item => item.id) =
      cart.map (fun item => item.id) := by
  induction cart with
  | nil => rfl
  | cons item rest ih =>
    by_cases hid : (item.id == productId) = true
    · simp [setQuantity, hid]
    · have hf : (item.id == productId) = false := by simpa using hid
      simp [setQuantity, hf, ih]

theorem spliceItem_sublist (productId : String) (cart : List CartItem) :
    (spliceItem productId cart).Sublist cart := by
  induction cart with
  | nil => exact List.Sublist.refl _
  | cons item rest ih =>
    by_cases hid : (item.id == productId) = true
    · simp only [spliceItem, hid, if_true]
      exact List.sublist_cons_self item rest
    · have hf : (item.id == productId) = false := by simpa using hid
      simp only [spliceItem, hf, Bool.false_eq_true, if_false]
      exact ih.cons₂ item

theorem mem_setQuantity (productId : String) (q : ℤ) (cart : List CartItem) (x : CartItem)
    (h : x ∈ setQuantity productId q cart) : x ∈ cart ∨ x.quantity = q := by
  induction cart with
  | nil => simp [setQuantity] at h
  | cons item rest ih =>
    by_cases hid : (item.id == productId) = true
    · simp only [setQuantity, hid, if_true, List.mem_cons] at h
      rcases h with rfl | h
      · exact Or.inr rfl
      · exact Or.inl (by simp [h])
    · have hf : (item.id == productId) = false := by simpa using hid
      simp only [setQuantity, hf, Bool.false_eq_true, if_false, List.mem_cons] at h
      rcases h with rfl | h
      · exact Or.inl (by simp)
      · rcases ih h with h | h
        · exact Or.inl (by simp [h])
        · exact Or.inr h

theorem findItem_mem (productId : String) (cart : List CartItem) (found : CartItem)
    (h : findItem productId cart = some found) : found ∈ cart :=
  List.mem_of_find?_eq_some h

theorem addToCart_invariant (product : Product) (s : CartState) (h : CartInvariant s) :
    CartInvariant (addToCart product s) := by
  obtain ⟨hcount, hpos, hnodup⟩ := h
  unfold addToCart
  cases hf : findItem product.id s.cart with
  | some existingItem =>
    refine ⟨?_, ?_, ?_⟩
    · simp only
      rw [total_setQuantity _ _ _ _ hf, hcount]
      ring
    · intro x hx
      rcases mem_setQuantity _ _ _ _ hx with hx | hx
      · exact hpos x hx
      · have := hpos existingItem (findItem_mem _ _ _ hf)
        omega
    · simp only
      rw [ids_setQuantity]
      exact hnodup
  | none =>
    refine ⟨?_, ?_, ?_⟩
    · simp only [totalQuantity, List.map_append, List.sum_append, List.map_cons, List.map_nil,
        List.sum_cons, List.sum_nil]
      simp only [totalQuantity] at hcount
      rw [hcount]
      ring
    · intro x hx
      simp only [List.mem_append, List.mem_singleton] at hx
      rcases hx with hx | rfl
      · exact hpos x hx
      · exact le_refl _
    · simp only [List.map_append, List.map_cons, List.map_nil]
      rw [List.nodup_append]
      refine ⟨hnodup, List.nodup_singleton _, ?_⟩
      intro a ha hb
      simp only [List.mem_singleton] at hb
      rw [hb] at ha
      exact findItem_none_not_mem _ _ hf ha

theorem removeFromCart_invariant (productId : String) (s : CartState) (h : CartInvariant s) :
    CartInvariant (removeFromCart productId s) := by
  obtain ⟨hcount, hpos, hnodup⟩ := h
  unfold removeFromCart
  cases hf : findItem productId s.cart with
  | none => exact ⟨hcount, hpos, hnodup⟩
  | some item =>
    refine ⟨?_, ?_, ?_⟩
    · simp only
      rw [total_spliceItem _ _ _ hf, hcount]
    · intro x hx
      exact hpos x ((spliceItem_sublist productId s.cart).subset hx)
    · exact hnodup.sublist ((spliceItem_sublist productId s.cart).map _)

theorem updateQuantity_invariant (productId : String) (newQuantity : ℤ) (s : CartState)
    (h : CartInvariant s) : CartInvariant (updateQuantity productId newQuantity s) := by
  have hrem := removeFromCart_invariant productId s h
  obtain ⟨hcount, hpos, hnodup⟩ := h
  unfold updateQuantity
  cases hf : findItem productId s.cart with
  | none => exact ⟨hcount, hpos, hnodup⟩
  | some item =>
    simp only
    by_cases hq : max 0 newQuantity = 0
    · rw [if_pos hq, hq]
      have hfind := findItem_setQuantity productId 0 s.cart item hf
      unfold removeFromCart
      simp only [hfind, spliceItem_setQuantity]
      refine ⟨?_, ?_, ?_⟩
      · simp only
        rw [total_spliceItem _ _ _ hf, hcount]
        ring
      · intro x hx
        exact hpos x ((spliceItem_sublist productId s.cart).subset hx)
      · exact hnodup.sublist ((spliceItem_sublist productId s.cart).map _)
    · rw [if_neg hq]
      have hge : 1 ≤ max 0 newQuantity := by
        have : 0 ≤ max 0 newQuantity := le_max_left 0 newQuantity
        omega
      refine ⟨?_, ?_, ?_⟩
      · simp only
        rw [total_setQuantity _ _ _ _ hf, hcount]
        ring
      · intro x hx
        rcases mem_setQuantity _ _ _ _ hx with hx | hx
        · exact hpos x hx
        · rw [hx]; exact hge
      · simp only
        rw [ids_setQuantity]
        exact hnodup

theorem run_invariant (op : CartOp) (s : CartState) (h : CartInvariant s) :
    CartInvariant (op.run s) := by
  cases op with
  | add product => exact addToCart_invariant product s h
  | remove productId => exact removeFromCart_invariant productId s h
  | update productId newQuantity => exact updateQuantity_invariant productId newQuantity s h

theorem foldl_invariant (ops : List CartOp) (s : CartState) (h : CartInvariant s) :
    CartInvariant (ops.foldl (fun s op => op.run s) s) := by
  induction ops generalizing s with
  | nil => exact h
  | cons op ops ih => exact ih _ (run_invariant op s h)

/-- A run of the cart: two roses and an amber are added, the roses are set to 5,
the amber is set to -2 (and so taken out), and an id that is not in the cart is
removed. -/
theorem runCart_sample :
    runCart [CartOp.add roseProduct, CartOp.add roseProduct, CartOp.add amberProduct,
        CartOp.update "rose-oud" 5, CartOp.update "amber-night" (-2),
        CartOp.remove "vetiver"] =
      { cart := [{ id := "rose-oud", name := "Rose Oud", price := 120, quantity := 5 }],
        cartCount := 5 } := by
  rfl

/-! ## Inherited members -/

theorem member_of_key (cat : CurrencyData) (code : String) (info : CurrencyInfo)
    (h : cat.get code = some info) : cat.member code = .entry info := by
  simp [CurrencyData.member, h]

theorem member_of_unknown (cat : CurrencyData) (code : String)
    (h : cat.get code = none) (hn : code ∉ objectPrototypeNames) :
    cat.member code = .undefined := by
  simp [CurrencyData.member, h, hn]

theorem member_of_inherited (cat : CurrencyData) (code : String)
    (h : cat.get code = none) (hn : code ∈ objectPrototypeNames) :
    cat.member code = .inherited := by
  simp [CurrencyData.member, h, hn]

/-- Off the inherited names the guard of `setCurrency` is the test for an own key. -/
theorem Js_setCurrency_eq (cat : CurrencyData) (now : ℤ) (code : String) (w : World)
    (h : cat.get code ≠ none ∨ code ∉ objectPrototypeNames) :
    Js.setCurrency cat now code w = CurrencyUtils.setCurrency cat now code w := by
  unfold Js.setCurrency CurrencyUtils.setCurrency
  cases hg : cat.get code with
  | some info => rw [member_of_key cat code info hg]
  | none =>
    rcases h with h | h
    · exact absurd hg h
    · rw [member_of_unknown cat code hg h]

/-- For a code that is neither a key of the catalog nor an inherited name,
`setCurrency` throws and leaves the state as it was. -/
theorem Js_setCurrency_unknown (cat : CurrencyData) (now : ℤ) (code : String) (w : World)
    (h : cat.get code = none) (hn : code ∉ objectPrototypeNames) :
    Js.setCurrency cat now code w =
      (.error ("Currency " ++ code ++ " is not supported"), w) := by
  simp [Js.setCurrency, member_of_unknown cat code h hn]

/-- C6 at the failing input.  `"constructor"` is not a key of the end-to-end catalog,
yet `setCurrency("constructor")` on a fresh page does not throw: it returns the
code, makes it the active currency, overwrites both cache copies with a manual
override and dispatches a notification. -/
theorem setCurrency_accepts_inherited_name :
    endToEndCatalog.get "constructor" = none ∧
    Js.setCurrency endToEndCatalog 7 "constructor" World.start =
      (.ok "constructor",
        { World.start with
          currency := { currentCurrency := some "constructor", initialized := false },
          cache := some (manualEntry "constructor" 7),
          storage := some (.entry (manualEntry "constructor" 7)),
          events := [{ currency := "constructor", locationData := none,
                       manual := some true }] }) :=
  ⟨rfl, rfl⟩

/-! ## Rounding to doubles -/

theorem roundHalfEven_of_near (x : ℚ) (n : ℤ) (h1 : (n : ℚ) - 1 / 2 < x)
    (h2 : x < (n : ℚ) + 1 / 2) : roundHalfEven x = n := by
  have hf : Rat.floor x = ⌊x⌋ := rfl
  unfold roundHalfEven
  rw [hf]
  have hle : (⌊x⌋ : ℚ) ≤ x := Int.floor_le x
  have hlt : x < (⌊x⌋ : ℚ) + 1 := Int.lt_floor_add_one x
  have hcases : ⌊x⌋ = n ∨ ⌊x⌋ = n - 1 := by
    have a1 : (⌊x⌋ : ℚ) < (n : ℚ) + 1 / 2 := lt_of_le_of_lt hle h2
    have a2 : (n : ℚ) - 1 / 2 - 1 < (⌊x⌋ : ℚ) := by linarith
    have b1 : ⌊x⌋ < n + 1 := by
      have : (⌊x⌋ : ℚ) < ((n + 1 : ℤ) : ℚ) := by push_cast; linarith
      exact_mod_cast this
    have b2 : n - 2 < ⌊x⌋ := by
      have : ((n - 2 : ℤ) : ℚ) < (⌊x⌋ : ℚ) := by push_cast; linarith
      exact_mod_cast this
    omega
  rcases hcases with h | h
  · have : x - (⌊x⌋ : ℚ) < 1 / 2 := by rw [h]; linarith
    rw [if_pos this, h]
  · have hq : (⌊x⌋ : ℚ) = (n : ℚ) - 1 := by rw [h]; push_cast; ring
    have h3 : ¬ (x - (⌊x⌋ : ℚ) < 1 / 2) := by rw [hq]; intro hh; linarith
    have h4 : 1 / 2 < x - (⌊x⌋ : ℚ) := by rw [hq]; linarith
    rw [if_neg h3, if_pos h4, h]
    ring

theorem toDouble_of_pos (x : ℚ) (e m : ℤ) (hx : 0 < x) (h1 : (2 : ℚ) ^ e ≤ x)
    (h2 : x < (2 : ℚ) ^ (e + 1))
    (hm : (m : ℚ) - 1 / 2 < x * (2 : ℚ) ^ (52 - e) ∧ x * (2 : ℚ) ^ (52 - e) < (m : ℚ) + 1 / 2) :
    toDouble x = (m : ℚ) * (2 : ℚ) ^ (e - 52) := by
  have habs : |x| = x := abs_of_pos hx
  have hlog : Int.log 2 x = e := by
    have ha : e ≤ Int.log 2 x := (Int.zpow_le_iff_le_log (by norm_num) hx).mp (by exact_mod_cast h1)
    have hb : Int.log 2 x < e + 1 :=
      (Int.lt_zpow_iff_log_lt (by norm_num) hx).mp (by exact_mod_cast h2)
    omega
  unfold toDouble
  rw [if_neg (ne_of_gt hx), if_neg (not_lt.mpr hx.le), habs, hlog,
    roundHalfEven_of_near _ m hm.1 hm.2]
  ring

theorem toDouble_three_fiftieths :
    toDouble (3 / 50) = 1080863910568919 / 18014398509481984 := by
  rw [toDouble_of_pos (3 / 50) (-5) 8646911284551352 (by norm_num) (by norm_num) (by norm_num)
    (by constructor <;> norm_num)]
  norm_num

theorem toDouble_five_quarters : toDouble (5 / 4) = 5 / 4 := by
  rw [toDouble_of_pos (5 / 4) 0 5629499534213120 (by norm_num) (by norm_num) (by norm_num)
    (by constructor <;> norm_num)]
  norm_num

theorem toDouble_hundred : toDouble 100 = 100 := by
  rw [toDouble_of_pos 100 6 7036874417766400 (by norm_num) (by norm_num) (by norm_num)
    (by constructor <;> norm_num)]
  norm_num

theorem toDouble_product_quarter :
    toDouble (1080863910568919 / 18014398509481984 * (5 / 4)) =
      5404319552844595 / 72057594037927936 := by
  rw [toDouble_of_pos _ (-4) 5404319552844595 (by norm_num) (by norm_num) (by norm_num)
    (by constructor <;> norm_num)]
  norm_num

theorem toDouble_scaled_quarter :
    toDouble (5404319552844595 / 72057594037927936 * 100) = 15 / 2 := by
  rw [toDouble_of_pos _ 2 8444249301319680 (by norm_num) (by norm_num) (by norm_num)
    (by constructor <;> norm_num)]
  norm_num

theorem toDouble_eight_cents :
    toDouble (8 / 100) = 5764607523034235 / 72057594037927936 := by
  rw [toDouble_of_pos _ (-4) 5764607523034235 (by norm_num) (by norm_num) (by norm_num)
    (by constructor <;> norm_num)]
  norm_num

theorem toDouble_seven_cents :
    toDouble (7 / 100) = 5044031582654956 / 72057594037927936 := by
  rw [toDouble_of_pos _ (-4) 5044031582654956 (by norm_num) (by norm_num) (by norm_num)
    (by constructor <;> norm_num)]
  norm_num

theorem mathRound_seven_and_half : mathRound (15 / 2) = 8 := by
  rw [mathRound_eq, Int.floor_eq_iff]
  norm_num

theorem quarter_get_CAD :
    quarterCatalog.get "CAD" =
      some { symbol := "C$", name := some "Canadian Dollar", rate := 5 / 4,
             countries := some ["CA"] } := rfl

/-- In double arithmetic `convertPrice(0.06, "CAD")` at the rate 1.25 is the double
nearest to 0.08. -/
theorem convertPrice_six_cents :
    Js.convertPrice doubleArith quarterCatalog CurrencyUtils.new (doubleArith.ofRat (3 / 50))
      (some "CAD") = some (5764607523034235 / 72057594037927936) := by
  have hc : CurrencyUtils.new.currencyOf quarterCatalog (some "CAD") = "CAD" :=
    currencyOf_explicit _ _ _ (by decide)
  simp only [Js.convertPrice, hc, member_of_key _ _ _ quarter_get_CAD, doubleArith,
    toDouble_three_fiftieths, toDouble_five_quarters, toDouble_hundred,
    toDouble_product_quarter, toDouble_scaled_quarter, mathRound_seven_and_half]
  have h100 : (100 : ℚ) ≠ 0 := by norm_num
  rw [if_neg h100]
  have : ((8 : ℤ) : ℚ) / 100 = 8 / 100 := by norm_num
  rw [this, toDouble_eight_cents]

theorem toDouble_115 : toDouble (23 / 20) = 2589569785738035 / 2251799813685248 := by
  rw [toDouble_of_pos _ 0 5179139571476070 (by norm_num) (by norm_num) (by norm_num)
    (by constructor <;> norm_num)]
  norm_num

theorem toDouble_nine_tenths : toDouble (9 / 10) = 8106479329266893 / 9007199254740992 := by
  rw [toDouble_of_pos _ (-1) 8106479329266893 (by norm_num) (by norm_num) (by norm_num)
    (by constructor <;> norm_num)]
  norm_num

theorem toDouble_product_115 :
    toDouble (2589569785738035 / 2251799813685248 * (8106479329266893 / 9007199254740992)) =
      4661225614328463 / 4503599627370496 := by
  rw [toDouble_of_pos _ 0 4661225614328463 (by norm_num) (by norm_num) (by norm_num)
    (by constructor <;> norm_num)]
  norm_num

theorem toDouble_scaled_115 :
    toDouble (4661225614328463 / 4503599627370496 * 100) =
      7283165022388223 / 70368744177664 := by
  rw [toDouble_of_pos _ 6 7283165022388223 (by norm_num) (by norm_num) (by norm_num)
    (by constructor <;> norm_num)]
  norm_num

theorem toDouble_103_cents :
    toDouble (103 / 100) = 4638707616191611 / 4503599627370496 := by
  rw [toDouble_of_pos _ 0 4638707616191611 (by norm_num) (by norm_num) (by norm_num)
    (by constructor <;> norm_num)]
  norm_num

theorem mathRound_scaled_115 : mathRound (7283165022388223 / 70368744177664) = 103 := by
  rw [mathRound_eq, Int.floor_eq_iff]
  norm_num

/-- In double arithmetic `convertPrice(1.15, "EUR")` at the rate 0.9 is the double
nearest to 1.03. -/
theorem convertPrice_115 :
    Js.convertPrice doubleArith endToEndCatalog CurrencyUtils.new (doubleArith.ofRat (23 / 20))
      (some "EUR") = some (toDouble (103 / 100)) := by
  have hc : CurrencyUtils.new.currencyOf endToEndCatalog (some "EUR") = "EUR" :=
    currencyOf_explicit _ _ _ (by decide)
  simp only [Js.convertPrice, hc, member_of_key _ _ _ endToEnd_get_EUR, doubleArith,
    toDouble_115, toDouble_nine_tenths, toDouble_hundred, toDouble_product_115,
    toDouble_scaled_115, mathRound_scaled_115]
  have h100 : (100 : ℚ) ≠ 0 := by norm_num
  rw [if_neg h100]
  have : ((103 : ℤ) : ℚ) / 100 = 103 / 100 := by norm_num
  rw [this]

/-- For an inherited name the result is `NaN`, in every arithmetic. -/
theorem convertPrice_inherited {N : Type} (A : Arith N) (cat : CurrencyData)
    (self : CurrencyUtils) (p : N) (target : Option String)
    (h : cat.member (self.currencyOf cat target) = .inherited) :
    Js.convertPrice A cat self p target = A.nan := by
  simp only [Js.convertPrice, h, A.mul_nan, A.nan_mul, A.round_nan, A.nan_div]

theorem endToEnd_member_toString : endToEndCatalog.member "toString" = .inherited := by
  rfl

/-- C1 as stated fails.  In double arithmetic `convertPrice(0.06, "CAD")` at the rate
1.25 is the double nearest to 0.08, while `p * rate` rounded to 2 places, for the
number `p` that the numeral 0.06 denotes, is 0.07; `convertPrice(1.15, "EUR")` at the
rate 0.9 is the double nearest to 1.03, while 1.15 * 0.9 rounded to 2 places is 1.04;
and `"toString"` is not a key of the catalog, yet `convertPrice(10, "toString")` is
`NaN`, not 10. -/
theorem convertPrice_differs_from_stated_rounding :
    (Js.convertPrice doubleArith quarterCatalog CurrencyUtils.new (doubleArith.ofRat (3 / 50))
        (some "CAD") = some (toDouble (8 / 100)) ∧
      statedConvertPrice quarterCatalog "CAD" (toDouble (3 / 50)) = 7 / 100 ∧
      toDouble (8 / 100) ≠ 7 / 100 ∧ toDouble (8 / 100) ≠ toDouble (7 / 100)) ∧
    (Js.convertPrice doubleArith endToEndCatalog CurrencyUtils.new (doubleArith.ofRat (23 / 20))
        (some "EUR") = some (toDouble (103 / 100)) ∧
      statedConvertPrice endToEndCatalog "EUR" (23 / 20) = 104 / 100) ∧
    (endToEndCatalog.get "toString" = none ∧
      Js.convertPrice doubleArith endToEndCatalog CurrencyUtils.new (doubleArith.ofRat 10)
        (some "toString") = doubleArith.nan ∧
      doubleArith.nan ≠ doubleArith.ofRat 10) := by
  refine ⟨⟨?_, ?_, ?_, ?_⟩, ⟨convertPrice_115, ?_⟩, ⟨rfl, ?_, ?_⟩⟩
  · rw [convertPrice_six_cents, toDouble_eight_cents]
  · simp only [statedConvertPrice, quarter_get_CAD, toDouble_three_fiftieths]
    have : ⌊(1080863910568919 / 18014398509481984 : ℚ) * (5 / 4) * 100 + 1 / 2⌋ = 7 := by
      rw [Int.floor_eq_iff]
      norm_num
    rw [this]
    norm_num
  · rw [toDouble_eight_cents]
    norm_num
  · rw [toDouble_eight_cents, toDouble_seven_cents]
    norm_num
  · simp only [statedConvertPrice, endToEnd_get_EUR]
    have : ⌊(23 / 20 : ℚ) * (9 / 10) * 100 + 1 / 2⌋ = 104 := by
      rw [Int.floor_eq_iff]
      norm_num
    rw [this]
    norm_num
  · exact convertPrice_inherited doubleArith endToEndCatalog CurrencyUtils.new _ _
      (by rw [currencyOf_explicit _ _ _ (by decide)]; exact endToEnd_member_toString)
  · intro h
    cases h

theorem exactArith_convert (q r : ℚ) :
    exactArith.div (exactArith.round (exactArith.mul (exactArith.mul (some q) (exactArith.ofRat r))
        (exactArith.ofRat 100))) (exactArith.ofRat 100) =
      some ((⌊q * r * 100 + 1 / 2⌋ : ℚ) / 100) := by
  have h100 : (100 : ℚ) ≠ 0 := by norm_num
  simp only [exactArith, mathRound_eq, if_neg h100]

/-- C1, as the code behaves.  `convertPrice(p, target)` looks up the code `C` obtained
from the target, the active currency and the catalog fallback, in that order of
preference (a missing or empty value is passed over).  If `C` is a key of the catalog
the result is `Math.round((p * rate(C)) * 100) / 100` as the arithmetic of numbers
evaluates it, whatever that arithmetic is; over exact arithmetic this is
`⌊p * rate(C) * 100 + 1/2⌋ / 100`.  If `C` is neither a key of the catalog nor the
name of a member inherited from `Object.prototype`, the result is `p` unchanged.  In
particular an explicit non-empty key `C` gives
`convertPrice(100, C) = Math.round((100 * rate(C)) * 100) / 100`. -/
theorem convertPrice_in_number_arithmetic {N : Type} (A : Arith N) (cat : CurrencyData)
    (self : CurrencyUtils) (p : N) (target : Option String) :
    self.currencyOf cat target =
        (if truthy target then target.getD ""
         else if truthy self.currentCurrency then self.currentCurrency.getD ""
         else cat.fallbackCurrency) ∧
    (∀ info, cat.get (self.currencyOf cat target) = some info →
      Js.convertPrice A cat self p target =
        A.div (A.round (A.mul (A.mul p (A.ofRat info.rate)) (A.ofRat 100))) (A.ofRat 100)) ∧
    (∀ (info : CurrencyInfo) (q : ℚ), cat.get (self.currencyOf cat target) = some info →
      Js.convertPrice exactArith cat self (some q) target =
        some ((⌊q * info.rate * 100 + 1 / 2⌋ : ℚ) / 100)) ∧
    (cat.get (self.currencyOf cat target) = none →
      self.currencyOf cat target ∉ objectPrototypeNames →
      Js.convertPrice A cat self p target = p) ∧
    (∀ (C : String) (info : CurrencyInfo), C ≠ "" → cat.get C = some info →
      Js.convertPrice A cat self (A.ofRat 100) (some C) =
        A.div (A.round (A.mul (A.mul (A.ofRat 100) (A.ofRat info.rate)) (A.ofRat 100)))
          (A.ofRat 100)) := by
  refine ⟨currencyOf_eq cat self target, ?_, ?_, ?_, ?_⟩
  · intro info h
    simp only [Js.convertPrice, member_of_key cat _ info h]
  · intro info q h
    simp only [Js.convertPrice, member_of_key cat _ info h]
    exact exactArith_convert q info.rate
  · intro h hn
    simp only [Js.convertPrice, member_of_unknown cat _ h hn]
  · intro C info hC h
    simp only [Js.convertPrice, currencyOf_explicit cat self C hC, member_of_key cat C info h]

/-- Witness of C1: with the end-to-end catalog, `convertPrice(100, "EUR")` over exact
arithmetic, and `convertPrice(10, "XYZ")`. -/
theorem convertPrice_in_number_arithmetic_witness :
    (endToEndCatalog.get (CurrencyUtils.new.currencyOf endToEndCatalog (some "EUR")) =
        some { symbol := "€", name := none, rate := 9 / 10, countries := none } ∧
      endToEndCatalog.get (CurrencyUtils.new.currencyOf endToEndCatalog (some "XYZ")) = none ∧
      CurrencyUtils.new.currencyOf endToEndCatalog (some "XYZ") ∉ objectPrototypeNames) ∧
    Js.convertPrice exactArith endToEndCatalog CurrencyUtils.new (some 100) (some "EUR") =
      some ((⌊(100 : ℚ) * (9 / 10) * 100 + 1 / 2⌋ : ℚ) / 100) ∧
    Js.convertPrice exactArith endToEndCatalog CurrencyUtils.new (some 10) (some "XYZ") =
      some 10 ∧
    Js.convertPrice doubleArith endToEndCatalog CurrencyUtils.new (doubleArith.ofRat 100)
        (some "EUR") =
      doubleArith.div (doubleArith.round (doubleArith.mul
        (doubleArith.mul (doubleArith.ofRat 100) (doubleArith.ofRat (9 / 10)))
        (doubleArith.ofRat 100))) (doubleArith.ofRat 100) :=
  ⟨⟨rfl, rfl, by decide⟩,
   (convertPrice_in_number_arithmetic exactArith endToEndCatalog CurrencyUtils.new (some 100)
      (some "EUR")).2.2.1 _ 100 rfl,
   (convertPrice_in_number_arithmetic exactArith endToEndCatalog CurrencyUtils.new (some 10)
      (some "XYZ")).2.2.2.1 rfl (by decide),
   (convertPrice_in_number_arithmetic doubleArith endToEndCatalog CurrencyUtils.new
      (doubleArith.ofRat 100) (some "EUR")).2.2.2.2 "EUR"
      { symbol := "€", name := none, rate := 9 / 10, countries := none } (by decide)
      endToEnd_get_EUR⟩

/-! ## The shopping cart in double arithmetic -/

theorem toDoubleInt_of_small (n : ℤ) (h : n.natAbs < 2 ^ 53) : toDoubleInt n = n := by
  have hk : Nat.log 2 n.natAbs - 52 = 0 := by
    by_cases h0 : n.natAbs = 0
    · rw [h0]; simp
    · have := Nat.log_lt_of_lt_pow h0 h
      omega
  simp only [toDoubleInt, hk, pow_zero, Nat.div_one, Nat.mod_one, mul_zero, zero_lt_one,
    if_true, mul_one]
  split <;> omega

theorem toDoubleInt_of_bounds (n : ℤ) (h1 : -9007199254740992 < n)
    (h2 : n < 9007199254740992) : toDoubleInt n = n :=
  toDoubleInt_of_small n (by norm_num; omega)

theorem one_le_toDoubleInt (n : ℤ) (h : 1 ≤ n) : 1 ≤ toDoubleInt n := by
  have hn : ¬ n < 0 := by omega
  have h0 : n.natAbs ≠ 0 := by omega
  have hle : 2 ^ (Nat.log 2 n.natAbs - 52) ≤ n.natAbs :=
    le_trans (Nat.pow_le_pow_right (by norm_num) (Nat.sub_le _ _)) (Nat.pow_log_le_self 2 h0)
  have hq : 1 ≤ n.natAbs / 2 ^ (Nat.log 2 n.natAbs - 52) :=
    (Nat.one_le_div_iff (by positivity)).2 hle
  have hp : 1 ≤ 2 ^ (Nat.log 2 n.natAbs - 52) := Nat.one_le_two_pow
  simp only [toDoubleInt, if_neg hn]
  have key : ∀ m : ℕ, 1 ≤ m → (1 : ℤ) ≤ ((m * 2 ^ (Nat.log 2 n.natAbs - 52) : ℕ) : ℤ) := by
    intro m hm
    have : 1 ≤ m * 2 ^ (Nat.log 2 n.natAbs - 52) := Nat.mul_pos hm hp
    exact_mod_cast this
  split
  · exact key _ hq
  · split
    · exact key _ (by omega)
    · split
      · exact key _ hq
      · exact key _ (by omega)

theorem log_two_pow_53_succ : Nat.log 2 9007199254740993 = 53 := by
  rw [Nat.log_eq_iff (Or.inl (by norm_num))]
  norm_num

/-- The integer 2^53 + 1 is not a double: it lies halfway between 2^53 and 2^53 + 2
and is rounded to 2^53. -/
theorem toDoubleInt_two_pow_53_succ : toDoubleInt 9007199254740993 = 9007199254740992 := by
  have h : (9007199254740993 : ℤ).natAbs = 9007199254740993 := rfl
  simp only [toDoubleInt, h, log_two_pow_53_succ]
  norm_num

theorem total_nonneg (cart : List CartItem) (hpos : ∀ item ∈ cart, 0 ≤ item.quantity) :
    0 ≤ totalQuantity cart := by
  induction cart with
  | nil => simp [totalQuantity]
  | cons item rest ih =>
    have h1 := hpos item (by simp)
    have h2 := ih (fun x hx => hpos x (by simp [hx]))
    simp only [totalQuantity, List.map_cons, List.sum_cons] at h2 ⊢
    omega

theorem quantity_le_total (cart : List CartItem) (hpos : ∀ item ∈ cart, 0 ≤ item.quantity)
    (x : CartItem) (hx : x ∈ cart) : x.quantity ≤ totalQuantity cart := by
  induction cart with
  | nil => simp at hx
  | cons item rest ih =>
    have h1 := hpos item (by simp)
    have h2 := total_nonneg rest (fun y hy => hpos y (by simp [hy]))
    simp only [List.mem_cons] at hx
    simp only [totalQuantity, List.map_cons, List.sum_cons] at h2 ⊢
    rcases hx with rfl | hx
    · omega
    · have := ih (fun y hy => hpos y (by simp [hy])) hx
      simp only [totalQuantity] at this
      omega

theorem Js_removeFromCart_eq (productId : String) (s : CartState)
    (hcount : s.cartCount = totalQuantity s.cart) (hpos : ∀ item ∈ s.cart, 0 ≤ item.quantity)
    (hb : s.cartCount < 9007199254740992) :
    Js.removeFromCart productId s = removeFromCart productId s := by
  unfold Js.removeFromCart removeFromCart
  cases hf : findItem productId s.cart with
  | none => rfl
  | some item =>
    have h1 := hpos item (findItem_mem _ _ _ hf)
    have h2 := quantity_le_total s.cart hpos item (findItem_mem _ _ _ hf)
    simp only
    rw [toDoubleInt_of_bounds _ (by omega) (by omega)]

theorem Js_addToCart_eq (product : Product) (s : CartState) (h : CartInvariant s)
    (hb : s.cartCount + 1 < 9007199254740992) :
    Js.addToCart product s = addToCart product s := by
  obtain ⟨hcount, hpos, _⟩ := h
  have hpos0 : ∀ item ∈ s.cart, 0 ≤ item.quantity := fun x hx => by
    have := hpos x hx
    omega
  have h0 := total_nonneg s.cart hpos0
  unfold Js.addToCart addToCart
  rw [toDoubleInt_of_bounds (s.cartCount + 1) (by omega) (by omega)]
  cases hf : findItem product.id s.cart with
  | none => rfl
  | some existingItem =>
    have h1 := hpos0 existingItem (findItem_mem _ _ _ hf)
    have h2 := quantity_le_total s.cart hpos0 existingItem (findItem_mem _ _ _ hf)
    simp only
    rw [toDoubleInt_of_bounds _ (by omega) (by omega)]

theorem Js_updateQuantity_eq (productId : String) (newQuantity : ℤ) (s : CartState)
    (h : CartInvariant s) (hb : s.cartCount + max 0 newQuantity < 9007199254740992) :
    Js.updateQuantity productId newQuantity s = updateQuantity productId newQuantity s := by
  obtain ⟨hcount, hpos, _⟩ := h
  have hpos0 : ∀ item ∈ s.cart, 0 ≤ item.quantity := fun x hx => by
    have := hpos x hx
    omega
  have h0 := total_nonneg s.cart hpos0
  have hq : 0 ≤ max 0 newQuantity := le_max_left 0 newQuantity
  unfold Js.updateQuantity updateQuantity
  cases hf : findItem productId s.cart with
  | none => rfl
  | some item =>
    have h1 := hpos item (findItem_mem _ _ _ hf)
    have h2 := quantity_le_total s.cart hpos0 item (findItem_mem _ _ _ hf)
    simp only
    rw [toDoubleInt_of_bounds (max 0 newQuantity - item.quantity) (by omega) (by omega),
      toDoubleInt_of_bounds _ (by omega) (by omega)]
    by_cases hz : max 0 newQuantity = 0
    · rw [if_pos hz, if_pos hz]
      apply Js_removeFromCart_eq
      · simp only
        rw [total_setQuantity _ _ _ _ hf, hcount]
        ring
      · intro x hx
        rcases mem_setQuantity _ _ _ _ hx with hx | hx
        · exact hpos0 x hx
        · omega
      · simp only
        omega
    · rw [if_neg hz, if_neg hz]

theorem weight_nonneg (op : CartOp) : 0 ≤ op.weight := by
  cases op with
  | add product => simp [CartOp.weight]
  | remove productId => simp [CartOp.weight]
  | update productId newQuantity => exact le_max_left 0 newQuantity

theorem cartWeight_nonneg (ops : List CartOp) : 0 ≤ cartWeight ops := by
  induction ops with
  | nil => simp [cartWeight]
  | cons op ops ih =>
    have := weight_nonneg op
    simp only [cartWeight, List.map_cons, List.sum_cons] at ih ⊢
    omega

theorem Js_runOp_eq (op : CartOp) (s : CartState) (h : CartInvariant s)
    (hb : s.cartCount + op.weight < 9007199254740992) : Js.runOp op s = op.run s := by
  cases op with
  | add product => exact Js_addToCart_eq product s h hb
  | remove productId =>
    obtain ⟨hcount, hpos, _⟩ := h
    refine Js_removeFromCart_eq productId s hcount (fun x hx => ?_) ?_
    · have := hpos x hx
      omega
    · simpa [CartOp.weight] using hb
  | update productId newQuantity => exact Js_updateQuantity_eq productId newQuantity s h hb

theorem run_count_le (op : CartOp) (s : CartState) (h : CartInvariant s) :
    (op.run s).cartCount ≤ s.cartCount + op.weight := by
  obtain ⟨hcount, hpos, _⟩ := h
  cases op with
  | add product => simp [CartOp.run, addToCart, CartOp.weight]
  | remove productId =>
    simp only [CartOp.run, removeFromCart, CartOp.weight]
    cases hf : findItem productId s.cart with
    | none => simp
    | some item =>
      have := hpos item (findItem_mem _ _ _ hf)
      simp only
      omega
  | update productId newQuantity =>
    have hq : 0 ≤ max 0 newQuantity := le_max_left 0 newQuantity
    simp only [CartOp.run, updateQuantity, CartOp.weight]
    cases hf : findItem productId s.cart with
    | none =>
      simp only
      omega
    | some item =>
      have := hpos item (findItem_mem _ _ _ hf)
      simp only
      by_cases hz : max 0 newQuantity = 0
      · rw [if_pos hz, hz]
        have hfind := findItem_setQuantity productId 0 s.cart item hf
        simp only [removeFromCart, hfind]
        omega
      · rw [if_neg hz]
        simp only
        omega

/-- As long as the cart counter and the units still to be added stay below 2^53, the
run in double arithmetic is the run over the integers. -/
theorem Js_foldl_eq (ops : List CartOp) (s : CartState) (h : CartInvariant s)
    (hb : s.cartCount + cartWeight ops < 9007199254740992) :
    ops.foldl (fun s op => Js.runOp op s) s = ops.foldl (fun s op => op.run s) s := by
  induction ops generalizing s with
  | nil => rfl
  | cons op ops ih =>
    have hw := cartWeight_nonneg ops
    have hop := weight_nonneg op
    simp only [cartWeight, List.map_cons, List.sum_cons] at hb hw
    have hstep : Js.runOp op s = op.run s := Js_runOp_eq op s h (by omega)
    simp only [List.foldl_cons, hstep]
    apply ih _ (run_invariant op s h)
    have := run_count_le op s h
    simp only [cartWeight]
    omega

theorem Js_runCart_eq (ops : List CartOp) (hb : cartWeight ops < 9007199254740992) :
    Js.runCart ops = runCart ops :=
  Js_foldl_eq ops CartState.start ⟨rfl, by simp [CartState.start], by simp [CartState.start]⟩
    (by simpa [CartState.start] using hb)

theorem Js_addToCart_shape (product : Product) (s : CartState)
    (hpos : ∀ item ∈ s.cart, 1 ≤ item.quantity)
    (hnodup : (s.cart.map (fun item => item.id)).Nodup) :
    (∀ item ∈ (Js.addToCart product s).cart, 1 ≤ item.quantity) ∧
    ((Js.addToCart product s).cart.map (fun item => item.id)).Nodup := by
  unfold Js.addToCart
  cases hf : findItem product.id s.cart with
  | some existingItem =>
    refine ⟨?_, ?_⟩
    · intro x hx
      rcases mem_setQuantity _ _ _ _ hx with hx | hx
      · exact hpos x hx
      · have := hpos existingItem (findItem_mem _ _ _ hf)
        rw [hx]
        exact one_le_toDoubleInt _ (by omega)
    · simp only
      rw [ids_setQuantity]
      exact hnodup
  | none =>
    refine ⟨?_, ?_⟩
    · intro x hx
      simp only [List.mem_append, List.mem_singleton] at hx
      rcases hx with hx | rfl
      · exact hpos x hx
      · exact le_refl _
    · simp only [List.map_append, List.map_cons, List.map_nil]
      rw [List.nodup_append]
      refine ⟨hnodup, List.nodup_singleton _, ?_⟩
      intro a ha hb
      simp only [List.mem_singleton] at hb
      rw [hb] at ha
      exact findItem_none_not_mem _ _ hf ha

theorem Js_removeFromCart_shape (productId : String) (s : CartState)
    (hpos : ∀ item ∈ s.cart, 1 ≤ item.quantity)
    (hnodup : (s.cart.map (fun item => item.id)).Nodup) :
    (∀ item ∈ (Js.removeFromCart productId s).cart, 1 ≤ item.quantity) ∧
    ((Js.removeFromCart productId s).cart.map (fun item => item.id)).Nodup := by
  unfold Js.removeFromCart
  cases hf : findItem productId s.cart with
  | none => exact ⟨hpos, hnodup⟩
  | some item =>
    refine ⟨?_, ?_⟩
    · intro x hx
      exact hpos x ((spliceItem_sublist productId s.cart).subset hx)
    · exact hnodup.sublist ((spliceItem_sublist productId s.cart).map _)

theorem Js_updateQuantity_shape (productId : String) (newQuantity : ℤ) (s : CartState)
    (hpos : ∀ item ∈ s.cart, 1 ≤ item.quantity)
    (hnodup : (s.cart.map (fun item => item.id)).Nodup) :
    (∀ item ∈ (Js.updateQuantity productId newQuantity s).cart, 1 ≤ item.quantity) ∧
    ((Js.updateQuantity productId newQuantity s).cart.map (fun item => item.id)).Nodup := by
  unfold Js.updateQuantity
  cases hf : findItem productId s.cart with
  | none => exact ⟨hpos, hnodup⟩
  | some item =>
    simp only
    by_cases hq : max 0 newQuantity = 0
    · rw [if_pos hq, hq]
      have hfind := findItem_setQuantity productId 0 s.cart item hf
      unfold Js.removeFromCart
      simp only [hfind, spliceItem_setQuantity]
      refine ⟨?_, ?_⟩
      · intro x hx
        exact hpos x ((spliceItem_sublist productId s.cart).subset hx)
      · exact hnodup.sublist ((spliceItem_sublist productId s.cart).map _)
    · rw [if_neg hq]
      have hge : 1 ≤ max 0 newQuantity := by
        have : 0 ≤ max 0 newQuantity := le_max_left 0 newQuantity
        omega
      refine ⟨?_, ?_⟩
      · intro x hx
        rcases mem_setQuantity _ _ _ _ hx with hx | hx
        · exact hpos x hx
        · rw [hx]; exact hge
      · simp only
        rw [ids_setQuantity]
        exact hnodup

theorem Js_runOp_shape (op : CartOp) (s : CartState)
    (hpos : ∀ item ∈ s.cart, 1 ≤ item.quantity)
    (hnodup : (s.cart.map (fun item => item.id)).Nodup) :
    (∀ item ∈ (Js.runOp op s).cart, 1 ≤ item.quantity) ∧
    ((Js.runOp op s).cart.map (fun item => item.id)).Nodup := by
  cases op with
  | add product => exact Js_addToCart_shape product s hpos hnodup
  | remove productId => exact Js_removeFromCart_shape productId s hpos hnodup
  | update productId newQuantity =>
    exact Js_updateQuantity_shape productId newQuantity s hpos hnodup

theorem Js_foldl_shape (ops : List CartOp) (s : CartState)
    (hpos : ∀ item ∈ s.cart, 1 ≤ item.quantity)
    (hnodup : (s.cart.map (fun item => item.id)).Nodup) :
    (∀ item ∈ (ops.foldl (fun s op => Js.runOp op s) s).cart, 1 ≤ item.quantity) ∧
    ((ops.foldl (fun s op => Js.runOp op s) s).cart.map (fun item => item.id)).Nodup := by
  induction ops generalizing s with
  | nil => exact ⟨hpos, hnodup⟩
  | cons op ops ih =>
    obtain ⟨h1, h2⟩ := Js_runOp_shape op s hpos hnodup
    exact ih _ h1 h2

theorem toDoubleInt_zero : toDoubleInt 0 = 0 :=
  toDoubleInt_of_bounds 0 (by norm_num) (by norm_num)

theorem toDoubleInt_one : toDoubleInt 1 = 1 :=
  toDoubleInt_of_bounds 1 (by norm_num) (by norm_num)

theorem toDoubleInt_two : toDoubleInt 2 = 2 :=
  toDoubleInt_of_bounds 2 (by norm_num) (by norm_num)

theorem toDoubleInt_two_pow_53 : toDoubleInt 9007199254740992 = 9007199254740992 := by
  have h : (9007199254740992 : ℤ).natAbs = 9007199254740992 := rfl
  have hl : Nat.log 2 9007199254740992 = 53 := by
    rw [Nat.log_eq_iff (Or.inl (by norm_num))]
    norm_num
  simp only [toDoubleInt, h, hl]
  norm_num

theorem toDoubleInt_two_pow_53_pred : toDoubleInt 9007199254740991 = 9007199254740991 :=
  toDoubleInt_of_bounds _ (by norm_num) (by norm_num)

/-- The cart after a rose and an amber are added. -/
theorem Js_runCart_two_adds :
    Js.runCart [CartOp.add roseProduct, CartOp.add amberProduct] =
      { cart := [{ id := "rose-oud", name := "Rose Oud", price := 120, quantity := 1 },
                 { id := "amber-night", name := "Amber Night", price := 95, quantity := 1 }],
        cartCount := 2 } := by
  rw [Js_runCart_eq _ (by decide)]
  rfl

/-- With two items in the cart, `updateQuantity("rose-oud", 2^53)` leaves the counter
at 2^53, one less than the sum of the quantities. -/
theorem Js_updateQuantity_two_pow_53 :
    Js.updateQuantity "rose-oud" 9007199254740992
        { cart := [{ id := "rose-oud", name := "Rose Oud", price := 120, quantity := 1 },
                   { id := "amber-night", name := "Amber Night", price := 95, quantity := 1 }],
          cartCount := 2 } =
      { cart := [{ id := "rose-oud", name := "Rose Oud", price := 120,
                   quantity := 9007199254740992 },
                 { id := "amber-night", name := "Amber Night", price := 95, quantity := 1 }],
        cartCount := 9007199254740992 } := by
  have hf : findItem "rose-oud"
      [{ id := "rose-oud", name := "Rose Oud", price := 120, quantity := 1 },
       { id := "amber-night", name := "Amber Night", price := 95, quantity := 1 }] =
      some { id := "rose-oud", name := "Rose Oud", price := 120, quantity := 1 } := rfl
  have hm : max (0 : ℤ) 9007199254740992 = 9007199254740992 := by norm_num
  have hd : (9007199254740992 : ℤ) - 1 = 9007199254740991 := by norm_num
  have hs : (2 : ℤ) + 9007199254740991 = 9007199254740993 := by norm_num
  have hz : ¬ (9007199254740992 : ℤ) = 0 := by norm_num
  simp only [Js.updateQuantity, hf, hm, hd, toDoubleInt_two_pow_53_pred, hs,
    toDoubleInt_two_pow_53_succ, if_neg hz]
  rfl

/-- Removing the rose then leaves the counter at 0 with the amber in the cart. -/
theorem Js_removeFromCart_two_pow_53 :
    Js.removeFromCart "rose-oud"
        { cart := [{ id := "rose-oud", name := "Rose Oud", price := 120,
                     quantity := 9007199254740992 },
                   { id := "amber-night", name := "Amber Night", price := 95, quantity := 1 }],
          cartCount := 9007199254740992 } =
      { cart := [{ id := "amber-night", name := "Amber Night", price := 95, quantity := 1 }],
        cartCount := 0 } := by
  have hf : findItem "rose-oud"
      [{ id := "rose-oud", name := "Rose Oud", price := 120, quantity := 9007199254740992 },
       { id := "amber-night", name := "Amber Night", price := 95, quantity := 1 }] =
      some { id := "rose-oud", name := "Rose Oud", price := 120,
             quantity := 9007199254740992 } := rfl
  have hd : (9007199254740992 : ℤ) - 9007199254740992 = 0 := by norm_num
  simp only [Js.removeFromCart, hf, hd, toDoubleInt_zero]
  rfl

theorem Js_runCart_append (ops more : List CartOp) :
    Js.runCart (ops ++ more) = more.foldl (fun s op => Js.runOp op s) (Js.runCart ops) := by
  simp only [Js.runCart, List.foldl_append]

/-- C16 as stated fails in the arithmetic of JavaScript numbers.  The integer 2^53 is
a double.  After `addToCart(rose)`, `addToCart(amber)` and
`updateQuantity("rose-oud", 2^53)` the counter is 2^53 while the quantities sum to
2^53 + 1; after `removeFromCart("rose-oud")` the counter is 0 while the cart holds the
amber with quantity 1. -/
theorem cartCount_drifts_at_two_pow_53 :
    toDoubleInt 9007199254740992 = 9007199254740992 ∧
    (Js.runCart [CartOp.add roseProduct, CartOp.add amberProduct,
        CartOp.update "rose-oud" 9007199254740992]).cartCount = 9007199254740992 ∧
    totalQuantity (Js.runCart [CartOp.add roseProduct, CartOp.add amberProduct,
        CartOp.update "rose-oud" 9007199254740992]).cart = 9007199254740993 ∧
    Js.runCart [CartOp.add roseProduct, CartOp.add amberProduct,
        CartOp.update "rose-oud" 9007199254740992, CartOp.remove "rose-oud"] =
      { cart := [{ id := "amber-night", name := "Amber Night", price := 95, quantity := 1 }],
        cartCount := 0 } ∧
    (Js.runCart [CartOp.add roseProduct, CartOp.add amberProduct,
        CartOp.update "rose-oud" 9007199254740992, CartOp.remove "rose-oud"]).cartCount ≠
      totalQuantity (Js.runCart [CartOp.add roseProduct, CartOp.add amberProduct,
        CartOp.update "rose-oud" 9007199254740992, CartOp.remove "rose-oud"]).cart := by
  have h3 : Js.runCart [CartOp.add roseProduct, CartOp.add amberProduct,
        CartOp.update "rose-oud" 9007199254740992] =
      { cart := [{ id := "rose-oud", name := "Rose Oud", price := 120,
                   quantity := 9007199254740992 },
                 { id := "amber-night", name := "Amber Night", price := 95, quantity := 1 }],
        cartCount := 9007199254740992 } := by
    have happ := Js_runCart_append [CartOp.add roseProduct, CartOp.add amberProduct]
      [CartOp.update "rose-oud" 9007199254740992]
    rw [Js_runCart_two_adds] at happ
    exact happ.trans Js_updateQuantity_two_pow_53
  have h4 : Js.runCart [CartOp.add roseProduct, CartOp.add amberProduct,
        CartOp.update "rose-oud" 9007199254740992, CartOp.remove "rose-oud"] =
      { cart := [{ id := "amber-night", name := "Amber Night", price := 95, quantity := 1 }],
        cartCount := 0 } := by
    have happ := Js_runCart_append [CartOp.add roseProduct, CartOp.add amberProduct,
        CartOp.update "rose-oud" 9007199254740992] [CartOp.remove "rose-oud"]
    rw [h3] at happ
    exact happ.trans Js_removeFromCart_two_pow_53
  refine ⟨toDoubleInt_two_pow_53, ?_, ?_, h4, ?_⟩
  · rw [h3]
  · rw [h3]
    simp only [totalQuantity, List.map_cons, List.map_nil, List.sum_cons, List.sum_nil]
    norm_num
  · rw [h4]
    simp only [totalQuantity, List.map_cons, List.map_nil, List.sum_cons, List.sum_nil]
    norm_num

/-- C16, as the code behaves in the arithmetic of JavaScript numbers.  Starting from
the empty cart with `cartCount = 0`, after every finite sequence of calls of
`addToCart(product)`, `removeFromCart(id)` and `updateQuantity(id, n)` with integer
`n`, whatever its sign and whether or not `id` is in the cart, every item in the cart
has a quantity of at least 1 and the ids of the items in the cart are pairwise
distinct; and when the number of `addToCart` calls plus the sum of `max(0, n)` over the
`updateQuantity` calls is below 2^53 = 9007199254740992, `cartCount` equals the sum of
the quantities of the items in the cart. -/
theorem cart_invariant_within_doubles (ops : List CartOp) :
    (∀ item ∈ (Js.runCart ops).cart, 1 ≤ item.quantity) ∧
    ((Js.runCart ops).cart.map (fun item => item.id)).Nodup ∧
    (cartWeight ops < 9007199254740992 →
      (Js.runCart ops).cartCount =
        ((Js.runCart ops).cart.map (fun item => item.quantity)).sum) := by
  obtain ⟨h1, h2⟩ := Js_foldl_shape ops CartState.start (by simp [CartState.start])
    (by simp [CartState.start])
  refine ⟨h1, h2, ?_⟩
  intro hb
  rw [Js_runCart_eq ops hb]
  exact (foldl_invariant ops CartState.start
    ⟨rfl, by simp [CartState.start], by simp [CartState.start]⟩).1

/-- Witness of C16: two roses and an amber are added, the roses are set to 5, the
amber is set to -2 and an id that is not in the cart is removed; the weight is 8. -/
theorem cart_invariant_within_doubles_witness :
    cartWeight [CartOp.add roseProduct, CartOp.add roseProduct, CartOp.add amberProduct,
        CartOp.update "rose-oud" 5, CartOp.update "amber-night" (-2),
        CartOp.remove "vetiver"] < 9007199254740992 ∧
    (Js.runCart [CartOp.add roseProduct, CartOp.add roseProduct, CartOp.add amberProduct,
        CartOp.update "rose-oud" 5, CartOp.update "amber-night" (-2),
        CartOp.remove "vetiver"]).cartCount =
      ((Js.runCart [CartOp.add roseProduct, CartOp.add roseProduct, CartOp.add amberProduct,
        CartOp.update "rose-oud" 5, CartOp.update "amber-night" (-2),
        CartOp.remove "vetiver"]).cart.map (fun item => item.quantity)).sum :=
  ⟨by decide,
   (cart_invariant_within_doubles [CartOp.add roseProduct, CartOp.add roseProduct,
      CartOp.add amberProduct, CartOp.update "rose-oud" 5, CartOp.update "amber-night" (-2),
      CartOp.remove "vetiver"]).2.2 (by decide)⟩

/-! ## `formatNumber` in the arithmetic of numbers -/

theorem expandTemplate_nil (before after group1 : List Char) :
    expandTemplate before after group1 [] = [] := by
  rw [expandTemplate]

theorem expandTemplate_plain (before after group1 : List Char) (c : Char) (rest : List Char)
    (h : c ≠ '$') :
    expandTemplate before after group1 (c :: rest) =
      c :: expandTemplate before after group1 rest := by
  conv_lhs => unfold expandTemplate
  simp only [if_neg h]

/-- A template without `$` is substituted as it is. -/
theorem expandTemplate_literal (before after group1 : List Char) (t : List Char)
    (h : '$' ∉ t) : expandTemplate before after group1 t = t := by
  induction t with
  | nil => exact expandTemplate_nil _ _ _
  | cons c rest ih =>
    have hc : c ≠ '$' := fun e => h (by simp [e])
    have hr : '$' ∉ rest := fun e => h (by simp [e])
    rw [expandTemplate_plain _ _ _ _ _ hc, ih hr]

/-- The template `$$` is substituted as a single `$`. -/
theorem expandTemplate_two_dollars (before after group1 : List Char) :
    expandTemplate before after group1 ['$', '$'] = ['$'] := by
  rfl

theorem Js_replaceFrom_literal (t : List Char) (h : '$' ∉ t) (before s : List Char) :
    Js.replaceFrom t before s = replaceFrom t before.getLast? s := by
  induction s generalizing before with
  | nil => simp only [Js.replaceFrom, replaceFrom, expandTemplate_literal _ _ _ t h]
  | cons c cs ih =>
    simp only [Js.replaceFrom, replaceFrom, expandTemplate_literal _ _ _ t h, ih,
      List.getLast?_append, List.getLast?_singleton]
    rfl

/-- With a template without `$` the replacement inserts the template as it is. -/
theorem Js_replaceThousands_literal (t : List Char) (h : '$' ∉ t) (s : List Char) :
    Js.replaceThousands t s = replaceThousands t s := by
  simp only [Js.replaceThousands, replaceThousands, Js_replaceFrom_literal t h,
    List.getLast?_nil]

/-- In the range of the fixed notation `toFixed` throws nothing and gives the digits of
the nearest multiple of `10 ^ -f`. -/
theorem Js_toFixed_fixed (toStr : ℚ → List Char) (r : ℚ) (f : ℕ) (h0 : 0 ≤ r)
    (h21 : r < (10 : ℚ) ^ 21) (hf : f ≤ 100) :
    Js.toFixed toStr (some r) f =
      .ok (fixedNotation ⌊r * (10 : ℚ) ^ f + 1 / 2⌋.toNat f) := by
  have h1 : ¬ 100 < f := by omega
  have h2 : ¬ r < 0 := not_lt.mpr h0
  have h3 : ¬ (10 : ℚ) ^ 21 ≤ r := not_le.mpr h21
  simp only [Js.toFixed, if_neg h1, if_neg h2, if_neg h3, List.nil_append]
  rfl

theorem Js_toFixed_eq_toFixed (toStr : ℚ → List Char) (r : ℚ) (f : ℕ) (h0 : 0 ≤ r)
    (h21 : r < (10 : ℚ) ^ 21) (hf : f ≤ 100) :
    Js.toFixed toStr (some r) f = .ok (toFixed r f) := by
  have h2 : ¬ r < 0 := not_lt.mpr h0
  rw [Js_toFixed_fixed toStr r f h0 h21 hf]
  simp only [toFixed, if_neg h2, List.nil_append]
  rfl

theorem Js_formatNumber_of_rounded (A : Arith (Option ℚ)) (toStr : ℚ → List Char)
    (x : Option ℚ) (o : FormatOptions) (r : ℚ) (text : List Char)
    (hr : A.div (A.round (A.mul x (A.pow10 o.decimals))) (A.pow10 o.decimals) = some r)
    (ht : Js.toFixed toStr (some r) o.decimals = .ok text) :
    Js.formatNumber A toStr x o =
      .ok (String.mk (Js.replaceThousands o.thousandsSeparator.data (splitChar '.' text).1 ++
        joinRest o.decimalSeparator.data (splitChar '.' text).2)) := by
  simp only [Js.formatNumber, hr, ht]

theorem Js_formatNumber_throws (A : Arith (Option ℚ)) (toStr : ℚ → List Char)
    (x : Option ℚ) (o : FormatOptions) (h : 100 < o.decimals) :
    Js.formatNumber A toStr x o =
      .error "RangeError: toFixed() digits argument must be between 0 and 100" := by
  simp only [Js.formatNumber, Js.toFixed, if_pos h]

theorem exactArith_rounded (q : ℚ) (d : ℕ) :
    exactArith.div (exactArith.round (exactArith.mul (some q) (exactArith.pow10 d)))
        (exactArith.pow10 d) =
      some ((⌊q * (10 : ℚ) ^ d + 1 / 2⌋ : ℚ) / (10 : ℚ) ^ d) := by
  have h10 : ((10 : ℚ) ^ d) ≠ 0 := pow_ne_zero _ (by norm_num)
  simp only [exactArith, mathRound_eq, if_neg h10]

/-- Over exact arithmetic, in the range of the fixed notation and with a separator
without `$`, the two models of `formatNumber` agree. -/
theorem Js_formatNumber_exact (toStr : ℚ → List Char) (x : ℚ) (o : FormatOptions)
    (hx : 0 ≤ x)
    (h21 : (⌊x * (10 : ℚ) ^ o.decimals + 1 / 2⌋ : ℚ) / (10 : ℚ) ^ o.decimals < (10 : ℚ) ^ 21)
    (hd : o.decimals ≤ 100) (hts : '$' ∉ o.thousandsSeparator.data) :
    Js.formatNumber exactArith toStr (some x) o = .ok (CurrencyUtils.formatNumber x o) := by
  have hfl : (0 : ℤ) ≤ ⌊x * (10 : ℚ) ^ o.decimals + 1 / 2⌋ :=
    Int.floor_nonneg.mpr (by positivity)
  have h0 : (0 : ℚ) ≤ (⌊x * (10 : ℚ) ^ o.decimals + 1 / 2⌋ : ℚ) / (10 : ℚ) ^ o.decimals := by
    have : (0 : ℚ) ≤ (⌊x * (10 : ℚ) ^ o.decimals + 1 / 2⌋ : ℚ) := by exact_mod_cast hfl
    positivity
  rw [Js_formatNumber_of_rounded exactArith toStr (some x) o _ _ (exactArith_rounded x _)
    (Js_toFixed_eq_toFixed toStr _ _ h0 h21 hd), Js_replaceThousands_literal _ hts]
  simp only [CurrencyUtils.formatNumber, mathRound_eq]

/-- The grouping of a numeral: a first group of one to three digits, then groups of
exactly three digits, each behind the separator. -/
theorem replaceThousands_groups (sep : List Char) (numeral : List Char) (hne : numeral ≠ [])
    (hall : ∀ c ∈ numeral, isDigitChar c = true) :
    ∃ (first : List Char) (later : List (List Char)),
      1 ≤ first.length ∧ first.length ≤ 3 ∧ (∀ g ∈ later, g.length = 3) ∧
      first ++ later.flatten = numeral ∧
      (numeral.length ≤ 3 → later = []) ∧
      replaceThousands sep numeral =
        first ++ (later.map (fun g => sep ++ g)).flatten := by
  cases numeral with
  | nil => exact absurd rfl hne
  | cons a rest =>
    obtain ⟨groups, h3, hjoin, hsep⟩ := separateFromRight_groups sep rest
    have hmod : rest.length % 3 < 3 := Nat.mod_lt _ (by decide)
    refine ⟨a :: rest.take (rest.length % 3), groups, by simp, ?_, h3, ?_, ?_, ?_⟩
    · simp only [List.length_cons, List.length_take]
      omega
    · rw [List.cons_append, hjoin]
    · intro hlen
      have hr : rest.length ≤ 2 := by simpa using hlen
      have hm : rest.length % 3 = rest.length := Nat.mod_eq_of_lt (by omega)
      rw [hm, List.take_length] at hjoin
      have hnil : groups.flatten = [] := by
        have := congrArg List.length hjoin
        simp only [List.length_append] at this
        exact List.length_eq_zero.mp (by omega)
      cases groups with
      | nil => rfl
      | cons g gs =>
        have hg := h3 g (by simp)
        have := congrArg List.length hnil
        simp only [List.flatten_cons, List.length_append, List.length_nil] at this
        omega
    · rw [replaceThousands_digits _ a rest hall, hsep]
      simp [List.append_assoc]

/-- C10, as the code behaves.  Let `r` be the number that
`Math.round(x * Math.pow(10, d)) / Math.pow(10, d)` evaluates to in the arithmetic of
numbers, whatever that arithmetic is, and write `n = ⌊r * 10^d + 1/2⌋`, so that `r`
rounded to `d` places is `n / 10^d`.  If `0 ≤ r < 10^21`, `1 ≤ d ≤ 100` and the
thousands separator `ts` contains no `$`, then `formatNumber(x, {d, ts, ds})` throws
nothing and is `I ++ ds ++ F`, where `F` is the `d` digits of `n / 10^d` after the
point, and `I` is the decimal numeral of the integer part of `n / 10^d` cut into a
first group of one to three digits and later groups of exactly three, with `ts` in
front of every later group and nowhere else; there is no later group when the numeral
has at most three digits.  Over exact arithmetic `r` is `⌊x * 10^d + 1/2⌋ / 10^d`. -/
theorem formatNumber_groups_in_fixed_range (A : Arith (Option ℚ)) (toStr : ℚ → List Char)
    (x : Option ℚ) (o : FormatOptions) (r : ℚ)
    (hr : A.div (A.round (A.mul x (A.pow10 o.decimals))) (A.pow10 o.decimals) = some r)
    (h0 : 0 ≤ r) (h21 : r < (10 : ℚ) ^ 21) (hd : 1 ≤ o.decimals) (hd100 : o.decimals ≤ 100)
    (hts : '$' ∉ o.thousandsSeparator.data) :
    (∃ (first : List Char) (later : List (List Char)),
      1 ≤ first.length ∧ first.length ≤ 3 ∧ (∀ g ∈ later, g.length = 3) ∧
      first ++ later.flatten =
        Nat.toDigits 10 (⌊r * (10 : ℚ) ^ o.decimals + 1 / 2⌋.toNat / 10 ^ o.decimals) ∧
      ((Nat.toDigits 10
          (⌊r * (10 : ℚ) ^ o.decimals + 1 / 2⌋.toNat / 10 ^ o.decimals)).length ≤ 3 →
        later = []) ∧
      (fractionDigits o.decimals ⌊r * (10 : ℚ) ^ o.decimals + 1 / 2⌋.toNat).length =
        o.decimals ∧
      Js.formatNumber A toStr x o =
        .ok (String.mk
          (first ++ (later.map (fun g => o.thousandsSeparator.data ++ g)).flatten ++
            o.decimalSeparator.data ++
            fractionDigits o.decimals ⌊r * (10 : ℚ) ^ o.decimals + 1 / 2⌋.toNat))) ∧
    (∀ q : ℚ, A = exactArith → x = some q →
      r = (⌊q * (10 : ℚ) ^ o.decimals + 1 / 2⌋ : ℚ) / (10 : ℚ) ^ o.decimals) := by
  constructor
  · rw [Js_formatNumber_of_rounded A toStr x o r _ hr (Js_toFixed_fixed toStr r _ h0 h21 hd100),
      fixedNotation_eq _ _ (by omega),
      splitChar_at_sep '.' _ _
        (fun c hc => isDigitChar_ne_point c (toDigits_allDigits _ c hc)),
      splitChar_no_sep '.' _
        (fun c hc => isDigitChar_ne_point c (fractionDigits_allDigits _ _ c hc)),
      Js_replaceThousands_literal _ hts]
    generalize ⌊r * (10 : ℚ) ^ o.decimals + 1 / 2⌋.toNat = n
    obtain ⟨first, later, h1, h2, h3, h4, h5, h6⟩ :=
      replaceThousands_groups o.thousandsSeparator.data
        (Nat.toDigits 10 (n / 10 ^ o.decimals)) (toDigits_ne_nil _) (toDigits_allDigits _)
    refine ⟨first, later, h1, h2, h3, h4, h5, fractionDigits_length _ _, ?_⟩
    rw [h6]
    simp [joinRest, List.append_assoc]
  · intro q hA hx
    subst hA
    subst hx
    rw [exactArith_rounded] at hr
    exact (Option.some.inj hr).symm

theorem toDouble_ten_squared : toDouble ((10 : ℚ) ^ 2) = 100 := by
  have h : (10 : ℚ) ^ 2 = 100 := by norm_num
  rw [h, toDouble_hundred]

theorem toDouble_123456700 : toDouble (1234567 * 100) = 123456700 := by
  rw [toDouble_of_pos _ 26 8285038890188800 (by norm_num) (by norm_num) (by norm_num)
    (by constructor <;> norm_num)]
  norm_num

theorem toDouble_1234567 : toDouble (123456700 / 100) = 1234567 := by
  rw [toDouble_of_pos _ 20 5302424889720832 (by norm_num) (by norm_num) (by norm_num)
    (by constructor <;> norm_num)]
  norm_num

theorem mathRound_123456700 : mathRound 123456700 = 123456700 := by
  rw [mathRound_eq, Int.floor_eq_iff]
  norm_num

/-- In double arithmetic `Math.round(1234567 * Math.pow(10, 2)) / Math.pow(10, 2)` is
1234567. -/
theorem rounded_1234567 :
    doubleArith.div (doubleArith.round (doubleArith.mul (some 1234567) (doubleArith.pow10 2)))
        (doubleArith.pow10 2) = some 1234567 := by
  have h100 : (100 : ℚ) ≠ 0 := by norm_num
  have hc : ((123456700 : ℤ) : ℚ) / 100 = 123456700 / 100 := by norm_num
  simp only [doubleArith, toDouble_ten_squared, toDouble_123456700, mathRound_123456700,
    if_neg h100, hc, toDouble_1234567]

/-- In double arithmetic `Math.round(x * Math.pow(10, 2)) / Math.pow(10, 2)` is the
double nearest to 0.08 for the double `x` nearest to 0.075, which lies below 0.075. -/
theorem rounded_below_0075 :
    doubleArith.div (doubleArith.round (doubleArith.mul
        (some (5404319552844595 / 72057594037927936)) (doubleArith.pow10 2)))
        (doubleArith.pow10 2) = some (5764607523034235 / 72057594037927936) := by
  have h100 : (100 : ℚ) ≠ 0 := by norm_num
  have hc : ((8 : ℤ) : ℚ) / 100 = 8 / 100 := by norm_num
  simp only [doubleArith, toDouble_ten_squared, toDouble_scaled_quarter,
    mathRound_seven_and_half, if_neg h100, hc, toDouble_eight_cents]

theorem toDouble_ten_pow_24 :
    toDouble (10000000000000000000000 * 100) = 999999999999999983222784 := by
  rw [toDouble_of_pos _ 79 7450580596923828 (by norm_num) (by norm_num) (by norm_num)
    (by constructor <;> norm_num)]
  norm_num

theorem toDouble_ten_pow_22 :
    toDouble (999999999999999983222784 / 100) = 10000000000000000000000 := by
  rw [toDouble_of_pos _ 73 4768371582031250 (by norm_num) (by norm_num) (by norm_num)
    (by constructor <;> norm_num)]
  norm_num

theorem mathRound_ten_pow_24 :
    mathRound 999999999999999983222784 = 999999999999999983222784 := by
  rw [mathRound_eq, Int.floor_eq_iff]
  norm_num

/-- In double arithmetic `Math.round(1e22 * Math.pow(10, 2)) / Math.pow(10, 2)` is
`1e22`. -/
theorem rounded_ten_pow_22 :
    doubleArith.div (doubleArith.round (doubleArith.mul (some 10000000000000000000000)
        (doubleArith.pow10 2))) (doubleArith.pow10 2) = some 10000000000000000000000 := by
  have h100 : (100 : ℚ) ≠ 0 := by norm_num
  have hc : ((999999999999999983222784 : ℤ) : ℚ) / 100 = 999999999999999983222784 / 100 := by
    norm_num
  simp only [doubleArith, toDouble_ten_squared, toDouble_ten_pow_24, mathRound_ten_pow_24,
    if_neg h100, hc, toDouble_ten_pow_22]

/-- From `10 ^ 21` on `toFixed` gives `ToString(x)`. -/
theorem Js_toFixed_large (toStr : ℚ → List Char) (r : ℚ) (f : ℕ)
    (h21 : (10 : ℚ) ^ 21 ≤ r) (hf : f ≤ 100) :
    Js.toFixed toStr (some r) f = .ok (toStr r) := by
  have h1 : ¬ 100 < f := by omega
  have h2 : ¬ r < 0 := not_lt.mpr (le_trans (by positivity) h21)
  simp only [Js.toFixed, if_neg h1, if_neg h2, if_pos h21, List.nil_append]

theorem Js_formatNumber_1234567 (toStr : ℚ → List Char) :
    Js.formatNumber doubleArith toStr (some 1234567)
        { defaultOptions with thousandsSeparator := "$$" } = .ok "1$234$567.00" := by
  have hn : ⌊(1234567 : ℚ) * (10 : ℚ) ^ 2 + 1 / 2⌋ = 123456700 := by
    rw [Int.floor_eq_iff]
    norm_num
  have ht := Js_toFixed_fixed toStr 1234567 2 (by norm_num) (by norm_num) (by norm_num)
  rw [hn] at ht
  rw [Js_formatNumber_of_rounded doubleArith toStr (some 1234567) _ 1234567 _
    rounded_1234567 ht]
  rfl

theorem Js_formatNumber_below_0075 (toStr : ℚ → List Char) :
    Js.formatNumber doubleArith toStr (some (5404319552844595 / 72057594037927936))
        defaultOptions = .ok "0.08" := by
  have hn : ⌊(5764607523034235 / 72057594037927936 : ℚ) * (10 : ℚ) ^ 2 + 1 / 2⌋ = 8 := by
    rw [Int.floor_eq_iff]
    norm_num
  have ht := Js_toFixed_fixed toStr (5764607523034235 / 72057594037927936) 2 (by norm_num)
    (by norm_num) (by norm_num)
  rw [hn] at ht
  rw [Js_formatNumber_of_rounded doubleArith toStr _ _ _ _ rounded_below_0075 ht]
  rfl

theorem Js_formatNumber_ten_pow_22 (toStr : ℚ → List Char)
    (h : toStr 10000000000000000000000 = ['1', 'e', '+', '2', '2']) :
    Js.formatNumber doubleArith toStr (some 10000000000000000000000) defaultOptions =
      .ok "1e+22" := by
  have ht := Js_toFixed_large toStr 10000000000000000000000 2 (by norm_num) (by norm_num)
  rw [h] at ht
  rw [Js_formatNumber_of_rounded doubleArith toStr _ _ _ _ rounded_ten_pow_22 ht]
  rfl

/-- The number 5404319552844595 / 2^56, a little below 0.075, is a double. -/
theorem toDouble_below_0075 :
    toDouble (5404319552844595 / 72057594037927936) =
      5404319552844595 / 72057594037927936 := by
  rw [toDouble_of_pos _ (-4) 5404319552844595 (by norm_num) (by norm_num) (by norm_num)
    (by constructor <;> norm_num)]
  norm_num

theorem statedFormatNumber_1234567 :
    statedFormatNumber 1234567 2 "$$" "." = "1$$234$$567.00" := by
  have hn : ⌊(1234567 : ℚ) * (10 : ℚ) ^ 2 + 1 / 2⌋ = 123456700 := by
    rw [Int.floor_eq_iff]
    norm_num
  simp only [statedFormatNumber, hn]
  rfl

theorem statedFormatNumber_below_0075 :
    statedFormatNumber (5404319552844595 / 72057594037927936) 2 "," "." = "0.07" := by
  have hn : ⌊(5404319552844595 / 72057594037927936 : ℚ) * (10 : ℚ) ^ 2 + 1 / 2⌋ = 7 := by
    rw [Int.floor_eq_iff]
    norm_num
  simp only [statedFormatNumber, hn]
  rfl

/-- C10 as stated fails.  With the thousands separator `"$$"`, which contains no
digit, `formatNumber(1234567, ...)` is `"1$234$567.00"` and not `"1$$234$$567.00"`:
`replace` reads the separator as a replacement template.  For the double nearest to
0.075, which lies below 0.075 and so rounds to 0.07, `formatNumber` gives `"0.08"`.
With 101 decimals `formatNumber` throws a `RangeError`.  And for `1e22`, where
`toFixed` gives `"1e+22"`, `formatNumber` gives `"1e+22"`, without any fraction
digits. -/
theorem formatNumber_differs_from_stated_grouping :
    (∀ toStr : ℚ → List Char,
      Js.formatNumber doubleArith toStr (some 1234567)
        { defaultOptions with thousandsSeparator := "$$" } = .ok "1$234$567.00") ∧
    statedFormatNumber 1234567 2 "$$" "." = "1$$234$$567.00" ∧
    (∀ toStr : ℚ → List Char,
      Js.formatNumber doubleArith toStr (some (5404319552844595 / 72057594037927936))
        defaultOptions = .ok "0.08") ∧
    toDouble (5404319552844595 / 72057594037927936) = 5404319552844595 / 72057594037927936 ∧
    statedFormatNumber (5404319552844595 / 72057594037927936) 2 "," "." = "0.07" ∧
    (∀ toStr : ℚ → List Char,
      Js.formatNumber doubleArith toStr (some 1) { defaultOptions with decimals := 101 } =
        .error "RangeError: toFixed() digits argument must be between 0 and 100") ∧
    (∀ toStr : ℚ → List Char, toStr 10000000000000000000000 = ['1', 'e', '+', '2', '2'] →
      Js.formatNumber doubleArith toStr (some 10000000000000000000000) defaultOptions =
        .ok "1e+22") :=
  ⟨Js_formatNumber_1234567, statedFormatNumber_1234567, Js_formatNumber_below_0075,
   toDouble_below_0075, statedFormatNumber_below_0075,
   fun toStr => Js_formatNumber_throws doubleArith toStr (some 1) _ (by decide),
   Js_formatNumber_ten_pow_22⟩

/-- Witness of C10: 1234567 with the default options in double arithmetic, and the
rounding of 1234567.891 over exact arithmetic. -/
theorem formatNumber_groups_in_fixed_range_witness :
    (doubleArith.div (doubleArith.round (doubleArith.mul (some 1234567)
        (doubleArith.pow10 defaultOptions.decimals))) (doubleArith.pow10 defaultOptions.decimals) =
        some 1234567 ∧
      (0 : ℚ) ≤ 1234567 ∧ (1234567 : ℚ) < (10 : ℚ) ^ 21 ∧ 1 ≤ defaultOptions.decimals ∧
      defaultOptions.decimals ≤ 100 ∧ '$' ∉ defaultOptions.thousandsSeparator.data) ∧
    ∃ (first : List Char) (later : List (List Char)),
      1 ≤ first.length ∧ first.length ≤ 3 ∧ (∀ g ∈ later, g.length = 3) ∧
      first ++ later.flatten =
        Nat.toDigits 10
          (⌊(1234567 : ℚ) * (10 : ℚ) ^ defaultOptions.decimals + 1 / 2⌋.toNat /
            10 ^ defaultOptions.decimals) ∧
      ((Nat.toDigits 10
          (⌊(1234567 : ℚ) * (10 : ℚ) ^ defaultOptions.decimals + 1 / 2⌋.toNat /
            10 ^ defaultOptions.decimals)).length ≤ 3 →
        later = []) ∧
      (fractionDigits defaultOptions.decimals
        ⌊(1234567 : ℚ) * (10 : ℚ) ^ defaultOptions.decimals + 1 / 2⌋.toNat).length =
        defaultOptions.decimals ∧
      Js.formatNumber doubleArith (fun _ => []) (some 1234567) defaultOptions =
        .ok (String.mk
          (first ++ (later.map (fun g => defaultOptions.thousandsSeparator.data ++ g)).flatten ++
            defaultOptions.decimalSeparator.data ++
            fractionDigits defaultOptions.decimals
              ⌊(1234567 : ℚ) * (10 : ℚ) ^ defaultOptions.decimals + 1 / 2⌋.toNat)) :=
  ⟨⟨rounded_1234567, by norm_num, by norm_num, by decide, by decide, by decide⟩,
   (formatNumber_groups_in_fixed_range doubleArith (fun _ => []) (some 1234567) defaultOptions
      1234567 rounded_1234567 (by norm_num) (by norm_num) (by decide) (by decide)
      (by decide)).1⟩

/-- Over exact arithmetic, and when the code looked up is not the name of an inherited
member, the two models of `convertPrice` agree. -/
theorem Js_convertPrice_exact (cat : CurrencyData) (self : CurrencyUtils) (p : ℚ)
    (target : Option String)
    (h : cat.get (self.currencyOf cat target) ≠ none ∨
      self.currencyOf cat target ∉ objectPrototypeNames) :
    Js.convertPrice exactArith cat self (some p) target =
      some (self.convertPrice cat p target) := by
  cases hg : cat.get (self.currencyOf cat target) with
  | some info =>
    simp only [Js.convertPrice, CurrencyUtils.convertPrice, member_of_key cat _ info hg, hg]
    rw [exactArith_convert, mathRound_eq]
  | none =>
    have hn : self.currencyOf cat target ∉ objectPrototypeNames := by
      rcases h with h | h
      · exact absurd hg h
      · exact h
    simp only [Js.convertPrice, CurrencyUtils.convertPrice, member_of_unknown cat _ hg hn, hg]

end Scents
